import Mathlib

/-!
Verification of the jiminy simulation-kernel specification against a shallow
embedding of the repository sources. The embedding covers:

* the telemetry registry (src/core/include/jiminy/core/telemetry/telemetry_data.hxx),
* the telemetry recorder and binary-log parser (src/core/src/telemetry/telemetry_recorder.cc),
* the Dormand-Prince step-adjustment policy (src/core/src/stepper/runge_kutta_dopri_stepper.cc),
* the distance constraint (src/core/src/constraints/distance_constraint.cc).

Bytes are modelled as natural numbers, machine integers as Nat/Int with
explicit reduction modulo 2 ^ 64, float64 payloads as their 64-bit patterns
(the recorder copies them verbatim), and real-valued numerics as real numbers.
All definitions precede all theorems.
-/
namespace Jiminy

/-- Error kinds of jiminy, mirroring hresult_t in the sources. -/
inductive hresult where
  | SUCCESS
  | ERROR_GENERIC
  | ERROR_BAD_INPUT
  | ERROR_INIT_FAILED
deriving DecidableEq, Repr

/-- A byte stream, each entry standing for one byte (values kept below 256 by
construction of the encoders). -/
abbrev Bytes := List ℕ

/-! ### Little-endian byte encoding, as performed by MemoryDevice writes -/

/-- Little-endian encoding of a natural number on n bytes, as the recorder
stores raw 64-bit words. -/
def encodeWord : ℕ → ℕ → Bytes
  | 0, _ => []
  | n + 1, w => w % 256 :: encodeWord n (w / 256)

/-- Little-endian decoding of a byte list into a natural number. -/
def bytesToNat (bs : Bytes) : ℕ :=
  bs.foldr (fun b acc => b + 256 * acc) 0

/-- Reinterpretation of a 64-bit word as a signed two-complement int64, as
reading an int64_t from the log does. -/
def toSigned64 (w : ℕ) : ℤ :=
  if w < 2 ^ 63 then (w : ℤ) else (w : ℤ) - 2 ^ 64

/-- Serialization of an int64_t value: its two-complement 64-bit pattern,
little-endian. -/
def encodeInt64 (z : ℤ) : Bytes :=
  encodeWord 8 (z.emod (2 ^ 64)).toNat

/-- Decoding of eight log bytes into an int64_t value. -/
def decodeInt64 (bs : Bytes) : ℤ :=
  toSigned64 (bytesToNat bs)

/-! ### Telemetry registry (telemetry_data.hxx)

Names are byte strings. The per-kind registry is the ordered sequence of
(name, value) pairs; the C++ deque hands out a pointer to the slot, modelled
here by the slot index, which emplace_back at the end never changes. -/

/-- Shallow embedding of TelemetryData::registerVariable (telemetry_data.hxx).
Returns the result code, the registry after the call, and the slot handed back
through the out-parameter (none when the out-parameter is left untouched). -/
def registerVariable {α : Type} (isRegisteringAvailable : Bool)
    (registry : List (Bytes × α)) (dflt : α) (name : Bytes) :
    hresult × List (Bytes × α) × Option ℕ :=
  match registry.findIdx? (fun kv => kv.1 == name) with
  | some i => (hresult.SUCCESS, registry, some i)
  | none =>
    if isRegisteringAvailable then
      (hresult.SUCCESS, registry ++ [(name, dflt)], some registry.length)
    else
      (hresult.ERROR_GENERIC, registry, none)

/-- Registry and constants of a telemetry session (TelemetryData state).
Float values are carried as their 64-bit patterns. -/
structure TelemetryData where
  constants : List (Bytes × Bytes)
  intRegistry : List (Bytes × ℤ)
  floatRegistry : List (Bytes × ℕ)
  isRegisteringAvailable : Bool
deriving DecidableEq, Repr

/-- Modelled from the spec: TelemetryData::freeze (telemetry_data.cc is not in
the sources); it closes the registration window. -/
def TelemetryData.freeze (td : TelemetryData) : TelemetryData :=
  { td with isRegisteringAvailable := false }

/-- Modelled from the spec: TelemetryData::registerConstant (telemetry_data.cc
is not in the sources); it appends to the constants if the name is not already
present and the registration window is open, and fails otherwise. -/
def TelemetryData.registerConstant (td : TelemetryData) (name value : Bytes) :
    hresult × TelemetryData :=
  if td.constants.any (fun kv => kv.1 == name) then
    (hresult.ERROR_BAD_INPUT, td)
  else if td.isRegisteringAvailable then
    (hresult.SUCCESS, { td with constants := td.constants ++ [(name, value)] })
  else
    (hresult.ERROR_INIT_FAILED, td)

/-! ### Distance constraint (distance_constraint.cc)

Three-dimensional vectors are functions from Fin 3, with the Euclidean dot
product, norm and cross product written out as Eigen computes them. The
mechanics oracle (pinocchio) is modelled by the frame placements, world-aligned
linear and angular frame velocities, accelerations and translational frame
jacobians it returns, plus a validity flag standing for a live model pointer
with resolvable frame names. -/

/-- Vectors of R^3, the type of Eigen Vector3d values. -/
abbrev Vec3 := Fin 3 → ℝ

/-- Eigen dot product on Vector3d. -/
noncomputable def dot3 (u v : Vec3) : ℝ := u 0 * v 0 + u 1 * v 1 + u 2 * v 2

/-- Eigen norm on Vector3d: square root of the dot product with itself. -/
noncomputable def norm3 (v : Vec3) : ℝ := Real.sqrt (dot3 v v)

/-- Eigen cross product on Vector3d. -/
noncomputable def cross3 (u v : Vec3) : Vec3 :=
  ![u 1 * v 2 - u 2 * v 1, u 2 * v 0 - u 0 * v 2, u 0 * v 1 - u 1 * v 0]

/-- Outputs of the mechanics oracle at the constraint frames, in the
world-aligned (LOCAL_WORLD_ALIGNED) convention, together with a validity flag
standing for a live model pointer whose frame names resolve. Jlin i j is
column j of the translational block of the jacobian of frame i. -/
structure Mech where
  valid : Bool
  p : Fin 2 → Vec3
  v : Fin 2 → Vec3
  a : Fin 2 → Vec3
  ω : Fin 2 → Vec3
  Jlin : Fin 2 → ℕ → Vec3

/-- State of a DistanceConstraint: attachment flag, Baumgarte gains, reference
distance, and the computed jacobian row, drift and multiplier. -/
structure DistanceConstraint where
  isAttached : Bool
  kp : ℝ
  kd : ℝ
  distanceRef : ℝ
  jacobian : ℕ → ℝ
  drift : ℝ
  lambda : ℝ

/-- Vector from the second to the first constraint frame. -/
noncomputable def deltaPos (m : Mech) : Vec3 := m.p 0 - m.p 1

/-- Relative linear velocity between the constraint frames. -/
noncomputable def deltaVel (m : Mech) : Vec3 := m.v 0 - m.v 1

/-- Unit direction between the frames, deltaPosition / deltaPositionNorm. -/
noncomputable def direction3 (m : Mech) : Vec3 :=
  fun i => deltaPos m i / norm3 (deltaPos m)

/-- Linear frame acceleration with the centripetal correction
omega cross v added, as computeJacobianAndDrift forms it. -/
noncomputable def centAcc (m : Mech) (i : Fin 2) : Vec3 :=
  m.a i + cross3 (m.ω i) (m.v i)

/-- Shallow embedding of DistanceConstraint::setReferenceDistance. -/
noncomputable def DistanceConstraint.setReferenceDistance
    (c : DistanceConstraint) (d : ℝ) : hresult × DistanceConstraint :=
  if d < 0 then (hresult.ERROR_BAD_INPUT, c)
  else (hresult.SUCCESS, { c with distanceRef := d })

/-- Shallow embedding of DistanceConstraint::reset: on success it zeroes the
jacobian, drift and multiplier buffers and overwrites the reference distance
with the current distance between the frames. -/
noncomputable def DistanceConstraint.reset (c : DistanceConstraint) (m : Mech) :
    hresult × DistanceConstraint :=
  if m.valid then
    (hresult.SUCCESS,
      { c with
        jacobian := fun _ => 0
        drift := 0
        lambda := 0
        distanceRef := norm3 (deltaPos m) })
  else (hresult.ERROR_GENERIC, c)

/-- Shallow embedding of DistanceConstraint::computeJacobianAndDrift. -/
noncomputable def DistanceConstraint.computeJacobianAndDrift
    (c : DistanceConstraint) (m : Mech) : hresult × DistanceConstraint :=
  if ¬ c.isAttached then (hresult.ERROR_GENERIC, c)
  else
    let dir := direction3 m
    let dv := deltaVel m
    let proj := dot3 dv dir
    let jacRow := fun j => dot3 dir (m.Jlin 0 j - m.Jlin 1 j)
    let drift :=
      dot3 dir (centAcc m 0 - centAcc m 1)
      + (dot3 dv dv - proj ^ 2) / norm3 (deltaPos m)
      + c.kp * (norm3 (deltaPos m) - c.distanceRef) + c.kd * proj
    (hresult.SUCCESS, { c with jacobian := jacRow, drift := drift })

/-- Baumgarte position residual of the distance constraint, the factor of kp
in the drift: current inter-frame distance minus the reference distance. -/
noncomputable def DistanceConstraint.residual (c : DistanceConstraint)
    (m : Mech) : ℝ :=
  norm3 (deltaPos m) - c.distanceRef

/-- Concrete constraint state used by the counterexamples and witnesses. -/
noncomputable def cEx : DistanceConstraint :=
  { isAttached := true, kp := 100, kd := 20, distanceRef := 0,
    jacobian := fun _ => 0, drift := 0, lambda := 0 }

/-- Concrete mechanics state: frames at (1,0,0) and (0,0,0), everything else
zero, model alive. -/
noncomputable def mEx : Mech :=
  { valid := true
    p := ![![1, 0, 0], ![0, 0, 0]]
    v := fun _ => 0
    a := fun _ => 0
    ω := fun _ => 0
    Jlin := fun _ _ => 0 }

/-! ### Dormand-Prince step adjustment (runge_kutta_dopri_stepper.cc)

Float64 arithmetic is idealized over the reals; NaN, which has no real
counterpart, is represented explicitly: the step-control error is an
Option, none standing for NaN. The DOPRI constants live in a header that is
not part of the sources and are modelled from the spec. -/

namespace DOPRI

/-- Modelled from the spec: safety factor of the step controller
(runge_kutta_dopri_stepper.h is not in the sources; the spec fixes 0.9). -/
noncomputable def SAFETY : ℝ := 0.9

/-- Modelled from the spec: largest allowed shrink factor after a rejected
step (the spec fixes 0.2). -/
noncomputable def MIN_FACTOR : ℝ := 0.2

/-- Modelled from the spec: largest allowed growth factor after an accepted
step (the spec fixes 5.0). -/
noncomputable def MAX_FACTOR : ℝ := 5

/-- Modelled from the spec: order p of the embedded method (the spec fixes
p = 5). -/
noncomputable def STEPPER_ORDER : ℝ := 5

end DOPRI

/-- Shallow embedding of RungeKuttaDOPRIStepper::adjustStepImpl. The error is
none when the float computation produced NaN. Returns whether the step is
accepted together with the updated timestep. -/
noncomputable def adjustStepImpl (error : Option ℝ) (dt : ℝ) : Bool × ℝ :=
  match error with
  | none => (false, 0.1 * dt)
  | some e =>
    if e < 1 then
      if e < DOPRI.SAFETY ^ DOPRI.STEPPER_ORDER then
        (true, dt * (DOPRI.SAFETY *
          (max e ((DOPRI.MAX_FACTOR / DOPRI.SAFETY) ^ (-DOPRI.STEPPER_ORDER)))
            ^ (-1 / DOPRI.STEPPER_ORDER)))
      else (true, dt)
    else
      (false, dt * max
        (DOPRI.SAFETY * e ^ (-1 / (DOPRI.STEPPER_ORDER - 2)))
        DOPRI.MIN_FACTOR)

/-- The adjustment policy exactly as the specification words it, with the
numeric exponents p = 5 and p - 2 = 3 spelled out. -/
noncomputable def specAdjustPolicy (error : Option ℝ) (dt : ℝ) : Bool × ℝ :=
  match error with
  | none => (false, 0.1 * dt)
  | some e =>
    if e < 1 then
      if e < DOPRI.SAFETY ^ (5 : ℝ) then
        (true, dt * (DOPRI.SAFETY *
          (max e ((DOPRI.MAX_FACTOR / DOPRI.SAFETY) ^ (-(5 : ℝ))))
            ^ (-(1 / 5) : ℝ)))
      else (true, dt)
    else
      (false, dt * max (DOPRI.SAFETY * e ^ (-(1 / 3) : ℝ)) DOPRI.MIN_FACTOR)

/-! ### Telemetry recorder (telemetry_recorder.cc)

A chunk is a MemoryDevice: a fixed, zero-initialized byte buffer with a
cursor. The recorder holds the list of chunks, the byte counters, and the
registries snapshotted at initialization. The tokens and the header layout
live in files that are not part of the sources (constants.h,
telemetry_data.cc) and are modelled from the spec, with the token placed
before each constant as the in-source parser requires. -/

/-- Modelled from the spec: the START_CONSTANTS marker (constants.h is not in
the sources), the byte string StartConstants. -/
def START_CONSTANTS : Bytes :=
  [83, 116, 97, 114, 116, 67, 111, 110, 115, 116, 97, 110, 116, 115]

/-- Modelled from the spec: the START_COLUMNS marker, the byte string
StartColumns. -/
def START_COLUMNS : Bytes :=
  [83, 116, 97, 114, 116, 67, 111, 108, 117, 109, 110, 115]

/-- Modelled from the spec: the START_LINE_TOKEN row marker, the byte string
StartLine. -/
def START_LINE_TOKEN : Bytes := [83, 116, 97, 114, 116, 76, 105, 110, 101]

/-- Modelled from the spec: the START_DATA marker, the byte string
StartData. -/
def START_DATA : Bytes := [83, 116, 97, 114, 116, 68, 97, 116, 97]

/-- Modelled from the spec: the key=value delimiter of header constants. -/
def TELEMETRY_CONSTANT_DELIMITER : Bytes := [61]

/-- Modelled from the spec: the log format version written at the head of the
log and checked by the parser. -/
def TELEMETRY_VERSION : ℕ := 1

/-- Modelled from the spec: the name of the time-unit constant,
Global.Time.Unit. -/
def TIME_UNIT : Bytes :=
  [71, 108, 111, 98, 97, 108, 46, 84, 105, 109, 101, 46, 85, 110, 105, 116]

/-- A MemoryDevice: fixed-size zero-initialized buffer with a cursor and an
open flag. -/
structure Chunk where
  buf : Bytes
  pos : ℕ
  isOpen : Bool
deriving DecidableEq, Repr

/-- MemoryDevice::write - copies the bytes at the cursor when they fit into
the buffer of an open device, failing without effect otherwise. -/
def Chunk.write (c : Chunk) (bs : Bytes) : hresult × Chunk :=
  if c.isOpen ∧ c.pos + bs.length ≤ c.buf.length then
    (hresult.SUCCESS,
      { c with
        buf := c.buf.take c.pos ++ bs ++ c.buf.drop (c.pos + bs.length)
        pos := c.pos + bs.length })
  else (hresult.ERROR_GENERIC, c)

/-- A sequence of writes whose result codes are ignored, as flushDataSnapshot
issues them. -/
def Chunk.writeMany (c : Chunk) (bss : List Bytes) : Chunk :=
  bss.foldl (fun c bs => (c.write bs).2) c

/-- MemoryDevice::close. -/
def Chunk.close (c : Chunk) : Chunk := { c with isOpen := false }

/-- Map a function over the last element of a list, as operations on
flows_.back() do. -/
def modifyLast {α : Type} (f : α → α) : List α → List α
  | [] => []
  | [a] => [f a]
  | a :: rest => a :: modifyLast f rest

/-- State of a TelemetryRecorder. -/
structure TelemetryRecorder where
  flows : List Chunk
  isInitialized : Bool
  recordedBytes : ℕ
  recordedBytesLimits : ℕ
  headerSize : ℕ
  integerSectionSize : ℕ
  floatSectionSize : ℕ
  recordedBytesDataLine : ℕ
  integersRegistry : List (Bytes × ℤ)
  floatsRegistry : List (Bytes × ℕ)
deriving DecidableEq, Repr

/-- A freshly constructed recorder. -/
def TelemetryRecorder.fresh : TelemetryRecorder :=
  { flows := [], isInitialized := false, recordedBytes := 0,
    recordedBytesLimits := 0, headerSize := 0, integerSectionSize := 0,
    floatSectionSize := 0, recordedBytesDataLine := 0,
    integersRegistry := [], floatsRegistry := [] }

/-- TelemetryRecorder::getIsInitialized. -/
def TelemetryRecorder.getIsInitialized (r : TelemetryRecorder) : Bool :=
  r.isInitialized

/-- Shallow embedding of TelemetryRecorder::createNewChunk. The uniform
minimum chunk size TELEMETRY_MIN_BUFFER_SIZE lives in constants.h, which is
not in the sources; the spec gives no numeric value, so it is a parameter
minBuf of the model. -/
def TelemetryRecorder.createNewChunk (r : TelemetryRecorder) (minBuf : ℕ) :
    hresult × TelemetryRecorder :=
  let flows1 := if r.flows.isEmpty then r.flows else modifyLast Chunk.close r.flows
  let headerContribution := if flows1.isEmpty then r.headerSize else 0
  let maxBufferSize := max minBuf headerContribution
  let maxRecordedDataLines :=
    (maxBufferSize - headerContribution) / r.recordedBytesDataLine
  let limits := headerContribution + maxRecordedDataLines * r.recordedBytesDataLine
  (hresult.SUCCESS,
    { r with
      flows := flows1 ++ [{ buf := List.replicate limits 0, pos := 0, isOpen := true }]
      recordedBytesLimits := limits
      recordedBytes := 0 })

/-- Modelled from the spec: TelemetryData::formatHeader (telemetry_data.cc is
not in the sources). Version, the constants as key=value entries each preceded
by the line token, then the fieldnames as NUL-terminated strings framed by the
section markers, as the in-source parser parseLogDataRaw expects them. -/
def formatHeader (constants : List (Bytes × Bytes)) (fieldnames : List Bytes) :
    Bytes :=
  encodeWord 4 TELEMETRY_VERSION
  ++ START_CONSTANTS ++ [0]
  ++ (constants.map (fun kv =>
      START_LINE_TOKEN ++ kv.1 ++ TELEMETRY_CONSTANT_DELIMITER ++ kv.2 ++ [0])).flatten
  ++ START_COLUMNS ++ [0]
  ++ (fieldnames.map (fun f => f ++ [0])).flatten
  ++ START_DATA ++ [0]

/-- Shallow embedding of TelemetryRecorder::initialize. The rendering of the
time unit into a decimal string is floating-point formatting and is taken as
the parameter timeUnitStr; initialize registers it as the Global.Time.Unit
constant (ignoring the result code, as the source does), snapshots the
registries and section sizes, creates the first chunk and writes the header
into it. -/
def TelemetryRecorder.setup (r : TelemetryRecorder) (minBuf : ℕ)
    (td : TelemetryData) (timeUnitStr : Bytes) : hresult × TelemetryRecorder :=
  let rc0 := if r.isInitialized then hresult.ERROR_INIT_FAILED else hresult.SUCCESS
  let td1 := (td.registerConstant TIME_UNIT timeUnitStr).2
  if rc0 = hresult.SUCCESS then
    let r1 := { r with
      flows := []
      integersRegistry := td1.intRegistry
      integerSectionSize := 8 * td1.intRegistry.length
      floatsRegistry := td1.floatRegistry
      floatSectionSize := 8 * td1.floatRegistry.length
      recordedBytesDataLine := 8 * td1.intRegistry.length
        + 8 * td1.floatRegistry.length + (START_LINE_TOKEN.length + 8) }
    let header := formatHeader td1.constants
      (td1.intRegistry.map Prod.fst ++ td1.floatRegistry.map Prod.fst)
    let r2 := { r1 with headerSize := header.length }
    match r2.createNewChunk minBuf with
    | (hresult.SUCCESS, r3) =>
      match r3.flows with
      | [] => (hresult.ERROR_GENERIC, r3)
      | c0 :: rest =>
        match c0.write header with
        | (hresult.SUCCESS, c0w) =>
          (hresult.SUCCESS,
            { r3 with
              flows := c0w :: rest
              recordedBytes := header.length
              isInitialized := true })
        | (rcW, c0w) => (rcW, { r3 with flows := c0w :: rest })
    | (rc1, r3) => (rc1, r3)
  else (rc0, r)

/-- Shallow embedding of TelemetryRecorder::flushDataSnapshot, taking the
already-quantized time round(timestamp / timeUnit) as an integer. When the
current chunk is exactly full a new chunk is created first; then the line
token, the quantized time and the integer and float registry values are
written in order, their result codes ignored, and the byte counter advances
by one row. -/
def TelemetryRecorder.flushDataSnapshot (r : TelemetryRecorder) (minBuf : ℕ)
    (q : ℤ) : hresult × TelemetryRecorder :=
  let (rc, r1) := if r.recordedBytes = r.recordedBytesLimits
    then r.createNewChunk minBuf else (hresult.SUCCESS, r)
  if rc = hresult.SUCCESS then
    let r2 := { r1 with
      flows := modifyLast (fun c => c.writeMany
        (START_LINE_TOKEN :: encodeInt64 q ::
          (r1.integersRegistry.map (fun (kv : Bytes × ℤ) => encodeInt64 kv.2) ++
           r1.floatsRegistry.map (fun (kv : Bytes × ℕ) => encodeWord 8 kv.2)))) r1.flows }
    (hresult.SUCCESS,
      { r2 with recordedBytes := r2.recordedBytes + r2.recordedBytesDataLine })
  else (rc, r1)

/-- TelemetryRecorder::reset - closes the most recent chunk if any and clears
the initialization flag (the flows list itself is only cleared by the next
initialize). -/
def TelemetryRecorder.reset (r : TelemetryRecorder) : TelemetryRecorder :=
  { r with
    flows := if r.flows.isEmpty then r.flows else modifyLast Chunk.close r.flows
    isInitialized := false }

/-- One row of telemetry data: quantized time, integer values, float bit
patterns, as present in the registries when a snapshot is flushed. -/
structure Row where
  time : ℤ
  ints : List ℤ
  floats : List ℕ
deriving DecidableEq, Repr

/-- Overwrite the registry values in place, as the telemetry senders do
through the pointers handed out at registration. -/
def TelemetryRecorder.updateRegistryValues (r : TelemetryRecorder)
    (ints : List ℤ) (floats : List ℕ) : TelemetryRecorder :=
  { r with
    integersRegistry :=
      List.zipWith (fun (kv : Bytes × ℤ) v => (kv.1, v)) r.integersRegistry ints
    floatsRegistry :=
      List.zipWith (fun (kv : Bytes × ℕ) v => (kv.1, v)) r.floatsRegistry floats }

/-- Write one row: update the registry values through the registered slots,
then flush a snapshot at the row's quantized time. -/
def recordStep (minBuf : ℕ) (r : TelemetryRecorder) (row : Row) :
    TelemetryRecorder :=
  ((r.updateRegistryValues row.ints row.floats).flushDataSnapshot minBuf row.time).2

/-- Record a finite sequence of rows. -/
def recordAll (minBuf : ℕ) (r : TelemetryRecorder) (rows : List Row) :
    TelemetryRecorder :=
  rows.foldl (recordStep minBuf) r

/-! ### Log parser (parseLogDataRaw in telemetry_recorder.cc) -/

/-- Index of the first occurrence of the byte pattern pat in l, the length of
l when there is none: std::search over the byte range. -/
def findSub (pat : Bytes) : Bytes → ℕ
  | [] => 0
  | b :: t =>
    if pat.length ≤ (b :: t).length ∧ (b :: t).take pat.length = pat then 0
    else findSub pat t + 1

/-- The constants loop of parseLogDataRaw, operating on the suffix of the
header starting at the current constant. Each round locates the next line
token (or, for the last constant, the START_COLUMNS marker), splits the
constant at the key=value delimiter, and finally returns the parsed constants
together with the suffix positioned at the fieldnames. The fuel bounds the
iteration count; the callers pass more than the byte count, which the loop,
consuming at least one token per round, never exhausts. -/
def parseConstantsLoop (fuel : ℕ) (s : Bytes) (acc : List (Bytes × Bytes)) :
    List (Bytes × Bytes) × Bytes :=
  match fuel with
  | 0 => (acc, s)
  | fuel + 1 =>
    let nextIdx := findSub START_LINE_TOKEN s
    let isLast := nextIdx = s.length
    let sepIdx := if isLast then findSub START_COLUMNS s else nextIdx
    let delimIdx := findSub TELEMETRY_CONSTANT_DELIMITER (s.take sepIdx)
    let key := s.take delimIdx
    let value :=
      (s.take (sepIdx - 1)).drop (delimIdx + TELEMETRY_CONSTANT_DELIMITER.length)
    if isLast then
      (acc ++ [(key, value)], s.drop (sepIdx + START_COLUMNS.length + 1))
    else
      parseConstantsLoop fuel (s.drop (nextIdx + START_LINE_TOKEN.length))
        (acc ++ [(key, value)])

/-- The fieldnames loop of parseLogDataRaw: read NUL-terminated strings until
the START_DATA marker. -/
def parseFieldnamesLoop (fuel : ℕ) (s : Bytes) (acc : List Bytes) : List Bytes :=
  match fuel with
  | 0 => acc
  | fuel + 1 =>
    let fieldname := s.takeWhile (fun b => b != 0)
    if fieldname = START_DATA then acc
    else parseFieldnamesLoop fuel (s.drop (fieldname.length + 1)) (acc ++ [fieldname])

/-- Split a byte stream into n little-endian 64-bit words, as reading a
section of n names into a column does. -/
def decodeWords : ℕ → Bytes → List ℕ
  | 0, _ => []
  | n + 1, bs => bytesToNat (bs.take 8) :: decodeWords n (bs.drop 8)

/-- The data-line loop of parseLogDataRaw on the byte suffix at the cursor:
while bytes remain, probe one byte; unless it is the first byte of
START_LINE_TOKEN the data in this chunk is over; otherwise skip the token and
read the timestamp, the integer section and the float section of one row. -/
def parseRows (intSec floatSec : ℕ) : Bytes → List Row
  | [] => []
  | b :: t =>
    if b = START_LINE_TOKEN.headI then
      let s1 := (b :: t).drop START_LINE_TOKEN.length
      let time := decodeInt64 (s1.take 8)
      let s2 := s1.drop 8
      let ints := (decodeWords (intSec / 8) (s2.take intSec)).map toSigned64
      let s3 := s2.drop intSec
      let floats := decodeWords (floatSec / 8) (s3.take floatSec)
      { time := time, ints := ints, floats := floats } ::
        parseRows intSec floatSec (s3.drop floatSec)
    else []
termination_by s => s.length
decreasing_by
  simp only [List.length_drop]
  simp only [List.length_cons]
  omega

/-- Typed content of a parsed log. intData and floatData hold one column per
data row, in row order. -/
structure LogData where
  version : ℕ
  constants : List (Bytes × Bytes)
  fieldnames : List Bytes
  timestamps : List ℤ
  intData : List (List ℤ)
  floatData : List (List ℕ)
deriving DecidableEq, Repr

/-- Processing of the first flow by parseLogDataRaw: save the cursor, seek to
the start, read and check the version word, read the rest of the header and
parse the constants and fieldnames from it, then read the data lines and
restore the cursor. On a version mismatch the function returns at once,
leaving the cursor after the version word. -/
def parseFirstFlow (intSec floatSec headerSize : ℕ) (c : Chunk) :
    hresult × (List (Bytes × Bytes) × List Bytes × List Row) × Chunk :=
  let posOld := c.pos
  let c0 : Chunk := { c with pos := 0 }
  let versionBytes := (c0.buf.drop c0.pos).take 4
  let c1 : Chunk := { c0 with pos := c0.pos + 4 }
  if bytesToNat versionBytes ≠ TELEMETRY_VERSION then
    (hresult.ERROR_BAD_INPUT, ([], [], []), c1)
  else
    let hb := (c1.buf.drop c1.pos).take (headerSize - c1.pos)
    let c2 : Chunk := { c1 with pos := c1.pos + (headerSize - c1.pos) }
    let afterTokens :=
      hb.drop (START_CONSTANTS.length + 1 + START_LINE_TOKEN.length)
    let parsed := parseConstantsLoop (hb.length + 1) afterTokens []
    let fieldnames := parseFieldnamesLoop (parsed.2.length + 1) parsed.2 []
    let rows := parseRows intSec floatSec (c2.buf.drop c2.pos)
    (hresult.SUCCESS, (parsed.1, fieldnames, rows), { c2 with pos := posOld })

/-- Processing of a subsequent flow: save the cursor, seek to the start, read
the data lines, restore the cursor. -/
def parseRestFlow (intSec floatSec : ℕ) (c : Chunk) : List Row × Chunk :=
  let posOld := c.pos
  let c0 : Chunk := { c with pos := 0 }
  let rows := parseRows intSec floatSec (c0.buf.drop c0.pos)
  (rows, { c0 with pos := posOld })

/-- Shallow embedding of parseLogDataRaw: the header is parsed from the first
flow, the data lines of all flows are concatenated in flow order, and the
final shrink leaves exactly the parsed rows. On a version mismatch the
function aborts, leaving the later flows untouched. -/
def parseLogDataRaw (intSec floatSec headerSize : ℕ) (flows : List Chunk) :
    hresult × LogData × List Chunk :=
  let base : LogData :=
    { version := 0, constants := [], fieldnames := [],
      timestamps := [], intData := [], floatData := [] }
  match flows with
  | [] => (hresult.SUCCESS, base, [])
  | c :: rest =>
    match parseFirstFlow intSec floatSec headerSize c with
    | (hresult.SUCCESS, parsed, c1) =>
      let restParsed := rest.map (parseRestFlow intSec floatSec)
      let allRows := parsed.2.2 ++ (restParsed.map Prod.fst).flatten
      (hresult.SUCCESS,
        { version := TELEMETRY_VERSION
          constants := parsed.1
          fieldnames := parsed.2.1
          timestamps := allRows.map Row.time
          intData := allRows.map Row.ints
          floatData := allRows.map Row.floats },
        c1 :: restParsed.map Prod.snd)
    | (rc, _, c1) => (rc, base, c1 :: rest)

/-- TelemetryRecorder::getLog - parse the in-memory chunks with the recorded
section sizes. -/
def TelemetryRecorder.getLog (r : TelemetryRecorder) :
    hresult × LogData × TelemetryRecorder :=
  let parsed := parseLogDataRaw r.integerSectionSize r.floatSectionSize
    r.headerSize r.flows
  (parsed.1, parsed.2.1, { r with flows := parsed.2.2 })

/-- Per-flow body of TelemetryRecorder::writeLog: save the cursor, seek to the
start, read the bytes up to the saved cursor, restore the cursor. -/
def writeLogFlow (c : Chunk) : Bytes × Chunk :=
  let posOld := c.pos
  let c0 : Chunk := { c with pos := 0 }
  let bytes := (c0.buf.drop c0.pos).take posOld
  let c1 : Chunk := { c0 with pos := c0.pos + posOld }
  (bytes, { c1 with pos := posOld })

/-- TelemetryRecorder::writeLog on the success path of opening the output
file: concatenate the used prefix of every chunk. The file device itself is
the out-of-scope byte sink; the bytes written to it are returned. -/
def TelemetryRecorder.writeLog (r : TelemetryRecorder) :
    Bytes × TelemetryRecorder :=
  let parts := r.flows.map writeLogFlow
  ((parts.map Prod.fst).flatten, { r with flows := parts.map Prod.snd })

/-! ### Closed-form description of the recorder state

The verification describes the recorder after initialize and a sequence of
flushes in closed form: the first chunk holds the header and the first
n0 = (max(minBuf, H) - H) / R rows, every further chunk holds up to
n1 = minBuf / R rows, and only the last chunk is open and partially filled. -/

/-- Byte image of one data row: line token, quantized time, integer section,
float section. -/
def encodeRowBytes (row : Row) : Bytes :=
  START_LINE_TOKEN ++ encodeInt64 row.time ++
  (row.ints.map encodeInt64).flatten ++ (row.floats.map (encodeWord 8)).flatten

/-- Byte image of a sequence of rows. -/
def rowsBytes (rows : List Row) : Bytes := (rows.map encodeRowBytes).flatten

/-- A chunk of capacity cap whose used prefix is content, the rest of the
zero-initialized buffer untouched. -/
def mkChunk (cap : ℕ) (content : Bytes) (opn : Bool) : Chunk :=
  { buf := content ++ List.replicate (cap - content.length) 0
    pos := content.length
    isOpen := opn }

/-- Partition of a list into consecutive groups of n elements, the last group
possibly shorter (degenerate single group when n = 0, a case the recorder
never produces since its row size is positive). -/
def groupN {α : Type} : ℕ → List α → List (List α)
  | _, [] => []
  | 0, a :: t => [a :: t]
  | n + 1, a :: t => (a :: t).take (n + 1) :: groupN (n + 1) ((a :: t).drop (n + 1))
termination_by _ l => l.length
decreasing_by
  simp only [List.drop_succ_cons, List.length_cons, List.length_drop]
  omega

/-- The telemetry data actually used by initialize: the input data with the
Global.Time.Unit constant registered. -/
def td1Of (td : TelemetryData) (tuStr : Bytes) : TelemetryData :=
  (td.registerConstant TIME_UNIT tuStr).2

/-- Fieldnames of the header: integer names then float names, in registration
order. -/
def fieldNamesOf (td : TelemetryData) (tuStr : Bytes) : List Bytes :=
  (td1Of td tuStr).intRegistry.map Prod.fst ++
  (td1Of td tuStr).floatRegistry.map Prod.fst

/-- The header bytes written by initialize. -/
def headerOf (td : TelemetryData) (tuStr : Bytes) : Bytes :=
  formatHeader (td1Of td tuStr).constants (fieldNamesOf td tuStr)

/-- The recorder's row size recordedBytesDataLine. -/
def rowSizeOf (td : TelemetryData) (tuStr : Bytes) : ℕ :=
  8 * (td1Of td tuStr).intRegistry.length
    + 8 * (td1Of td tuStr).floatRegistry.length
    + (START_LINE_TOKEN.length + 8)

/-- Row capacity of the first chunk. -/
def lines0Of (minBuf : ℕ) (td : TelemetryData) (tuStr : Bytes) : ℕ :=
  (max minBuf (headerOf td tuStr).length - (headerOf td tuStr).length)
    / rowSizeOf td tuStr

/-- Row capacity of every later chunk. -/
def lines1Of (minBuf : ℕ) (td : TelemetryData) (tuStr : Bytes) : ℕ :=
  minBuf / rowSizeOf td tuStr

/-- Registry contents with the given names and values. -/
def regWith {α : Type} (names : List Bytes) (vals : List α) : List (Bytes × α) :=
  List.zipWith Prod.mk names vals

/-- Closed form of the chunk list after the given rows have been recorded. -/
def flowsAfter (minBuf : ℕ) (td : TelemetryData) (tuStr : Bytes)
    (rows : List Row) : List Chunk :=
  let H := (headerOf td tuStr).length
  let R := rowSizeOf td tuStr
  let n0 := lines0Of minBuf td tuStr
  let n1 := lines1Of minBuf td tuStr
  let seg0 := rows.take n0
  let later := groupN n1 (rows.drop n0)
  match later.getLast? with
  | none => [mkChunk (H + n0 * R) (headerOf td tuStr ++ rowsBytes seg0) true]
  | some lastG =>
    mkChunk (H + n0 * R) (headerOf td tuStr ++ rowsBytes seg0) false ::
      (later.dropLast.map (fun g => mkChunk (n1 * R) (rowsBytes g) false) ++
        [mkChunk (n1 * R) (rowsBytes lastG) true])

/-- Closed form of the whole recorder state after initialize on a fresh
recorder followed by recording the given rows. -/
def stateAfter (minBuf : ℕ) (td : TelemetryData) (tuStr : Bytes)
    (rows : List Row) : TelemetryRecorder :=
  let H := (headerOf td tuStr).length
  let R := rowSizeOf td tuStr
  let n0 := lines0Of minBuf td tuStr
  let n1 := lines1Of minBuf td tuStr
  let td1 := td1Of td tuStr
  { flows := flowsAfter minBuf td tuStr rows
    isInitialized := true
    recordedBytes :=
      match (groupN n1 (rows.drop n0)).getLast? with
      | none => H + (rows.take n0).length * R
      | some lastG => lastG.length * R
    recordedBytesLimits :=
      match (groupN n1 (rows.drop n0)).getLast? with
      | none => H + n0 * R
      | some _ => n1 * R
    headerSize := H
    integerSectionSize := 8 * td1.intRegistry.length
    floatSectionSize := 8 * td1.floatRegistry.length
    recordedBytesDataLine := R
    integersRegistry :=
      match rows.getLast? with
      | none => td1.intRegistry
      | some row => regWith (td1.intRegistry.map Prod.fst) row.ints
    floatsRegistry :=
      match rows.getLast? with
      | none => td1.floatRegistry
      | some row => regWith (td1.floatRegistry.map Prod.fst) row.floats }

/-- Well-formed telemetry name: printable text with no NUL and no byte equal
to the first byte of the section markers (capital S), so that the header
searches of the parser cannot match inside it. -/
def wfName (bs : Bytes) : Prop := 83 ∉ bs ∧ 0 ∉ bs

/-- Well-formed constant key: a well-formed name without the key=value
delimiter. -/
def wfKey (bs : Bytes) : Prop := wfName bs ∧ 61 ∉ bs

/-- Well-formed header constant. -/
def wfConstant (kv : Bytes × Bytes) : Prop := wfKey kv.1 ∧ wfName kv.2

/-- Well-formed rows for a recorder with nI integer and nF float signals:
section lengths match the registries, integer values fit int64 (they are
int64_t in the source), float payloads are 64-bit patterns. -/
def wfRows (nI nF : ℕ) (rows : List Row) : Prop :=
  ∀ row ∈ rows,
    row.ints.length = nI ∧ row.floats.length = nF ∧
    (∀ z ∈ row.ints, -(2 ^ 63) ≤ z ∧ z < 2 ^ 63) ∧
    (∀ w ∈ row.floats, w < 2 ^ 64) ∧
    (-(2 ^ 63) ≤ row.time ∧ row.time < 2 ^ 63)

/-- Concrete telemetry session used by the counterexamples and witnesses of
the recorder theorems: one constant, one integer signal, one float signal. -/
def tdEx : TelemetryData :=
  { constants := [([65], [66])]
    intRegistry := [([105], 0)]
    floatRegistry := [([102], 0)]
    isRegisteringAvailable := true }

/-- Concrete data row used by the witnesses: one integer and one float value,
as the tdEx registries expect. -/
def rowEx : Row := { time := 3, ints := [5], floats := [7] }

/-! ### Theorems -/

theorem length_encodeWord (n w : ℕ) : (encodeWord n w).length = n := by
  induction n generalizing w with
  | zero => rfl
  | succ n ih => simp [encodeWord, ih]

theorem bytesToNat_encodeWord (n w : ℕ) :
    bytesToNat (encodeWord n w) = w % 256 ^ n := by
  induction n generalizing w with
  | zero => simp [encodeWord, bytesToNat, Nat.mod_one]
  | succ n ih =>
    simp only [encodeWord, bytesToNat, List.foldr] at *
    rw [ih, pow_succ, Nat.mul_comm (256 ^ n) 256]
    have h1 : w % (256 * 256 ^ n) % 256 = w % 256 :=
      Nat.mod_mod_of_dvd w ⟨256 ^ n, rfl⟩
    have h2 : w % (256 * 256 ^ n) / 256 = w / 256 % 256 ^ n :=
      Nat.mod_mul_right_div_self w 256 (256 ^ n)
    omega

theorem bytesToNat_encodeWord8 (w : ℕ) (h : w < 2 ^ 64) :
    bytesToNat (encodeWord 8 w) = w := by
  rw [bytesToNat_encodeWord]
  have h256 : (256 : ℕ) ^ 8 = 2 ^ 64 := by norm_num
  rw [h256]
  exact Nat.mod_eq_of_lt h

/-- Round-trip of the signed int64 serialization, for values in range. -/
theorem decodeInt64_encodeInt64 (z : ℤ) (h1 : -(2 ^ 63) ≤ z) (h2 : z < 2 ^ 63) :
    decodeInt64 (encodeInt64 z) = z := by
  unfold decodeInt64 encodeInt64
  have hmod : z.emod (2 ^ 64) = if 0 ≤ z then z else z + 2 ^ 64 := by
    split
    · exact Int.emod_eq_of_lt (by assumption) (by omega)
    · have hself : (z + 2 ^ 64 * 1).emod (2 ^ 64) = z.emod (2 ^ 64) :=
        Int.add_mul_emod_self_left z (2 ^ 64) 1
      rw [mul_one] at hself
      rw [← hself]
      exact Int.emod_eq_of_lt (by omega) (by omega)
  rw [hmod]
  split
  · have hz : z.toNat < 2 ^ 64 := by omega
    rw [bytesToNat_encodeWord8 _ hz]
    unfold toSigned64
    split
    · omega
    · omega
  · have hz : (z + 2 ^ 64).toNat < 2 ^ 64 := by omega
    rw [bytesToNat_encodeWord8 _ hz]
    unfold toSigned64
    split
    · omega
    · omega

/-- C2 counterexample input: after freeze, a registerVariable call for the
already-registered name [97] still returns SUCCESS, so the claim that every
call fails after freeze is false on this input. -/
theorem registerVariable_frozen_counterexample :
    (registerVariable false [([97], (0 : ℤ))] 0 [97]).1 = hresult.SUCCESS := by
  rfl

/-- C2 (amended): after freeze, a registerVariable call with a name not
already registered fails with ERROR_GENERIC and leaves the registry and the
out-parameter unchanged; a call with an already-registered name still returns
SUCCESS with the existing slot and leaves the registry unchanged. -/
theorem registerVariable_after_freeze {α : Type} (td : TelemetryData)
    (registry : List (Bytes × α)) (d : α) (name : Bytes) :
    ((∀ kv ∈ registry, kv.1 ≠ name) →
      registerVariable td.freeze.isRegisteringAvailable registry d name =
        (hresult.ERROR_GENERIC, registry, none)) ∧
    (∀ i, registry.findIdx? (fun kv => kv.1 == name) = some i →
      registerVariable td.freeze.isRegisteringAvailable registry d name =
        (hresult.SUCCESS, registry, some i)) := by
  constructor
  · intro h
    have hnone : registry.findIdx? (fun kv => kv.1 == name) = none := by
      rw [List.findIdx?_eq_none_iff]
      intro kv hkv
      simpa using h kv hkv
    simp [registerVariable, hnone, TelemetryData.freeze]
  · intro i hi
    simp [registerVariable, hi]

/-- Closed witness for registerVariable_after_freeze at a concrete registry. -/
theorem registerVariable_after_freeze_witness :
    (∀ kv ∈ ([([98], (5 : ℤ))] : List (Bytes × ℤ)), kv.1 ≠ [97]) ∧
    registerVariable
        (TelemetryData.freeze ⟨[], [], [], true⟩).isRegisteringAvailable
        [([98], (5 : ℤ))] 0 [97] =
      (hresult.ERROR_GENERIC, [([98], (5 : ℤ))], none) := by
  refine ⟨by decide, ?_⟩
  exact (registerVariable_after_freeze ⟨[], [], [], true⟩ [([98], (5 : ℤ))] 0 [97]).1
    (by decide)

/-- C8: registerVariable is idempotent before freeze. Registering a fresh name
on the registry pre appends it and hands out the slot at index pre.length; a
repeated call with that name - in any later availability state, after any
mutation of the stored value, and after any number of later registrations
post appended behind it (the deque never invalidates existing slots on
emplace_back) - returns SUCCESS, hands out the same slot, and leaves the
registry with its contents and order unchanged. -/
theorem registerVariable_idempotent {α : Type} (pre post : List (Bytes × α))
    (d v : α) (name : Bytes) (avail2 : Bool)
    (h : ∀ kv ∈ pre, kv.1 ≠ name) :
    registerVariable true pre d name =
      (hresult.SUCCESS, pre ++ [(name, d)], some pre.length) ∧
    registerVariable avail2 (pre ++ [(name, v)] ++ post) d name =
      (hresult.SUCCESS, pre ++ [(name, v)] ++ post, some pre.length) := by
  have hnone : pre.findIdx? (fun kv => kv.1 == name) = none := by
    rw [List.findIdx?_eq_none_iff]
    intro kv hkv
    simpa using h kv hkv
  have happ : (pre ++ [(name, v)]).findIdx? (fun kv => kv.1 == name) =
      some pre.length := by
    rw [List.findIdx?_append, hnone]
    simp [List.findIdx?_cons]
  have happ2 : (pre ++ [(name, v)] ++ post).findIdx?
      (fun kv => kv.1 == name) = some pre.length := by
    rw [List.findIdx?_append, happ]
    rfl
  constructor
  · simp [registerVariable, hnone]
  · simp only [registerVariable]
    rw [happ2]

/-- Closed witness for registerVariable_idempotent at a concrete registry with
a later registration behind the re-registered name. -/
theorem registerVariable_idempotent_witness :
    (∀ kv ∈ ([([98], (5 : ℤ))] : List (Bytes × ℤ)), kv.1 ≠ [97]) ∧
    registerVariable true [([98], (5 : ℤ))] 0 [97] =
      (hresult.SUCCESS, [([98], 5), ([97], 0)], some 1) ∧
    registerVariable false [([98], (5 : ℤ)), ([97], 9), ([99], 7)] 0 [97] =
      (hresult.SUCCESS, [([98], 5), ([97], 9), ([99], 7)], some 1) := by
  refine ⟨by decide, ?_, ?_⟩
  · exact (registerVariable_idempotent [([98], (5 : ℤ))] [([99], 7)] 0 9 [97]
      false (by decide)).1
  · exact (registerVariable_idempotent [([98], (5 : ℤ))] [([99], 7)] 0 9 [97]
      false (by decide)).2

theorem norm3_deltaPos_mEx : norm3 (deltaPos mEx) = 1 := by
  have h : deltaPos mEx = ![1, 0, 0] := by
    funext i
    fin_cases i <;>
      simp [deltaPos, mEx, Matrix.cons_val_zero, Matrix.cons_val_one,
        Matrix.head_cons]
  rw [h]
  have hd : dot3 ![1, 0, 0] ![1, 0, 0] = 1 := by
    norm_num [dot3]
  rw [norm3, hd, Real.sqrt_one]

/-- C3 counterexample input: configure d_ref = 5 by setReferenceDistance
(which succeeds since 5 is nonnegative), then reset at a state where the
frames are a distance 1 apart; reset succeeds and the reference distance
afterwards is 1, not the configured 5. -/
theorem distance_reset_counterexample :
    (cEx.setReferenceDistance 5).1 = hresult.SUCCESS ∧
    (((cEx.setReferenceDistance 5).2.reset mEx).1 = hresult.SUCCESS) ∧
    ((cEx.setReferenceDistance 5).2.reset mEx).2.distanceRef ≠ 5 := by
  have hset : (cEx.setReferenceDistance 5).1 = hresult.SUCCESS := by
    rw [DistanceConstraint.setReferenceDistance]
    norm_num
  refine ⟨hset, ?_, ?_⟩
  · rw [DistanceConstraint.reset, if_pos (show mEx.valid = true from rfl)]
  · rw [DistanceConstraint.reset, if_pos (show mEx.valid = true from rfl)]
    show norm3 (deltaPos mEx) ≠ 5
    rw [norm3_deltaPos_mEx]
    norm_num

/-- C3 (amended): a successful setReferenceDistance(d) with d nonnegative does
not survive reset; a subsequent successful reset unconditionally overwrites
the reference distance with the current inter-frame distance. -/
theorem distance_reset_overwrites (c : DistanceConstraint) (m : Mech) (d : ℝ)
    (hd : 0 ≤ d) (hv : m.valid = true) :
    (c.setReferenceDistance d).1 = hresult.SUCCESS ∧
    ((c.setReferenceDistance d).2.reset m).1 = hresult.SUCCESS ∧
    ((c.setReferenceDistance d).2.reset m).2.distanceRef =
      norm3 (deltaPos m) := by
  have hset : ¬ d < 0 := not_lt.mpr hd
  refine ⟨?_, ?_, ?_⟩ <;>
    simp [DistanceConstraint.setReferenceDistance, DistanceConstraint.reset,
      hset, hv]

/-- Closed witness for distance_reset_overwrites at the concrete input. -/
theorem distance_reset_overwrites_witness :
    (0 : ℝ) ≤ 5 ∧ mEx.valid = true ∧
    ((cEx.setReferenceDistance 5).2.reset mEx).2.distanceRef =
      norm3 (deltaPos mEx) := by
  exact ⟨by norm_num, rfl,
    (distance_reset_overwrites cEx mEx 5 (by norm_num) rfl).2.2⟩

/-- C6: at a state where reset succeeds with the two frames at distinct
positions, the constraint residual at that same state is exactly zero (hence
within 1e-12), and the drift computed by computeJacobianAndDrift carries no
contribution from the Baumgarte position-feedback term kp times residual. -/
theorem distance_reset_residual_zero (c : DistanceConstraint) (m : Mech)
    (hAtt : c.isAttached = true) (hv : m.valid = true)
    (_hne : m.p 0 ≠ m.p 1) :
    (c.reset m).1 = hresult.SUCCESS ∧
    ((c.reset m).2.residual m = 0 ∧ |(c.reset m).2.residual m| ≤ 1e-12) ∧
    ((c.reset m).2.computeJacobianAndDrift m).1 = hresult.SUCCESS ∧
    ((c.reset m).2.computeJacobianAndDrift m).2.drift =
      dot3 (direction3 m) (centAcc m 0 - centAcc m 1)
      + (dot3 (deltaVel m) (deltaVel m) - dot3 (deltaVel m) (direction3 m) ^ 2)
          / norm3 (deltaPos m)
      + c.kd * dot3 (deltaVel m) (direction3 m) := by
  have hres : (c.reset m).2.residual m = 0 := by
    simp [DistanceConstraint.reset, DistanceConstraint.residual, hv]
  refine ⟨by simp [DistanceConstraint.reset, hv], ⟨hres, ?_⟩, ?_, ?_⟩
  · rw [hres]
    norm_num
  · simp [DistanceConstraint.reset, DistanceConstraint.computeJacobianAndDrift,
      hv, hAtt]
  · simp only [DistanceConstraint.reset, hv, if_true]
    simp only [DistanceConstraint.computeJacobianAndDrift, hAtt,
      Bool.not_eq_true]
    norm_num

/-- Closed witness for distance_reset_residual_zero at the concrete input. -/
theorem distance_reset_residual_zero_witness :
    cEx.isAttached = true ∧ mEx.valid = true ∧ mEx.p 0 ≠ mEx.p 1 ∧
    (cEx.reset mEx).2.residual mEx = 0 := by
  have hne : mEx.p 0 ≠ mEx.p 1 := by
    intro h
    have h0 := congrFun h 0
    simp [mEx, Matrix.cons_val_zero, Matrix.cons_val_one, Matrix.head_cons] at h0
  exact ⟨rfl, rfl, hne,
    ((distance_reset_residual_zero cEx mEx rfl rfl hne).2.1).1⟩

theorem safety_pos : (0 : ℝ) < DOPRI.SAFETY := by
  rw [DOPRI.SAFETY]; norm_num

theorem max_factor_div_safety_pos : (0 : ℝ) < DOPRI.MAX_FACTOR / DOPRI.SAFETY := by
  rw [DOPRI.MAX_FACTOR, DOPRI.SAFETY]; norm_num

/-- C4: adjustStepImpl is exactly the step-adjustment policy of the spec, and
on the growth branch the factor applied to dt never exceeds MAX_FACTOR: for
every nonnegative error and positive dt, the updated timestep is at most
MAX_FACTOR times the old one. -/
theorem adjustStepImpl_policy (error : Option ℝ) (dt : ℝ) :
    adjustStepImpl error dt = specAdjustPolicy error dt ∧
    (∀ e : ℝ, 0 ≤ e → 0 < dt →
      (adjustStepImpl (some e) dt).2 ≤ DOPRI.MAX_FACTOR * dt) := by
  constructor
  · cases error with
    | none => rfl
    | some e =>
      simp only [adjustStepImpl, specAdjustPolicy, DOPRI.STEPPER_ORDER]
      norm_num
  · intro e he hdt
    have hS : (0 : ℝ) < DOPRI.SAFETY := safety_pos
    have hMF : DOPRI.MAX_FACTOR = (5 : ℝ) := rfl
    simp only [adjustStepImpl]
    split
    · split
      · set N := max e ((DOPRI.MAX_FACTOR / DOPRI.SAFETY) ^ (-DOPRI.STEPPER_ORDER)) with hN
        have hbase : (0 : ℝ) < DOPRI.MAX_FACTOR / DOPRI.SAFETY :=
          max_factor_div_safety_pos
        have hNlb : (DOPRI.MAX_FACTOR / DOPRI.SAFETY) ^ (-DOPRI.STEPPER_ORDER) ≤ N :=
          le_max_right _ _
        have hNpos : (0 : ℝ) < (DOPRI.MAX_FACTOR / DOPRI.SAFETY) ^ (-DOPRI.STEPPER_ORDER) :=
          Real.rpow_pos_of_pos hbase _
        have hanti : N ^ (-1 / DOPRI.STEPPER_ORDER) ≤
            ((DOPRI.MAX_FACTOR / DOPRI.SAFETY) ^ (-DOPRI.STEPPER_ORDER))
              ^ (-1 / DOPRI.STEPPER_ORDER) := by
          apply Real.rpow_le_rpow_of_nonpos hNpos hNlb
          rw [show DOPRI.STEPPER_ORDER = (5 : ℝ) from rfl]
          norm_num
        have hcollapse :
            ((DOPRI.MAX_FACTOR / DOPRI.SAFETY) ^ (-DOPRI.STEPPER_ORDER))
              ^ (-1 / DOPRI.STEPPER_ORDER) = DOPRI.MAX_FACTOR / DOPRI.SAFETY := by
          rw [← Real.rpow_mul (le_of_lt hbase)]
          rw [show -DOPRI.STEPPER_ORDER * (-1 / DOPRI.STEPPER_ORDER) = (1 : ℝ) by
            rw [show DOPRI.STEPPER_ORDER = (5 : ℝ) from rfl]; norm_num]
          exact Real.rpow_one _
        have hfac : DOPRI.SAFETY * N ^ (-1 / DOPRI.STEPPER_ORDER) ≤ DOPRI.MAX_FACTOR := by
          calc DOPRI.SAFETY * N ^ (-1 / DOPRI.STEPPER_ORDER)
              ≤ DOPRI.SAFETY * (DOPRI.MAX_FACTOR / DOPRI.SAFETY) := by
                exact mul_le_mul_of_nonneg_left (hanti.trans (le_of_eq hcollapse))
                  (le_of_lt hS)
            _ = DOPRI.MAX_FACTOR := by field_simp
        calc dt * (DOPRI.SAFETY * N ^ (-1 / DOPRI.STEPPER_ORDER))
            ≤ dt * DOPRI.MAX_FACTOR := mul_le_mul_of_nonneg_left hfac (le_of_lt hdt)
          _ = DOPRI.MAX_FACTOR * dt := mul_comm _ _
      · calc dt ≤ 5 * dt := by linarith
          _ = DOPRI.MAX_FACTOR * dt := by rw [hMF]
    · have hone : (1 : ℝ) ≤ e := by linarith [not_lt.mp (by assumption : ¬ e < 1)]
      have hrp : e ^ (-1 / (DOPRI.STEPPER_ORDER - 2)) ≤ 1 := by
        apply Real.rpow_le_one_of_one_le_of_nonpos hone
        rw [show DOPRI.STEPPER_ORDER = (5 : ℝ) from rfl]
        norm_num
      have hmax : max (DOPRI.SAFETY * e ^ (-1 / (DOPRI.STEPPER_ORDER - 2)))
          DOPRI.MIN_FACTOR ≤ DOPRI.MAX_FACTOR := by
        apply max_le
        · calc DOPRI.SAFETY * e ^ (-1 / (DOPRI.STEPPER_ORDER - 2))
              ≤ DOPRI.SAFETY * 1 := mul_le_mul_of_nonneg_left hrp (le_of_lt hS)
            _ ≤ DOPRI.MAX_FACTOR := by
                rw [DOPRI.SAFETY, DOPRI.MAX_FACTOR]; norm_num
        · rw [DOPRI.MIN_FACTOR, DOPRI.MAX_FACTOR]; norm_num
      calc dt * max (DOPRI.SAFETY * e ^ (-1 / (DOPRI.STEPPER_ORDER - 2)))
            DOPRI.MIN_FACTOR
          ≤ dt * DOPRI.MAX_FACTOR := mul_le_mul_of_nonneg_left hmax (le_of_lt hdt)
        _ = DOPRI.MAX_FACTOR * dt := mul_comm _ _

/-- Closed witness for adjustStepImpl_policy at error 0 and dt 1. -/
theorem adjustStepImpl_policy_witness :
    (0 : ℝ) ≤ 0 ∧ (0 : ℝ) < 1 ∧
    (adjustStepImpl (some 0) 1).2 ≤ DOPRI.MAX_FACTOR * 1 ∧
    adjustStepImpl (some 0) 1 = specAdjustPolicy (some 0) 1 :=
  ⟨le_refl 0, one_pos,
    (adjustStepImpl_policy (some 0) 1).2 0 (le_refl 0) one_pos,
    (adjustStepImpl_policy (some 0) 1).1⟩

/-- C5: for positive dt, the step is accepted exactly when the error is a
number (not NaN) strictly below one, and every rejection strictly shrinks
the timestep. -/
theorem adjustStep_accept_iff (error : Option ℝ) (dt : ℝ) (hdt : 0 < dt) :
    ((adjustStepImpl error dt).1 = true ↔ ∃ e, error = some e ∧ e < 1) ∧
    ((adjustStepImpl error dt).1 = false → (adjustStepImpl error dt).2 < dt) := by
  cases error with
  | none =>
    constructor
    · simp [adjustStepImpl]
    · intro _
      simp only [adjustStepImpl]
      linarith
  | some e =>
    by_cases he : e < 1
    · constructor
      · simp only [adjustStepImpl, he, if_true]
        constructor
        · intro _
          exact ⟨e, rfl, he⟩
        · intro _
          split <;> rfl
      · intro hrej
        exfalso
        simp only [adjustStepImpl, he, if_true] at hrej
        revert hrej
        split <;> simp
    · constructor
      · simp only [adjustStepImpl, he, if_false]
        constructor
        · intro hacc
          exact absurd hacc (by simp)
        · rintro ⟨x, hx, hx1⟩
          injection hx with hx
          exact absurd (hx ▸ hx1) he
      · intro _
        simp only [adjustStepImpl, he, if_false]
        have hone : (1 : ℝ) ≤ e := not_lt.mp he
        have hrp : e ^ (-1 / (DOPRI.STEPPER_ORDER - 2)) ≤ 1 := by
          apply Real.rpow_le_one_of_one_le_of_nonpos hone
          rw [show DOPRI.STEPPER_ORDER = (5 : ℝ) from rfl]
          norm_num
        have hmax : max (DOPRI.SAFETY * e ^ (-1 / (DOPRI.STEPPER_ORDER - 2)))
            DOPRI.MIN_FACTOR < 1 := by
          apply max_lt
          · calc DOPRI.SAFETY * e ^ (-1 / (DOPRI.STEPPER_ORDER - 2))
                ≤ DOPRI.SAFETY * 1 :=
                  mul_le_mul_of_nonneg_left hrp (le_of_lt safety_pos)
              _ < 1 := by rw [DOPRI.SAFETY]; norm_num
          · rw [DOPRI.MIN_FACTOR]; norm_num
        calc dt * max (DOPRI.SAFETY * e ^ (-1 / (DOPRI.STEPPER_ORDER - 2)))
              DOPRI.MIN_FACTOR
            < dt * 1 := by exact mul_lt_mul_of_pos_left hmax hdt
          _ = dt := mul_one dt

/-- Closed witness for adjustStep_accept_iff at error 2 and dt 1. -/
theorem adjustStep_accept_iff_witness :
    (0 : ℝ) < 1 ∧
    (((adjustStepImpl (some 2) 1).1 = true ↔ ∃ e, (some (2 : ℝ)) = some e ∧ e < 1) ∧
      ((adjustStepImpl (some 2) 1).1 = false → (adjustStepImpl (some 2) 1).2 < 1)) :=
  ⟨one_pos, adjustStep_accept_iff (some 2) 1 one_pos⟩

/-! ### Infrastructure lemmas: modifyLast, groupN, chunk writes -/

theorem modifyLast_concat {α : Type} (f : α → α) (l : List α) (a : α) :
    modifyLast f (l ++ [a]) = l ++ [f a] := by
  induction l with
  | nil => rfl
  | cons b t ih =>
    cases t with
    | nil => rfl
    | cons c u =>
      show b :: modifyLast f ((c :: u) ++ [a]) = b :: ((c :: u) ++ [f a])
      rw [ih]

theorem modifyLast_cons_of_ne_nil {α : Type} (f : α → α) (b : α) (t : List α)
    (h : t ≠ []) : modifyLast f (b :: t) = b :: modifyLast f t := by
  cases t with
  | nil => exact absurd rfl h
  | cons c u => rfl

theorem groupN_nil {α : Type} (n : ℕ) : groupN n ([] : List α) = [] := by
  cases n <;> simp [groupN]

theorem groupN_ne_nil {α : Type} (n : ℕ) (a : α) (t : List α) :
    groupN n (a :: t) ≠ [] := by
  cases n with
  | zero => simp [groupN]
  | succ n => rw [groupN]; simp

theorem groupN_eq_nil_iff {α : Type} (n : ℕ) (l : List α) :
    groupN n l = [] ↔ l = [] := by
  constructor
  · intro h
    cases l with
    | nil => rfl
    | cons a t => exact absurd h (groupN_ne_nil n a t)
  · intro h
    subst h
    exact groupN_nil n

theorem groupN_flatten_aux {α : Type} (n : ℕ) :
    ∀ (k : ℕ) (l : List α), l.length ≤ k → (groupN n l).flatten = l := by
  intro k
  induction k with
  | zero =>
    intro l hl
    have : l = [] := List.length_eq_zero.mp (Nat.le_zero.mp hl)
    subst this
    simp [groupN_nil]
  | succ k ih =>
    intro l hl
    cases l with
    | nil => simp [groupN_nil]
    | cons a t =>
      cases n with
      | zero => simp [groupN]
      | succ n =>
        rw [groupN, List.flatten_cons, ih ((a :: t).drop (n + 1)) ?_,
          List.take_append_drop]
        simp only [List.length_drop, List.length_cons] at hl ⊢
        omega

theorem groupN_flatten {α : Type} (n : ℕ) (l : List α) :
    (groupN n l).flatten = l :=
  groupN_flatten_aux n l.length l (le_refl _)

theorem groupN_snoc {α : Type} (n : ℕ) (hn : 0 < n) :
    ∀ (k : ℕ) (l : List α) (a : α), l.length ≤ k →
    groupN n (l ++ [a]) =
      if l.length % n = 0 then groupN n l ++ [[a]]
      else modifyLast (fun g => g ++ [a]) (groupN n l) := by
  intro k
  induction k with
  | zero =>
    intro l a hl
    have : l = [] := List.length_eq_zero.mp (Nat.le_zero.mp hl)
    subst this
    obtain ⟨m, rfl⟩ : ∃ m, n = m + 1 := ⟨n - 1, by omega⟩
    simp [groupN, groupN_nil]
  | succ k ih =>
    intro l a hl
    obtain ⟨m, rfl⟩ : ∃ m, n = m + 1 := ⟨n - 1, by omega⟩
    cases l with
    | nil => simp [groupN, groupN_nil]
    | cons b t =>
      have hl0 : t.length + 1 ≤ k + 1 := by simpa using hl
      have hlenc : (b :: t).length = t.length + 1 := List.length_cons b t
      by_cases hlen : t.length + 1 ≤ m
      · have htake : ((b :: t) ++ [a]).take (m + 1) = (b :: t) ++ [a] :=
          List.take_of_length_le (by
            simp only [List.length_append, List.length_cons, List.length_nil]
            omega)
        have hdrop : ((b :: t) ++ [a]).drop (m + 1) = [] :=
          List.drop_eq_nil_of_le (by
            simp only [List.length_append, List.length_cons, List.length_nil]
            omega)
        have hmod : (b :: t).length % (m + 1) = t.length + 1 := by
          rw [hlenc]
          exact Nat.mod_eq_of_lt (by omega)
        have htake2 : (b :: t).take (m + 1) = b :: t :=
          List.take_of_length_le (by omega)
        have hdrop2 : (b :: t).drop (m + 1) = [] :=
          List.drop_eq_nil_of_le (by omega)
        rw [show ((b :: t) ++ [a]) = (b :: (t ++ [a])) from rfl]
        rw [groupN, ← show ((b :: t) ++ [a]) = (b :: (t ++ [a])) from rfl,
          htake, hdrop, groupN_nil]
        rw [if_neg (by omega)]
        rw [groupN, htake2, hdrop2, groupN_nil]
        rfl
      · push_neg at hlen
        by_cases heq : t.length = m
        · have htake : ((b :: t) ++ [a]).take (m + 1) = b :: t := by
            rw [List.take_append_of_le_length (by omega)]
            exact List.take_of_length_le (by omega)
          have hdrop : ((b :: t) ++ [a]).drop (m + 1) = [a] := by
            rw [List.drop_append_of_le_length (by omega),
              List.drop_eq_nil_of_le (by omega)]
            rfl
          have hsingle : groupN (m + 1) [a] = [[a]] := by
            rw [groupN]
            simp [groupN_nil]
          rw [show ((b :: t) ++ [a]) = (b :: (t ++ [a])) from rfl]
          rw [groupN, ← show ((b :: t) ++ [a]) = (b :: (t ++ [a])) from rfl,
            htake, hdrop, hsingle]
          rw [if_pos (by rw [hlenc, heq]; exact Nat.mod_self (m + 1))]
          rw [groupN, List.take_of_length_le (by omega),
            List.drop_eq_nil_of_le (by omega), groupN_nil]
          rfl
        · have hlen2 : m + 1 < t.length + 1 := by omega
          have htake : ((b :: t) ++ [a]).take (m + 1) = (b :: t).take (m + 1) :=
            List.take_append_of_le_length (by omega)
          have hdrop : ((b :: t) ++ [a]).drop (m + 1) = (b :: t).drop (m + 1) ++ [a] :=
            List.drop_append_of_le_length (by omega)
          have hdropne : (b :: t).drop (m + 1) ≠ [] := by
            intro hcon
            have := List.length_eq_zero.mpr hcon
            simp only [List.length_drop, hlenc] at this
            omega
          have hrec := ih ((b :: t).drop (m + 1)) a (by
            simp only [List.length_drop, hlenc]
            omega)
          have hmodeq : (b :: t).length % (m + 1) =
              ((b :: t).drop (m + 1)).length % (m + 1) := by
            simp only [List.length_drop]
            conv_lhs => rw [Nat.mod_eq_sub_mod (by omega)]
          rw [show ((b :: t) ++ [a]) = (b :: (t ++ [a])) from rfl]
          rw [groupN, ← show ((b :: t) ++ [a]) = (b :: (t ++ [a])) from rfl,
            htake, hdrop, hrec]
          conv_rhs => rw [groupN]
          by_cases hmod : ((b :: t).drop (m + 1)).length % (m + 1) = 0
          · rw [if_pos hmod, if_pos (hmodeq.trans hmod)]
            rfl
          · rw [if_neg hmod, if_neg (by rw [hmodeq]; exact hmod)]
            rw [modifyLast_cons_of_ne_nil _ _ _ (by
              rw [Ne, groupN_eq_nil_iff]
              exact hdropne)]

theorem getLast?_modifyLast {α : Type} (f : α → α) (l : List α) (h : l ≠ []) :
    (modifyLast f l).getLast? = l.getLast?.map f := by
  obtain ⟨l2, a, rfl⟩ := (List.eq_nil_or_concat' l).resolve_left h
  rw [modifyLast_concat, List.getLast?_concat, List.getLast?_concat]
  rfl

theorem dropLast_modifyLast {α : Type} (f : α → α) (l : List α) (h : l ≠ []) :
    (modifyLast f l).dropLast = l.dropLast := by
  obtain ⟨l2, a, rfl⟩ := (List.eq_nil_or_concat' l).resolve_left h
  rw [modifyLast_concat, List.dropLast_concat, List.dropLast_concat]

theorem groupN_getLast_length {α : Type} (n : ℕ) (hn : 0 < n) :
    ∀ (k : ℕ) (l : List α), l.length ≤ k → l ≠ [] →
    ∃ g, (groupN n l).getLast? = some g ∧
      g.length = (if l.length % n = 0 then n else l.length % n) := by
  intro k
  induction k with
  | zero =>
    intro l hl hne
    exact absurd (List.length_eq_zero.mp (Nat.le_zero.mp hl)) hne
  | succ k ih =>
    intro l hl hne
    obtain ⟨l2, a, rfl⟩ := (List.eq_nil_or_concat' l).resolve_left hne
    cases l2 with
    | nil =>
      obtain ⟨m, rfl⟩ : ∃ m, n = m + 1 := ⟨n - 1, by omega⟩
      have hL : (([] : List α) ++ [a]).length = 1 := rfl
      refine ⟨[a], ?_, ?_⟩
      · simp [groupN, groupN_nil]
      · rw [hL]
        by_cases hm : m = 0
        · subst hm
          simp
        · rw [Nat.mod_eq_of_lt (by omega), if_neg (by omega)]
          simp
    | cons b t =>
      have hne2 : (b :: t : List α) ≠ [] := by simp
      have hL : ((b :: t) ++ [a]).length = (b :: t).length + 1 := by
        simp
      obtain ⟨g, hg, hglen⟩ := ih (b :: t) (by
        simp only [List.length_append, List.length_cons, List.length_nil] at hl ⊢
        omega) hne2
      rw [groupN_snoc n hn ((b :: t).length) (b :: t) a (le_refl _)]
      by_cases hmod : (b :: t).length % n = 0
      · refine ⟨[a], ?_, ?_⟩
        · rw [if_pos hmod, List.getLast?_concat]
        · have h1 : ((b :: t).length + 1) % n = 1 % n := by
            conv_lhs => rw [Nat.add_mod, hmod]
            simp
          rw [hL, h1]
          by_cases hn1 : n = 1
          · subst hn1
            simp
          · rw [Nat.mod_eq_of_lt (by omega), if_neg (by omega)]
            simp
      · rw [if_neg hmod]
        rw [if_neg hmod] at hglen
        have hgne : groupN n (b :: t) ≠ [] := groupN_ne_nil n b t
        refine ⟨g ++ [a], ?_, ?_⟩
        · rw [getLast?_modifyLast _ _ hgne, hg]
          rfl
        · have hlt : (b :: t).length % n < n := Nat.mod_lt _ hn
          have h1 : ((b :: t).length + 1) % n =
              ((b :: t).length % n + 1) % n := by
            conv_lhs => rw [Nat.add_mod]
            simp [Nat.mod_mod_of_dvd]
          rw [hL, h1]
          have hgl : g.length = (b :: t).length % n := hglen
          by_cases hfull : (b :: t).length % n + 1 = n
          · rw [hfull, Nat.mod_self, if_pos rfl]
            simp only [List.length_append, List.length_cons, List.length_nil]
              at hgl hfull ⊢
            omega
          · rw [Nat.mod_eq_of_lt (by omega), if_neg (by omega)]
            simp only [List.length_append, List.length_cons, List.length_nil]
              at hgl ⊢
            omega

theorem length_encodeInt64 (z : ℤ) : (encodeInt64 z).length = 8 :=
  length_encodeWord 8 _

theorem length_flatten_encodeInt64 (l : List ℤ) :
    ((l.map encodeInt64).flatten).length = 8 * l.length := by
  induction l with
  | nil => simp
  | cons a t ih =>
    simp only [List.map_cons, List.flatten_cons, List.length_append,
      length_encodeInt64, ih, List.length_cons]
    ring

theorem length_flatten_encodeWord8 (l : List ℕ) :
    ((l.map (encodeWord 8)).flatten).length = 8 * l.length := by
  induction l with
  | nil => simp
  | cons a t ih =>
    simp only [List.map_cons, List.flatten_cons, List.length_append,
      length_encodeWord, ih, List.length_cons]
    ring

theorem length_encodeRowBytes (row : Row) :
    (encodeRowBytes row).length =
      8 * row.ints.length + 8 * row.floats.length + (START_LINE_TOKEN.length + 8) := by
  simp only [encodeRowBytes, List.length_append, length_encodeInt64,
    length_flatten_encodeInt64, length_flatten_encodeWord8]
  norm_num [START_LINE_TOKEN]
  ring

theorem rowsBytes_nil : rowsBytes [] = [] := rfl

theorem rowsBytes_concat (rows : List Row) (row : Row) :
    rowsBytes (rows ++ [row]) = rowsBytes rows ++ encodeRowBytes row := by
  simp [rowsBytes]

theorem length_rowsBytes (nI nF : ℕ) (rows : List Row)
    (h : ∀ row ∈ rows, row.ints.length = nI ∧ row.floats.length = nF) :
    (rowsBytes rows).length = rows.length * (8 * nI + 8 * nF + (START_LINE_TOKEN.length + 8)) := by
  induction rows with
  | nil => simp [rowsBytes]
  | cons r t ih =>
    have hr := h r (List.mem_cons_self r t)
    simp only [rowsBytes, List.map_cons, List.flatten_cons, List.length_append]
    rw [show ((t.map encodeRowBytes).flatten).length = (rowsBytes t).length from rfl,
      ih (fun row hrow => h row (List.mem_cons_of_mem r hrow)),
      length_encodeRowBytes, hr.1, hr.2, List.length_cons]
    ring

/-! ### Writing into a chunk -/

theorem mkChunk_buf_length (cap : ℕ) (content : Bytes) (opn : Bool)
    (h : content.length ≤ cap) : (mkChunk cap content opn).buf.length = cap := by
  simp only [mkChunk, List.length_append, List.length_replicate]
  omega

theorem mkChunk_write (cap : ℕ) (content bs : Bytes)
    (h : content.length + bs.length ≤ cap) :
    (mkChunk cap content true).write bs =
      (hresult.SUCCESS, mkChunk cap (content ++ bs) true) := by
  have hcond : (mkChunk cap content true).isOpen ∧
      (mkChunk cap content true).pos + bs.length ≤
        (mkChunk cap content true).buf.length := by
    refine ⟨rfl, ?_⟩
    rw [mkChunk_buf_length cap content true (by omega)]
    simpa [mkChunk] using h
  unfold Chunk.write
  rw [if_pos hcond]
  simp only [mkChunk, Prod.mk.injEq, Chunk.mk.injEq]
  refine ⟨trivial, ?_, ?_, trivial⟩
  · have hnum : cap - content.length - (content.length + bs.length - content.length) =
        cap - (content ++ bs).length := by
      simp only [List.length_append]
      omega
    rw [List.take_left' rfl, List.drop_append_eq_append_drop,
      List.drop_of_length_le (by omega), List.nil_append, List.drop_replicate,
      hnum, List.append_assoc]
  · exact (List.length_append content bs).symm

theorem mkChunk_writeMany (cap : ℕ) :
    ∀ (bss : List Bytes) (content : Bytes),
    content.length + (bss.flatten).length ≤ cap →
    (mkChunk cap content true).writeMany bss =
      mkChunk cap (content ++ bss.flatten) true := by
  intro bss
  induction bss with
  | nil =>
    intro content _
    simp [Chunk.writeMany]
  | cons bs rest ih =>
    intro content hfit
    simp only [List.flatten_cons, List.length_append] at hfit
    show Chunk.writeMany _ (bs :: rest) = _
    unfold Chunk.writeMany
    simp only [List.foldl_cons]
    rw [mkChunk_write cap content bs (by omega)]
    show Chunk.writeMany _ rest = _
    rw [ih (content ++ bs) (by simp only [List.length_append]; omega)]
    simp [List.append_assoc]

/-! ### Registry updates -/

theorem zipWith_names_vals {α : Type} (reg : List (Bytes × α)) (vals : List α)
    (h : vals.length = reg.length) :
    List.zipWith (fun (kv : Bytes × α) v => (kv.1, v)) reg vals =
      regWith (reg.map Prod.fst) vals := by
  induction reg generalizing vals with
  | nil => cases vals <;> simp [regWith]
  | cons kv t ih =>
    cases vals with
    | nil => simp at h
    | cons v vs =>
      simp only [List.zipWith_cons_cons, List.map_cons, regWith]
      rw [show List.zipWith Prod.mk (t.map Prod.fst) vs =
        regWith (t.map Prod.fst) vs from rfl, ← ih vs (by simpa using h)]

theorem regWith_map_fst {α : Type} (names : List Bytes) (vals : List α)
    (h : vals.length = names.length) :
    (regWith names vals).map Prod.fst = names := by
  induction names generalizing vals with
  | nil => simp [regWith]
  | cons nm t ih =>
    cases vals with
    | nil => simp at h
    | cons v vs =>
      simp only [regWith, List.zipWith_cons_cons, List.map_cons]
      rw [show List.zipWith Prod.mk t vs = regWith t vs from rfl,
        ih vs (by simpa using h)]

theorem regWith_map_snd {α : Type} (names : List Bytes) (vals : List α)
    (h : vals.length = names.length) :
    (regWith names vals).map Prod.snd = vals := by
  induction names generalizing vals with
  | nil => cases vals <;> simp_all [regWith]
  | cons nm t ih =>
    cases vals with
    | nil => simp at h
    | cons v vs =>
      simp only [regWith, List.zipWith_cons_cons, List.map_cons]
      rw [show List.zipWith Prod.mk t vs = regWith t vs from rfl,
        ih vs (by simpa using h)]

theorem regWith_length {α : Type} (names : List Bytes) (vals : List α)
    (h : vals.length = names.length) :
    (regWith names vals).length = names.length := by
  simp only [regWith, List.length_zipWith]
  omega

/-! ### The recorder state in closed form -/

theorem rowSizeOf_pos (td : TelemetryData) (tuStr : Bytes) :
    0 < rowSizeOf td tuStr := by
  simp [rowSizeOf, START_LINE_TOKEN]

theorem headerOf_length_ge_four (td : TelemetryData) (tuStr : Bytes) :
    4 ≤ (headerOf td tuStr).length := by
  simp only [headerOf, formatHeader, List.length_append, length_encodeWord]
  omega

theorem stateAfter_nil (minBuf : ℕ) (td : TelemetryData) (tuStr : Bytes) :
    stateAfter minBuf td tuStr [] =
      { flows := [mkChunk ((headerOf td tuStr).length +
          lines0Of minBuf td tuStr * rowSizeOf td tuStr) (headerOf td tuStr) true]
        isInitialized := true
        recordedBytes := (headerOf td tuStr).length
        recordedBytesLimits := (headerOf td tuStr).length +
          lines0Of minBuf td tuStr * rowSizeOf td tuStr
        headerSize := (headerOf td tuStr).length
        integerSectionSize := 8 * (td1Of td tuStr).intRegistry.length
        floatSectionSize := 8 * (td1Of td tuStr).floatRegistry.length
        recordedBytesDataLine := rowSizeOf td tuStr
        integersRegistry := (td1Of td tuStr).intRegistry
        floatsRegistry := (td1Of td tuStr).floatRegistry } := by
  unfold stateAfter flowsAfter
  simp only [List.drop_nil, groupN_nil, List.getLast?_nil, List.take_nil,
    rowsBytes_nil, List.append_nil, List.length_nil, Nat.zero_mul, Nat.add_zero]

theorem update_to_regWith {α : Type} (reg : List (Bytes × α)) (names : List Bytes)
    (vals : List α) (hn : reg.map Prod.fst = names) (hl : vals.length = reg.length) :
    List.zipWith (fun (kv : Bytes × α) v => (kv.1, v)) reg vals = regWith names vals := by
  subst hn
  exact zipWith_names_vals reg vals hl

theorem regWith_map_val {α β : Type} (names : List Bytes) (vals : List α)
    (h : vals.length = names.length) (f : α → β) :
    (regWith names vals).map (fun kv => f kv.2) = vals.map f := by
  rw [show (fun (kv : Bytes × α) => f kv.2) = f ∘ Prod.snd from rfl,
    ← List.map_map, regWith_map_snd _ _ h]

theorem flatten_row_pieces (row : Row) :
    (START_LINE_TOKEN :: encodeInt64 row.time ::
      (row.ints.map encodeInt64 ++ row.floats.map (encodeWord 8))).flatten =
    encodeRowBytes row := by
  simp [encodeRowBytes, List.flatten_cons, List.flatten_append, List.append_assoc]

/-- Writing one row into the open chunk appends its byte image. -/
theorem writeMany_row (cap : ℕ) (content : Bytes) (row : Row)
    (names namesF : List Bytes)
    (hfit : content.length + (encodeRowBytes row).length ≤ cap)
    (hI : row.ints.length = names.length) (hF : row.floats.length = namesF.length) :
    (mkChunk cap content true).writeMany
      (START_LINE_TOKEN :: encodeInt64 row.time ::
        ((regWith names row.ints).map (fun kv => encodeInt64 kv.2) ++
         (regWith namesF row.floats).map (fun kv => encodeWord 8 kv.2))) =
      mkChunk cap (content ++ encodeRowBytes row) true := by
  rw [regWith_map_val _ _ hI, regWith_map_val _ _ hF]
  rw [mkChunk_writeMany cap _ content (by rw [flatten_row_pieces]; exact hfit)]
  rw [flatten_row_pieces]

theorem close_mkChunk (cap : ℕ) (content : Bytes) :
    Chunk.close (mkChunk cap content true) = mkChunk cap content false := rfl

theorem groupN_singleton {α : Type} (n : ℕ) (hn : 0 < n) (a : α) :
    groupN n [a] = [[a]] := by
  obtain ⟨m, rfl⟩ : ∃ m, n = m + 1 := ⟨n - 1, by omega⟩
  rw [groupN]
  simp [groupN_nil]

theorem stateAfter_flows (minBuf : ℕ) (td : TelemetryData) (tuStr : Bytes)
    (rows : List Row) :
    (stateAfter minBuf td tuStr rows).flows = flowsAfter minBuf td tuStr rows := rfl

theorem stateAfter_recordedBytes (minBuf : ℕ) (td : TelemetryData) (tuStr : Bytes)
    (rows : List Row) :
    (stateAfter minBuf td tuStr rows).recordedBytes =
      match (groupN (lines1Of minBuf td tuStr)
          (rows.drop (lines0Of minBuf td tuStr))).getLast? with
      | none => (headerOf td tuStr).length +
          (rows.take (lines0Of minBuf td tuStr)).length * rowSizeOf td tuStr
      | some lastG => lastG.length * rowSizeOf td tuStr := rfl

theorem stateAfter_limits (minBuf : ℕ) (td : TelemetryData) (tuStr : Bytes)
    (rows : List Row) :
    (stateAfter minBuf td tuStr rows).recordedBytesLimits =
      match (groupN (lines1Of minBuf td tuStr)
          (rows.drop (lines0Of minBuf td tuStr))).getLast? with
      | none => (headerOf td tuStr).length +
          lines0Of minBuf td tuStr * rowSizeOf td tuStr
      | some _ => lines1Of minBuf td tuStr * rowSizeOf td tuStr := rfl

theorem stateAfter_rowSize (minBuf : ℕ) (td : TelemetryData) (tuStr : Bytes)
    (rows : List Row) :
    (stateAfter minBuf td tuStr rows).recordedBytesDataLine = rowSizeOf td tuStr := rfl

theorem stateAfter_intReg (minBuf : ℕ) (td : TelemetryData) (tuStr : Bytes)
    (rows : List Row) :
    (stateAfter minBuf td tuStr rows).integersRegistry =
      match rows.getLast? with
      | none => (td1Of td tuStr).intRegistry
      | some r =>
          regWith ((td1Of td tuStr).intRegistry.map Prod.fst) r.ints := rfl

theorem stateAfter_floatReg (minBuf : ℕ) (td : TelemetryData) (tuStr : Bytes)
    (rows : List Row) :
    (stateAfter minBuf td tuStr rows).floatsRegistry =
      match rows.getLast? with
      | none => (td1Of td tuStr).floatRegistry
      | some r =>
          regWith ((td1Of td tuStr).floatRegistry.map Prod.fst) r.floats := rfl

/-- Updating the registry values through the registered slots replaces the
stored values while keeping names and order. -/
theorem updateRegistry_stateAfter (minBuf : ℕ) (td : TelemetryData)
    (tuStr : Bytes) (rows : List Row) (row : Row)
    (hrows : wfRows (td1Of td tuStr).intRegistry.length
      (td1Of td tuStr).floatRegistry.length rows)
    (hI : row.ints.length = (td1Of td tuStr).intRegistry.length)
    (hF : row.floats.length = (td1Of td tuStr).floatRegistry.length) :
    (stateAfter minBuf td tuStr rows).updateRegistryValues row.ints row.floats =
      { stateAfter minBuf td tuStr rows with
        integersRegistry :=
          regWith ((td1Of td tuStr).intRegistry.map Prod.fst) row.ints
        floatsRegistry :=
          regWith ((td1Of td tuStr).floatRegistry.map Prod.fst) row.floats } := by
  unfold TelemetryRecorder.updateRegistryValues
  have hint : List.zipWith (fun (kv : Bytes × ℤ) v => (kv.1, v))
      (stateAfter minBuf td tuStr rows).integersRegistry row.ints =
      regWith ((td1Of td tuStr).intRegistry.map Prod.fst) row.ints := by
    rw [stateAfter_intReg]
    rcases hlast : rows.getLast? with _ | r₂
    · exact update_to_regWith _ _ _ rfl (by rw [hI])
    · have hr2 := hrows r₂ (List.mem_of_getLast?_eq_some hlast)
      refine update_to_regWith _ _ _ ?_ ?_
      · exact regWith_map_fst _ _ (by
          rw [hr2.1, List.length_map])
      · rw [regWith_length _ _ (by rw [hr2.1, List.length_map]),
          List.length_map, hI]
  have hfl : List.zipWith (fun (kv : Bytes × ℕ) v => (kv.1, v))
      (stateAfter minBuf td tuStr rows).floatsRegistry row.floats =
      regWith ((td1Of td tuStr).floatRegistry.map Prod.fst) row.floats := by
    rw [stateAfter_floatReg]
    rcases hlast : rows.getLast? with _ | r₂
    · exact update_to_regWith _ _ _ rfl (by rw [hF])
    · have hr2 := hrows r₂ (List.mem_of_getLast?_eq_some hlast)
      refine update_to_regWith _ _ _ ?_ ?_
      · exact regWith_map_fst _ _ (by
          rw [hr2.2.1, List.length_map])
      · rw [regWith_length _ _ (by rw [hr2.2.1, List.length_map]),
          List.length_map, hF]
  rw [hint, hfl]

/-- Initializing a fresh recorder succeeds and yields the closed-form state of
the empty record sequence. -/
theorem setup_fresh (minBuf : ℕ) (td : TelemetryData) (tuStr : Bytes) :
    TelemetryRecorder.fresh.setup minBuf td tuStr =
      (hresult.SUCCESS, stateAfter minBuf td tuStr []) := by
  have hwrite : ∀ (L : ℕ) (bs : Bytes), bs.length ≤ L →
      ({ buf := List.replicate L 0, pos := 0, isOpen := true } : Chunk).write bs =
        (hresult.SUCCESS, mkChunk L bs true) := by
    intro L bs hbs
    have h0 : (mkChunk L ([] : Bytes) true) =
        { buf := List.replicate L 0, pos := 0, isOpen := true } := by
      simp [mkChunk]
    rw [← h0, mkChunk_write L [] bs (by simpa using hbs)]
    simp
  unfold TelemetryRecorder.setup TelemetryRecorder.createNewChunk
  simp only [TelemetryRecorder.fresh, Bool.false_eq_true, if_false,
    List.isEmpty_nil, if_true, List.nil_append, reduceIte]
  rw [show (td.registerConstant TIME_UNIT tuStr).2 = td1Of td tuStr from rfl]
  rw [show formatHeader (td1Of td tuStr).constants
      (List.map Prod.fst (td1Of td tuStr).intRegistry ++
        List.map Prod.fst (td1Of td tuStr).floatRegistry) = headerOf td tuStr from rfl]
  rw [show 8 * (td1Of td tuStr).intRegistry.length +
      8 * (td1Of td tuStr).floatRegistry.length +
      (List.length START_LINE_TOKEN + 8) = rowSizeOf td tuStr from rfl]
  rw [hwrite _ _ (Nat.le_add_right _ _), stateAfter_nil]
  rfl

theorem modifyLast_cons_concat {α : Type} (f : α → α) (a b : α) (l : List α) :
    modifyLast f (a :: (l ++ [b])) = a :: (l ++ [f b]) := by
  rw [modifyLast_cons_of_ne_nil _ _ _ (by simp), modifyLast_concat]

theorem withRegs_recordedBytes (r : TelemetryRecorder) (a : List (Bytes × ℤ))
    (b : List (Bytes × ℕ)) :
    ({ r with integersRegistry := a, floatsRegistry := b } :
      TelemetryRecorder).recordedBytes = r.recordedBytes := rfl

theorem withRegs_limits (r : TelemetryRecorder) (a : List (Bytes × ℤ))
    (b : List (Bytes × ℕ)) :
    ({ r with integersRegistry := a, floatsRegistry := b } :
      TelemetryRecorder).recordedBytesLimits = r.recordedBytesLimits := rfl

theorem withRegs_flows (r : TelemetryRecorder) (a : List (Bytes × ℤ))
    (b : List (Bytes × ℕ)) :
    ({ r with integersRegistry := a, floatsRegistry := b } :
      TelemetryRecorder).flows = r.flows := rfl

theorem withRegs_rowSize (r : TelemetryRecorder) (a : List (Bytes × ℤ))
    (b : List (Bytes × ℕ)) :
    ({ r with integersRegistry := a, floatsRegistry := b } :
      TelemetryRecorder).recordedBytesDataLine = r.recordedBytesDataLine := rfl

theorem withRegs_headerSize (r : TelemetryRecorder) (a : List (Bytes × ℤ))
    (b : List (Bytes × ℕ)) :
    ({ r with integersRegistry := a, floatsRegistry := b } :
      TelemetryRecorder).headerSize = r.headerSize := rfl

theorem recorder_ext (a b : TelemetryRecorder)
    (hflows : a.flows = b.flows)
    (hinit : a.isInitialized = b.isInitialized)
    (hbytes : a.recordedBytes = b.recordedBytes)
    (hlim : a.recordedBytesLimits = b.recordedBytesLimits)
    (hhs : a.headerSize = b.headerSize)
    (his : a.integerSectionSize = b.integerSectionSize)
    (hfs : a.floatSectionSize = b.floatSectionSize)
    (hrs : a.recordedBytesDataLine = b.recordedBytesDataLine)
    (hir : a.integersRegistry = b.integersRegistry)
    (hfr : a.floatsRegistry = b.floatsRegistry) : a = b := by
  cases a
  cases b
  simp_all

theorem modifyLast_singleton {α : Type} (f : α → α) (a : α) :
    modifyLast f [a] = [f a] := rfl

theorem rowsBytes_singleton (row : Row) :
    rowsBytes [row] = encodeRowBytes row := by
  simp [rowsBytes]

theorem mkChunk_nil (cap : ℕ) :
    mkChunk cap [] true =
      { buf := List.replicate cap 0, pos := 0, isOpen := true } := by
  simp [mkChunk]

theorem flowsAfter_none (minBuf : ℕ) (td : TelemetryData) (tuStr : Bytes)
    (rows : List Row)
    (hcase : (groupN (lines1Of minBuf td tuStr)
      (rows.drop (lines0Of minBuf td tuStr))).getLast? = none) :
    flowsAfter minBuf td tuStr rows =
      [mkChunk ((headerOf td tuStr).length +
          lines0Of minBuf td tuStr * rowSizeOf td tuStr)
        (headerOf td tuStr ++ rowsBytes (rows.take (lines0Of minBuf td tuStr)))
        true] := by
  unfold flowsAfter
  simp only [hcase]

theorem flowsAfter_some (minBuf : ℕ) (td : TelemetryData) (tuStr : Bytes)
    (rows : List Row) (lastG : List Row)
    (hcase : (groupN (lines1Of minBuf td tuStr)
      (rows.drop (lines0Of minBuf td tuStr))).getLast? = some lastG) :
    flowsAfter minBuf td tuStr rows =
      mkChunk ((headerOf td tuStr).length +
          lines0Of minBuf td tuStr * rowSizeOf td tuStr)
        (headerOf td tuStr ++ rowsBytes (rows.take (lines0Of minBuf td tuStr)))
        false ::
      ((groupN (lines1Of minBuf td tuStr)
          (rows.drop (lines0Of minBuf td tuStr))).dropLast.map
          (fun g => mkChunk (lines1Of minBuf td tuStr * rowSizeOf td tuStr)
            (rowsBytes g) false) ++
        [mkChunk (lines1Of minBuf td tuStr * rowSizeOf td tuStr)
          (rowsBytes lastG) true]) := by
  unfold flowsAfter
  simp only [hcase]

theorem recordStep_stateAfter (minBuf : ℕ) (td : TelemetryData) (tuStr : Bytes)
    (rows : List Row) (row : Row)
    (hmin : rowSizeOf td tuStr ≤ minBuf)
    (hrows : wfRows (td1Of td tuStr).intRegistry.length
      (td1Of td tuStr).floatRegistry.length (rows ++ [row])) :
    recordStep minBuf (stateAfter minBuf td tuStr rows) row =
      stateAfter minBuf td tuStr (rows ++ [row]) := by
  have hR : 0 < rowSizeOf td tuStr := rowSizeOf_pos td tuStr
  have hn1 : 1 ≤ lines1Of minBuf td tuStr := by
    rw [lines1Of]
    exact (Nat.one_le_div_iff hR).mpr hmin
  have hrow := hrows row (by simp)
  have hrows0 : wfRows (td1Of td tuStr).intRegistry.length
      (td1Of td tuStr).floatRegistry.length rows :=
    fun r hr => hrows r (by simp [hr])
  obtain ⟨hI, hF, _hiv, _hfv, _ht⟩ := hrow
  have hrowR : (encodeRowBytes row).length = rowSizeOf td tuStr := by
    rw [length_encodeRowBytes, hI, hF]
    rfl
  have hI2 : row.ints.length =
      (List.map Prod.fst (td1Of td tuStr).intRegistry).length := by
    rw [List.length_map]
    exact hI
  have hF2 : row.floats.length =
      (List.map Prod.fst (td1Of td tuStr).floatRegistry).length := by
    rw [List.length_map]
    exact hF
  unfold recordStep
  rw [updateRegistry_stateAfter minBuf td tuStr rows row hrows0 hI hF]
  unfold TelemetryRecorder.flushDataSnapshot
  rcases hcase : (groupN (lines1Of minBuf td tuStr)
      (rows.drop (lines0Of minBuf td tuStr))).getLast? with _ | lastG
  · -- the recorder still sits in its first chunk
    have hdropnil : rows.drop (lines0Of minBuf td tuStr) = [] := by
      rw [← groupN_eq_nil_iff (lines1Of minBuf td tuStr)]
      exact List.getLast?_eq_none_iff.mp hcase
    have hle : rows.length ≤ lines0Of minBuf td tuStr :=
      List.drop_eq_nil_iff.mp hdropnil
    have htake : rows.take (lines0Of minBuf td tuStr) = rows :=
      List.take_of_length_le hle
    have hbytes0 : (stateAfter minBuf td tuStr rows).recordedBytes =
        (headerOf td tuStr).length + rows.length * rowSizeOf td tuStr := by
      rw [stateAfter_recordedBytes, hcase, htake]
    have hlim0 : (stateAfter minBuf td tuStr rows).recordedBytesLimits =
        (headerOf td tuStr).length +
          lines0Of minBuf td tuStr * rowSizeOf td tuStr := by
      rw [stateAfter_limits, hcase]
    have hlenrows : (rowsBytes rows).length = rows.length * rowSizeOf td tuStr := by
      rw [length_rowsBytes ((td1Of td tuStr).intRegistry.length)
        ((td1Of td tuStr).floatRegistry.length) rows
        (fun r hr => ⟨(hrows0 r hr).1, (hrows0 r hr).2.1⟩)]
      rfl
    by_cases hfull : rows.length = lines0Of minBuf td tuStr
    · -- case B: first chunk exactly full; roll to a fresh chunk
      have hcondB : (({ stateAfter minBuf td tuStr rows with
          integersRegistry :=
            regWith ((td1Of td tuStr).intRegistry.map Prod.fst) row.ints
          floatsRegistry :=
            regWith ((td1Of td tuStr).floatRegistry.map Prod.fst) row.floats } :
            TelemetryRecorder).recordedBytes =
          ({ stateAfter minBuf td tuStr rows with
          integersRegistry :=
            regWith ((td1Of td tuStr).intRegistry.map Prod.fst) row.ints
          floatsRegistry :=
            regWith ((td1Of td tuStr).floatRegistry.map Prod.fst) row.floats } :
            TelemetryRecorder).recordedBytesLimits) := by
        rw [withRegs_recordedBytes, withRegs_limits, hbytes0, hlim0, hfull]
      rw [if_pos hcondB]
      unfold TelemetryRecorder.createNewChunk
      simp only [withRegs_flows, withRegs_rowSize, withRegs_headerSize,
        stateAfter_flows, stateAfter_rowSize,
        flowsAfter_none minBuf td tuStr rows hcase, htake,
        List.isEmpty_cons, Bool.false_eq_true, if_false, modifyLast_singleton,
        close_mkChunk, Nat.max_zero, Nat.sub_zero, Nat.zero_add, reduceIte]
      have hdropB : (rows ++ [row]).drop (lines0Of minBuf td tuStr) = [row] := by
        rw [← hfull]
        exact List.drop_left rows [row]
      have htakeB : (rows ++ [row]).take (lines0Of minBuf td tuStr) = rows := by
        rw [← hfull]
        exact List.take_left rows [row]
      have hcase2B : (groupN (lines1Of minBuf td tuStr)
          ((rows ++ [row]).drop (lines0Of minBuf td tuStr))).getLast? = some [row] := by
        rw [hdropB, groupN_singleton _ (by omega)]
        rfl
      have hfitB : (0 : ℕ) + (encodeRowBytes row).length ≤
          minBuf / rowSizeOf td tuStr * rowSizeOf td tuStr := by
        rw [hrowR]
        have := Nat.mul_le_mul_right (rowSizeOf td tuStr) hn1
        rw [Nat.one_mul] at this
        rw [lines1Of] at this
        omega
      apply recorder_ext
      · show modifyLast (fun c => c.writeMany
            (START_LINE_TOKEN :: encodeInt64 row.time ::
              (List.map (fun kv => encodeInt64 kv.2)
                  (regWith (List.map Prod.fst (td1Of td tuStr).intRegistry) row.ints) ++
                List.map (fun kv => encodeWord 8 kv.2)
                  (regWith (List.map Prod.fst (td1Of td tuStr).floatRegistry) row.floats))))
          ([mkChunk ((headerOf td tuStr).length +
              lines0Of minBuf td tuStr * rowSizeOf td tuStr)
              (headerOf td tuStr ++ rowsBytes rows) false] ++
            [{ buf := List.replicate
                (minBuf / rowSizeOf td tuStr * rowSizeOf td tuStr) 0,
               pos := 0, isOpen := true }]) =
          (stateAfter minBuf td tuStr (rows ++ [row])).flows
        rw [stateAfter_flows, flowsAfter_some minBuf td tuStr (rows ++ [row]) [row] hcase2B,
          htakeB, hdropB, groupN_singleton _ (by omega)]
        rw [← mkChunk_nil, List.singleton_append,
          modifyLast_cons_of_ne_nil _ _ _ (by simp), modifyLast_singleton]
        rw [writeMany_row _ _ _ _ _ (by simpa using hfitB) hI2 hF2]
        simp only [rowsBytes_singleton, List.nil_append, List.map_nil,
          List.dropLast_single]
        rfl
      · rfl
      · show rowSizeOf td tuStr = (stateAfter minBuf td tuStr (rows ++ [row])).recordedBytes
        rw [stateAfter_recordedBytes]
        simp only [hcase2B]
        simp
      · show minBuf / rowSizeOf td tuStr * rowSizeOf td tuStr =
            (stateAfter minBuf td tuStr (rows ++ [row])).recordedBytesLimits
        rw [stateAfter_limits]
        simp only [hcase2B]
        rfl
      · rfl
      · rfl
      · rfl
      · rfl
      · show regWith (List.map Prod.fst (td1Of td tuStr).intRegistry) row.ints =
            (stateAfter minBuf td tuStr (rows ++ [row])).integersRegistry
        rw [stateAfter_intReg, List.getLast?_concat]
      · show regWith (List.map Prod.fst (td1Of td tuStr).floatRegistry) row.floats =
            (stateAfter minBuf td tuStr (rows ++ [row])).floatsRegistry
        rw [stateAfter_floatReg, List.getLast?_concat]
    · -- case A: room in the first chunk
      have hlt : rows.length < lines0Of minBuf td tuStr := by omega
      have hcond : ¬ (({ stateAfter minBuf td tuStr rows with
          integersRegistry :=
            regWith ((td1Of td tuStr).intRegistry.map Prod.fst) row.ints
          floatsRegistry :=
            regWith ((td1Of td tuStr).floatRegistry.map Prod.fst) row.floats } :
            TelemetryRecorder).recordedBytes =
          ({ stateAfter minBuf td tuStr rows with
          integersRegistry :=
            regWith ((td1Of td tuStr).intRegistry.map Prod.fst) row.ints
          floatsRegistry :=
            regWith ((td1Of td tuStr).floatRegistry.map Prod.fst) row.floats } :
            TelemetryRecorder).recordedBytesLimits) := by
        rw [withRegs_recordedBytes, withRegs_limits, hbytes0, hlim0]
        intro hcon
        have h2 : rows.length * rowSizeOf td tuStr =
            lines0Of minBuf td tuStr * rowSizeOf td tuStr := by omega
        have h3 := Nat.eq_of_mul_eq_mul_right hR h2
        omega
      rw [if_neg hcond]
      simp only [reduceIte]
      have hcase2 : (groupN (lines1Of minBuf td tuStr)
          ((rows ++ [row]).drop (lines0Of minBuf td tuStr))).getLast? = none := by
        rw [List.drop_eq_nil_iff.mpr (by simp; omega), groupN_nil]
        rfl
      have htake2 : (rows ++ [row]).take (lines0Of minBuf td tuStr) = rows ++ [row] :=
        List.take_of_length_le (by simp; omega)
      have hfit : (headerOf td tuStr ++
          rowsBytes (rows.take (lines0Of minBuf td tuStr))).length +
          (encodeRowBytes row).length ≤
          (headerOf td tuStr).length +
            lines0Of minBuf td tuStr * rowSizeOf td tuStr := by
        rw [htake, List.length_append, hlenrows, hrowR]
        have hmul : (rows.length + 1) * rowSizeOf td tuStr ≤
            lines0Of minBuf td tuStr * rowSizeOf td tuStr :=
          Nat.mul_le_mul_right _ (by omega)
        rw [Nat.succ_mul] at hmul
        omega
      apply recorder_ext
      · show modifyLast (fun c => c.writeMany
            (START_LINE_TOKEN :: encodeInt64 row.time ::
              (List.map (fun kv => encodeInt64 kv.2)
                  (regWith (List.map Prod.fst (td1Of td tuStr).intRegistry) row.ints) ++
                List.map (fun kv => encodeWord 8 kv.2)
                  (regWith (List.map Prod.fst (td1Of td tuStr).floatRegistry) row.floats))))
          (stateAfter minBuf td tuStr rows).flows =
          (stateAfter minBuf td tuStr (rows ++ [row])).flows
        rw [stateAfter_flows, stateAfter_flows,
          flowsAfter_none minBuf td tuStr rows hcase,
          flowsAfter_none minBuf td tuStr (rows ++ [row]) hcase2]
        simp only [modifyLast_singleton]
        rw [writeMany_row _ _ _ _ _ hfit hI2 hF2]
        rw [htake, htake2, rowsBytes_concat, List.append_assoc]
      · rfl
      · show (stateAfter minBuf td tuStr rows).recordedBytes +
            (stateAfter minBuf td tuStr rows).recordedBytesDataLine =
            (stateAfter minBuf td tuStr (rows ++ [row])).recordedBytes
        rw [stateAfter_recordedBytes, stateAfter_recordedBytes, stateAfter_rowSize]
        simp only [hcase, hcase2]
        rw [htake, htake2, List.length_append]
        simp only [List.length_cons, List.length_nil]
        ring
      · show (stateAfter minBuf td tuStr rows).recordedBytesLimits =
            (stateAfter minBuf td tuStr (rows ++ [row])).recordedBytesLimits
        rw [stateAfter_limits, stateAfter_limits]
        simp only [hcase, hcase2]
      · rfl
      · rfl
      · rfl
      · rfl
      · show regWith (List.map Prod.fst (td1Of td tuStr).intRegistry) row.ints =
            (stateAfter minBuf td tuStr (rows ++ [row])).integersRegistry
        rw [stateAfter_intReg, List.getLast?_concat]
      · show regWith (List.map Prod.fst (td1Of td tuStr).floatRegistry) row.floats =
            (stateAfter minBuf td tuStr (rows ++ [row])).floatsRegistry
        rw [stateAfter_floatReg, List.getLast?_concat]
  · -- the recorder sits in a later chunk
    have hgne : groupN (lines1Of minBuf td tuStr)
        (rows.drop (lines0Of minBuf td tuStr)) ≠ [] := by
      intro hcon
      rw [hcon] at hcase
      simp at hcase
    have hdropne : rows.drop (lines0Of minBuf td tuStr) ≠ [] := by
      intro hcon
      rw [hcon, groupN_nil] at hcase
      simp at hcase
    have hlen0 : lines0Of minBuf td tuStr ≤ rows.length := by
      by_contra hcon
      push_neg at hcon
      exact hdropne (List.drop_eq_nil_iff.mpr (by omega))
    have htakeC : (rows ++ [row]).take (lines0Of minBuf td tuStr) =
        rows.take (lines0Of minBuf td tuStr) :=
      List.take_append_of_le_length hlen0
    have hdropC : (rows ++ [row]).drop (lines0Of minBuf td tuStr) =
        rows.drop (lines0Of minBuf td tuStr) ++ [row] :=
      List.drop_append_of_le_length hlen0
    obtain ⟨g, hg, hglen⟩ := groupN_getLast_length (lines1Of minBuf td tuStr)
      (by omega) (rows.drop (lines0Of minBuf td tuStr)).length
      (rows.drop (lines0Of minBuf td tuStr)) (le_refl _) hdropne
    rw [hcase] at hg
    injection hg with hg
    subst hg
    have hlastmem : ∀ r ∈ lastG, r ∈ rows := by
      intro r hr
      have h1 : lastG ∈ groupN (lines1Of minBuf td tuStr)
          (rows.drop (lines0Of minBuf td tuStr)) :=
        List.mem_of_getLast?_eq_some hcase
      have h2 := List.mem_flatten_of_mem h1 hr
      rw [groupN_flatten] at h2
      exact List.drop_subset _ _ h2
    have hlenlast : (rowsBytes lastG).length =
        lastG.length * rowSizeOf td tuStr := by
      rw [length_rowsBytes ((td1Of td tuStr).intRegistry.length)
        ((td1Of td tuStr).floatRegistry.length) lastG
        (fun r hr => ⟨(hrows0 r (hlastmem r hr)).1,
          (hrows0 r (hlastmem r hr)).2.1⟩)]
      rfl
    have hmodlt : (rows.drop (lines0Of minBuf td tuStr)).length %
        lines1Of minBuf td tuStr < lines1Of minBuf td tuStr :=
      Nat.mod_lt _ (by omega)
    have hsnoc := groupN_snoc (lines1Of minBuf td tuStr) (by omega)
      (rows.drop (lines0Of minBuf td tuStr)).length
      (rows.drop (lines0Of minBuf td tuStr)) row (le_refl _)
    have hbytesC : (stateAfter minBuf td tuStr rows).recordedBytes =
        lastG.length * rowSizeOf td tuStr := by
      rw [stateAfter_recordedBytes, hcase]
    have hlimC : (stateAfter minBuf td tuStr rows).recordedBytesLimits =
        lines1Of minBuf td tuStr * rowSizeOf td tuStr := by
      rw [stateAfter_limits, hcase]
    by_cases hfullC : lastG.length = lines1Of minBuf td tuStr
    · -- case D: current chunk exactly full; roll to a fresh chunk
      have hmodD : (rows.drop (lines0Of minBuf td tuStr)).length %
          lines1Of minBuf td tuStr = 0 := by
        by_contra hcon
        rw [if_neg hcon] at hglen
        omega
      have hcondD : (({ stateAfter minBuf td tuStr rows with
          integersRegistry :=
            regWith ((td1Of td tuStr).intRegistry.map Prod.fst) row.ints
          floatsRegistry :=
            regWith ((td1Of td tuStr).floatRegistry.map Prod.fst) row.floats } :
            TelemetryRecorder).recordedBytes =
          ({ stateAfter minBuf td tuStr rows with
          integersRegistry :=
            regWith ((td1Of td tuStr).intRegistry.map Prod.fst) row.ints
          floatsRegistry :=
            regWith ((td1Of td tuStr).floatRegistry.map Prod.fst) row.floats } :
            TelemetryRecorder).recordedBytesLimits) := by
        rw [withRegs_recordedBytes, withRegs_limits, hbytesC, hlimC, hfullC]
      rw [if_pos hcondD]
      unfold TelemetryRecorder.createNewChunk
      simp only [withRegs_flows, withRegs_rowSize, withRegs_headerSize,
        stateAfter_flows, stateAfter_rowSize,
        flowsAfter_some minBuf td tuStr rows lastG hcase,
        modifyLast_cons_concat,
        List.isEmpty_cons, Bool.false_eq_true, if_false, close_mkChunk,
        Nat.max_zero, Nat.sub_zero, Nat.zero_add, reduceIte]
      have hcase2D : (groupN (lines1Of minBuf td tuStr)
          ((rows ++ [row]).drop (lines0Of minBuf td tuStr))).getLast? =
          some [row] := by
        rw [hdropC, hsnoc, if_pos hmodD, List.getLast?_concat]
      have hfitD : (0 : ℕ) + (encodeRowBytes row).length ≤
          minBuf / rowSizeOf td tuStr * rowSizeOf td tuStr := by
        rw [hrowR]
        have hmul := Nat.mul_le_mul_right (rowSizeOf td tuStr) hn1
        rw [Nat.one_mul] at hmul
        rw [lines1Of] at hmul
        omega
      apply recorder_ext
      · rw [modifyLast_concat]
        rw [stateAfter_flows,
          flowsAfter_some minBuf td tuStr (rows ++ [row]) [row] hcase2D,
          htakeC, hdropC, hsnoc, if_pos hmodD, List.dropLast_concat]
        rw [List.cons_append]
        rw [← mkChunk_nil, writeMany_row _ _ _ _ _ (by simpa using hfitD) hI2 hF2]
        rw [show [mkChunk (lines1Of minBuf td tuStr * rowSizeOf td tuStr)
            (rowsBytes lastG) false] =
            List.map (fun g => mkChunk
              (lines1Of minBuf td tuStr * rowSizeOf td tuStr)
              (rowsBytes g) false) [lastG] from rfl,
          ← List.map_append, List.dropLast_append_getLast? lastG hcase]
        simp only [List.nil_append, rowsBytes_singleton, lines1Of,
          List.append_assoc]
      · rfl
      · show rowSizeOf td tuStr =
            (stateAfter minBuf td tuStr (rows ++ [row])).recordedBytes
        rw [stateAfter_recordedBytes]
        simp only [hcase2D]
        simp
      · show minBuf / rowSizeOf td tuStr * rowSizeOf td tuStr =
            (stateAfter minBuf td tuStr (rows ++ [row])).recordedBytesLimits
        rw [stateAfter_limits]
        simp only [hcase2D]
        rfl
      · rfl
      · rfl
      · rfl
      · rfl
      · show regWith (List.map Prod.fst (td1Of td tuStr).intRegistry) row.ints =
            (stateAfter minBuf td tuStr (rows ++ [row])).integersRegistry
        rw [stateAfter_intReg, List.getLast?_concat]
      · show regWith (List.map Prod.fst (td1Of td tuStr).floatRegistry) row.floats =
            (stateAfter minBuf td tuStr (rows ++ [row])).floatsRegistry
        rw [stateAfter_floatReg, List.getLast?_concat]
    · -- case C: room in the current chunk
      have hmodC : (rows.drop (lines0Of minBuf td tuStr)).length %
          lines1Of minBuf td tuStr ≠ 0 := by
        intro hcon
        rw [hcon, if_pos rfl] at hglen
        exact hfullC hglen
      have hlastlt : lastG.length < lines1Of minBuf td tuStr := by
        rw [hglen, if_neg hmodC]
        exact hmodlt
      have hcondC : ¬ (({ stateAfter minBuf td tuStr rows with
          integersRegistry :=
            regWith ((td1Of td tuStr).intRegistry.map Prod.fst) row.ints
          floatsRegistry :=
            regWith ((td1Of td tuStr).floatRegistry.map Prod.fst) row.floats } :
            TelemetryRecorder).recordedBytes =
          ({ stateAfter minBuf td tuStr rows with
          integersRegistry :=
            regWith ((td1Of td tuStr).intRegistry.map Prod.fst) row.ints
          floatsRegistry :=
            regWith ((td1Of td tuStr).floatRegistry.map Prod.fst) row.floats } :
            TelemetryRecorder).recordedBytesLimits) := by
        rw [withRegs_recordedBytes, withRegs_limits, hbytesC, hlimC]
        intro hcon
        have h3 := Nat.eq_of_mul_eq_mul_right hR hcon
        omega
      rw [if_neg hcondC]
      simp only [reduceIte]
      have hcase2C : (groupN (lines1Of minBuf td tuStr)
          ((rows ++ [row]).drop (lines0Of minBuf td tuStr))).getLast? =
          some (lastG ++ [row]) := by
        rw [hdropC, hsnoc, if_neg hmodC,
          getLast?_modifyLast _ _ hgne, hcase]
        rfl
      have hfitC : (rowsBytes lastG).length + (encodeRowBytes row).length ≤
          lines1Of minBuf td tuStr * rowSizeOf td tuStr := by
        rw [hlenlast, hrowR]
        have hmul : (lastG.length + 1) * rowSizeOf td tuStr ≤
            lines1Of minBuf td tuStr * rowSizeOf td tuStr :=
          Nat.mul_le_mul_right _ (by omega)
        rw [Nat.succ_mul] at hmul
        omega
      apply recorder_ext
      · show modifyLast (fun c => c.writeMany
            (START_LINE_TOKEN :: encodeInt64 row.time ::
              (List.map (fun kv => encodeInt64 kv.2)
                  (regWith (List.map Prod.fst (td1Of td tuStr).intRegistry) row.ints) ++
                List.map (fun kv => encodeWord 8 kv.2)
                  (regWith (List.map Prod.fst (td1Of td tuStr).floatRegistry) row.floats))))
          (stateAfter minBuf td tuStr rows).flows =
          (stateAfter minBuf td tuStr (rows ++ [row])).flows
        rw [stateAfter_flows, stateAfter_flows,
          flowsAfter_some minBuf td tuStr rows lastG hcase,
          flowsAfter_some minBuf td tuStr (rows ++ [row]) (lastG ++ [row]) hcase2C,
          htakeC]
        rw [modifyLast_cons_of_ne_nil _ _ _ (by simp), modifyLast_concat]
        rw [writeMany_row _ _ _ _ _ (by rw [hlenlast] at hfitC ⊢; exact hfitC) hI2 hF2]
        rw [hdropC, hsnoc, if_neg hmodC, dropLast_modifyLast _ _ hgne,
          rowsBytes_concat]
      · rfl
      · show (stateAfter minBuf td tuStr rows).recordedBytes +
            (stateAfter minBuf td tuStr rows).recordedBytesDataLine =
            (stateAfter minBuf td tuStr (rows ++ [row])).recordedBytes
        rw [stateAfter_recordedBytes, stateAfter_recordedBytes, stateAfter_rowSize]
        simp only [hcase, hcase2C]
        simp only [List.length_append, List.length_cons, List.length_nil]
        ring
      · show (stateAfter minBuf td tuStr rows).recordedBytesLimits =
            (stateAfter minBuf td tuStr (rows ++ [row])).recordedBytesLimits
        rw [stateAfter_limits, stateAfter_limits]
        simp only [hcase, hcase2C]
      · rfl
      · rfl
      · rfl
      · rfl
      · show regWith (List.map Prod.fst (td1Of td tuStr).intRegistry) row.ints =
            (stateAfter minBuf td tuStr (rows ++ [row])).integersRegistry
        rw [stateAfter_intReg, List.getLast?_concat]
      · show regWith (List.map Prod.fst (td1Of td tuStr).floatRegistry) row.floats =
            (stateAfter minBuf td tuStr (rows ++ [row])).floatsRegistry
        rw [stateAfter_floatReg, List.getLast?_concat]

/-- Recording a sequence of rows on a freshly initialized recorder produces
exactly the closed-form state: first chunk header plus the first rows, then
later chunks of fixed line capacity, with cursors and registries tracking the
last row. -/
theorem recordAll_eq_stateAfter (minBuf : ℕ) (td : TelemetryData) (tuStr : Bytes)
    (rows : List Row)
    (hmin : rowSizeOf td tuStr ≤ minBuf)
    (hrows : wfRows (td1Of td tuStr).intRegistry.length
      (td1Of td tuStr).floatRegistry.length rows) :
    recordAll minBuf (TelemetryRecorder.fresh.setup minBuf td tuStr).2 rows =
      stateAfter minBuf td tuStr rows := by
  have hbase : (TelemetryRecorder.fresh.setup minBuf td tuStr).2 =
      stateAfter minBuf td tuStr [] := by rw [setup_fresh]
  rw [hbase]
  induction rows using List.reverseRecOn with
  | nil => rfl
  | append_singleton l a ih =>
    have ihx := ih (fun r hr => hrows r (by simp [hr]))
    rw [recordAll] at ihx
    rw [recordAll, List.foldl_append, ihx]
    simp only [List.foldl_cons, List.foldl_nil]
    exact recordStep_stateAfter minBuf td tuStr l a hmin hrows

/-- Mapping a projection unchanged by f over modifyLast f is the plain map. -/
theorem map_modifyLast {α β : Type} (f : α → α) (g : α → β)
    (h : ∀ a, g (f a) = g a) (l : List α) :
    (modifyLast f l).map g = l.map g := by
  induction l with
  | nil => rfl
  | cons a t ih =>
    cases t with
    | nil => simp [modifyLast, h]
    | cons b u =>
      rw [modifyLast_cons_of_ne_nil _ _ _ (by simp)]
      simp only [List.map_cons]
      rw [ih]
      simp

/-- C9 counterexample input: a recorder initialized with the concrete session
holds its first chunk, and reset does not release it - the flows list stays
nonempty even though the recorder reports uninitialized. -/
theorem telemetry_reset_counterexample :
    ((TelemetryRecorder.fresh.setup 64 tdEx [49]).2.reset).getIsInitialized
        = false ∧
    ((TelemetryRecorder.fresh.setup 64 tdEx [49]).2.reset).flows ≠ [] := by
  decide

/-- C9 (amended): TelemetryRecorder::reset clears the initialization flag and
closes the most recent chunk, but it does not release the chunks: the flows
list keeps the same chunks with their contents and cursor positions, and is
only emptied by the next initialize. -/
theorem telemetry_reset_state (r : TelemetryRecorder) :
    (r.reset).getIsInitialized = false ∧
    (r.reset).flows = modifyLast Chunk.close r.flows ∧
    (r.reset).flows.map Chunk.buf = r.flows.map Chunk.buf ∧
    (r.reset).flows.map Chunk.pos = r.flows.map Chunk.pos := by
  have hflows : (r.reset).flows = modifyLast Chunk.close r.flows := by
    show (if r.flows.isEmpty then r.flows else modifyLast Chunk.close r.flows)
        = modifyLast Chunk.close r.flows
    cases hr : r.flows with
    | nil => rfl
    | cons c t => simp [List.isEmpty_cons]
  refine ⟨rfl, hflows, ?_, ?_⟩
  · rw [hflows, map_modifyLast Chunk.close Chunk.buf (fun a => rfl)]
  · rw [hflows, map_modifyLast Chunk.close Chunk.pos (fun a => rfl)]

/-- The chunk handed back by writeLogFlow is the input chunk: the cursor is
restored after the read. -/
theorem map_snd_writeLogFlow (l : List Chunk) :
    (l.map writeLogFlow).map Prod.snd = l := by
  induction l with
  | nil => rfl
  | cons c t ih =>
    simp only [List.map_cons]
    rw [ih]
    rfl

/-- The chunk handed back by parseRestFlow is the input chunk. -/
theorem map_snd_parseRestFlow (intSec floatSec : ℕ) (l : List Chunk) :
    (l.map (parseRestFlow intSec floatSec)).map Prod.snd = l := by
  induction l with
  | nil => rfl
  | cons c t ih =>
    simp only [List.map_cons]
    rw [ih]
    rfl

/-- parseLogDataRaw succeeds and hands back the flows unchanged whenever the
first chunk, if any, opens with the expected version word: every cursor is
restored where it was. -/
theorem parseLogDataRaw_state (intSec floatSec headerSize : ℕ)
    (flows : List Chunk)
    (hver : ∀ c ∈ flows.take 1, bytesToNat (c.buf.take 4) = TELEMETRY_VERSION) :
    (parseLogDataRaw intSec floatSec headerSize flows).2.2 = flows ∧
    (parseLogDataRaw intSec floatSec headerSize flows).1 = hresult.SUCCESS := by
  cases flows with
  | nil => exact ⟨rfl, rfl⟩
  | cons c rest =>
    have hv := hver c (by simp)
    have hcond : ¬(bytesToNat ((({ c with pos := 0 } : Chunk).buf.drop
        ({ c with pos := 0 } : Chunk).pos).take 4) ≠ TELEMETRY_VERSION) := by
      simpa using hv
    simp only [parseLogDataRaw, parseFirstFlow]
    rw [if_neg hcond]
    refine ⟨?_, rfl⟩
    show c :: (rest.map (parseRestFlow intSec floatSec)).map Prod.snd = c :: rest
    rw [map_snd_parseRestFlow]

/-- C10: writeLog and getLog are read-only on the recorder: every chunk keeps
its contents and its cursor position (getLog under the reachable-state proviso
that the first chunk, if any, starts with the version word initialize wrote),
so recording can continue after a mid-run dump and repeated calls return the
same result. -/
theorem writeLog_getLog_readonly (r : TelemetryRecorder)
    (hver : ∀ c ∈ r.flows.take 1, bytesToNat (c.buf.take 4) = TELEMETRY_VERSION) :
    (r.writeLog).2 = r ∧ (r.getLog).2.2 = r ∧
    (r.getLog).2.2.getLog = r.getLog ∧ (r.writeLog).2.writeLog = r.writeLog := by
  have h1 : (r.writeLog).2 = r := by
    show { r with flows := (r.flows.map writeLogFlow).map Prod.snd } = r
    rw [map_snd_writeLogFlow]
  have h2 : (r.getLog).2.2 = r := by
    have h3 := (parseLogDataRaw_state r.integerSectionSize r.floatSectionSize
      r.headerSize r.flows hver).1
    show { r with flows := (parseLogDataRaw r.integerSectionSize
      r.floatSectionSize r.headerSize r.flows).2.2 } = r
    rw [h3]
  exact ⟨h1, h2, by rw [h2], by rw [h1]⟩

/-- Closed witness for writeLog_getLog_readonly at a concrete initialized
recorder. -/
theorem writeLog_getLog_readonly_witness :
    (∀ c ∈ (TelemetryRecorder.fresh.setup 64 tdEx [49]).2.flows.take 1,
      bytesToNat (c.buf.take 4) = TELEMETRY_VERSION) ∧
    ((TelemetryRecorder.fresh.setup 64 tdEx [49]).2.writeLog).2 =
      (TelemetryRecorder.fresh.setup 64 tdEx [49]).2 :=
  ⟨by decide, (writeLog_getLog_readonly _ (by decide)).1⟩

theorem modifyLast_length {α : Type} (f : α → α) (l : List α) :
    (modifyLast f l).length = l.length := by
  induction l with
  | nil => rfl
  | cons a t ih =>
    cases t with
    | nil => rfl
    | cons b u =>
      rw [modifyLast_cons_of_ne_nil _ _ _ (by simp)]
      simp only [List.length_cons]
      rw [ih]
      simp

theorem groupN_mem_length {α : Type} (n : ℕ) (hn : 0 < n) :
    ∀ (k : ℕ) (l : List α), l.length ≤ k → ∀ g ∈ groupN n l, g.length ≤ n := by
  intro k
  induction k with
  | zero =>
    intro l hl g hg
    have hnil : l = [] := List.length_eq_zero.mp (Nat.le_zero.mp hl)
    subst hnil
    rw [groupN_nil] at hg
    exact absurd hg (List.not_mem_nil g)
  | succ k ih =>
    intro l hl g hg
    cases l with
    | nil =>
      rw [groupN_nil] at hg
      exact absurd hg (List.not_mem_nil g)
    | cons a t =>
      obtain ⟨m, rfl⟩ : ∃ m, n = m + 1 := ⟨n - 1, by omega⟩
      simp only [List.length_cons] at hl
      simp only [groupN] at hg
      rcases List.mem_cons.mp hg with h | h
      · rw [h]
        simp
      · exact ih ((a :: t).drop (m + 1))
          (by simp only [List.length_drop, List.length_cons]; omega) g h

/-- One flush appends a chunk exactly when the byte counter has reached the
chunk limit, and otherwise writes into the existing chunk list. -/
theorem recordStep_flows_length (minBuf : ℕ) (r : TelemetryRecorder)
    (row : Row) :
    (recordStep minBuf r row).flows.length =
      r.flows.length +
        if r.recordedBytes = r.recordedBytesLimits then 1 else 0 := by
  unfold recordStep TelemetryRecorder.updateRegistryValues
    TelemetryRecorder.flushDataSnapshot
  simp only [withRegs_recordedBytes, withRegs_limits, withRegs_flows,
    withRegs_rowSize, withRegs_headerSize]
  by_cases hcond : r.recordedBytes = r.recordedBytesLimits
  · rw [if_pos hcond, if_pos hcond]
    unfold TelemetryRecorder.createNewChunk
    simp only [withRegs_flows, withRegs_rowSize, withRegs_headerSize, reduceIte]
    rw [modifyLast_length, List.length_append]
    cases hb : r.flows.isEmpty
    · simp only [hb, Bool.false_eq_true, if_false, modifyLast_length,
        List.length_singleton]
    · simp only [hb, if_true, List.length_singleton]
  · rw [if_neg hcond, if_neg hcond]
    simp only [reduceIte]
    rw [modifyLast_length, Nat.add_zero]

/-- C7: chunk/row alignment. Every later chunk has capacity a multiple of the
row size and its cursor sits at a row boundary; the first chunk has capacity
headerSize + n0 rows, is at least header-sized, and its cursor past the header
is at a row boundary; and a flush appends a fresh chunk exactly when the byte
counter of the current one has reached its limit - so no data row ever
straddles a chunk boundary. -/
theorem chunk_alignment (minBuf : ℕ) (td : TelemetryData) (tuStr : Bytes)
    (rows : List Row)
    (hmin : rowSizeOf td tuStr ≤ minBuf)
    (hrows : wfRows (td1Of td tuStr).intRegistry.length
      (td1Of td tuStr).floatRegistry.length rows) :
    (∀ (r : TelemetryRecorder) (row : Row),
      (recordStep minBuf r row).flows.length =
        r.flows.length +
          if r.recordedBytes = r.recordedBytesLimits then 1 else 0) ∧
    (∃ c0 cs, (stateAfter minBuf td tuStr rows).flows = c0 :: cs ∧
      (∃ n, c0.buf.length =
        (headerOf td tuStr).length + n * rowSizeOf td tuStr) ∧
      (headerOf td tuStr).length ≤ c0.buf.length ∧
      (headerOf td tuStr).length ≤ c0.pos ∧
      (c0.pos - (headerOf td tuStr).length) % rowSizeOf td tuStr = 0 ∧
      (∀ c ∈ cs, (∃ n, c.buf.length = n * rowSizeOf td tuStr) ∧
        c.pos % rowSizeOf td tuStr = 0)) := by
  have hR : 0 < rowSizeOf td tuStr := rowSizeOf_pos td tuStr
  refine ⟨recordStep_flows_length minBuf, ?_⟩
  have hlen0 : (rowsBytes (rows.take (lines0Of minBuf td tuStr))).length =
      (rows.take (lines0Of minBuf td tuStr)).length * rowSizeOf td tuStr := by
    rw [length_rowsBytes ((td1Of td tuStr).intRegistry.length)
      ((td1Of td tuStr).floatRegistry.length) _
      (fun r hr => ⟨(hrows r (List.take_subset _ _ hr)).1,
        (hrows r (List.take_subset _ _ hr)).2.1⟩)]
    rfl
  have hcont0 : (headerOf td tuStr ++
      rowsBytes (rows.take (lines0Of minBuf td tuStr))).length =
      (headerOf td tuStr).length +
        (rows.take (lines0Of minBuf td tuStr)).length * rowSizeOf td tuStr := by
    rw [List.length_append, hlen0]
  have hcontle : (headerOf td tuStr ++
      rowsBytes (rows.take (lines0Of minBuf td tuStr))).length ≤
      (headerOf td tuStr).length +
        lines0Of minBuf td tuStr * rowSizeOf td tuStr := by
    rw [hcont0]
    have := Nat.mul_le_mul_right (rowSizeOf td tuStr)
      (List.length_take_le (lines0Of minBuf td tuStr) rows)
    omega
  have hfirst : ∀ (b : Bool),
      (∃ n, (mkChunk ((headerOf td tuStr).length +
          lines0Of minBuf td tuStr * rowSizeOf td tuStr)
          (headerOf td tuStr ++ rowsBytes (rows.take (lines0Of minBuf td tuStr)))
          b).buf.length =
        (headerOf td tuStr).length + n * rowSizeOf td tuStr) ∧
      (headerOf td tuStr).length ≤ (mkChunk ((headerOf td tuStr).length +
          lines0Of minBuf td tuStr * rowSizeOf td tuStr)
          (headerOf td tuStr ++ rowsBytes (rows.take (lines0Of minBuf td tuStr)))
          b).buf.length ∧
      (headerOf td tuStr).length ≤ (mkChunk ((headerOf td tuStr).length +
          lines0Of minBuf td tuStr * rowSizeOf td tuStr)
          (headerOf td tuStr ++ rowsBytes (rows.take (lines0Of minBuf td tuStr)))
          b).pos ∧
      ((mkChunk ((headerOf td tuStr).length +
          lines0Of minBuf td tuStr * rowSizeOf td tuStr)
          (headerOf td tuStr ++ rowsBytes (rows.take (lines0Of minBuf td tuStr)))
          b).pos - (headerOf td tuStr).length) % rowSizeOf td tuStr = 0 := by
    intro b
    rw [mkChunk_buf_length _ _ _ hcontle]
    refine ⟨⟨lines0Of minBuf td tuStr, rfl⟩, Nat.le_add_right _ _, ?_, ?_⟩
    · show (headerOf td tuStr).length ≤ (headerOf td tuStr ++
        rowsBytes (rows.take (lines0Of minBuf td tuStr))).length
      rw [hcont0]
      exact Nat.le_add_right _ _
    · show ((headerOf td tuStr ++
        rowsBytes (rows.take (lines0Of minBuf td tuStr))).length -
          (headerOf td tuStr).length) % rowSizeOf td tuStr = 0
      rw [hcont0, Nat.add_sub_cancel_left, Nat.mul_mod_left]
  have hchunk : ∀ (g : List Row) (b : Bool),
      g ∈ groupN (lines1Of minBuf td tuStr)
        (rows.drop (lines0Of minBuf td tuStr)) →
      (∃ n, (mkChunk (lines1Of minBuf td tuStr * rowSizeOf td tuStr)
          (rowsBytes g) b).buf.length = n * rowSizeOf td tuStr) ∧
      (mkChunk (lines1Of minBuf td tuStr * rowSizeOf td tuStr)
          (rowsBytes g) b).pos % rowSizeOf td tuStr = 0 := by
    intro g b hg
    have hn1 : 0 < lines1Of minBuf td tuStr := by
      rw [lines1Of]
      exact (Nat.one_le_div_iff hR).mpr hmin
    have hmem : ∀ r ∈ g, r ∈ rows := by
      intro r hr
      have h2 := List.mem_flatten_of_mem hg hr
      rw [groupN_flatten] at h2
      exact List.drop_subset _ _ h2
    have hglen : (rowsBytes g).length = g.length * rowSizeOf td tuStr := by
      rw [length_rowsBytes ((td1Of td tuStr).intRegistry.length)
        ((td1Of td tuStr).floatRegistry.length) _
        (fun r hr => ⟨(hrows r (hmem r hr)).1, (hrows r (hmem r hr)).2.1⟩)]
      rfl
    have hgle : g.length ≤ lines1Of minBuf td tuStr :=
      groupN_mem_length (lines1Of minBuf td tuStr) hn1
        (rows.drop (lines0Of minBuf td tuStr)).length
        (rows.drop (lines0Of minBuf td tuStr)) (le_refl _) g hg
    have hcontle2 : (rowsBytes g).length ≤
        lines1Of minBuf td tuStr * rowSizeOf td tuStr := by
      rw [hglen]
      exact Nat.mul_le_mul_right _ hgle
    rw [mkChunk_buf_length _ _ _ hcontle2]
    refine ⟨⟨lines1Of minBuf td tuStr, rfl⟩, ?_⟩
    show (rowsBytes g).length % rowSizeOf td tuStr = 0
    rw [hglen, Nat.mul_mod_left]
  rw [stateAfter_flows]
  rcases hcase : (groupN (lines1Of minBuf td tuStr)
      (rows.drop (lines0Of minBuf td tuStr))).getLast? with _ | lastG
  · rw [flowsAfter_none minBuf td tuStr rows hcase]
    obtain ⟨h1, h2, h3, h4⟩ := hfirst true
    exact ⟨_, [], rfl, h1, h2, h3, h4,
      fun c hc => absurd hc (List.not_mem_nil c)⟩
  · rw [flowsAfter_some minBuf td tuStr rows lastG hcase]
    obtain ⟨h1, h2, h3, h4⟩ := hfirst false
    refine ⟨_, _, rfl, h1, h2, h3, h4, ?_⟩
    intro c hc
    rcases List.mem_append.mp hc with h | h
    · obtain ⟨g, hgmem, rfl⟩ := List.mem_map.mp h
      exact hchunk g false (List.dropLast_subset _ hgmem)
    · rw [List.mem_singleton.mp h]
      exact hchunk lastG true (List.mem_of_getLast?_eq_some hcase)

/-- Closed witness for chunk_alignment at the concrete session and one row. -/
theorem chunk_alignment_witness :
    (rowSizeOf tdEx [49] ≤ 64 ∧
      wfRows (td1Of tdEx [49]).intRegistry.length
        (td1Of tdEx [49]).floatRegistry.length [rowEx]) ∧
    (∃ c0 cs, (stateAfter 64 tdEx [49] [rowEx]).flows = c0 :: cs ∧
      (∃ n, c0.buf.length =
        (headerOf tdEx [49]).length + n * rowSizeOf tdEx [49]) ∧
      (headerOf tdEx [49]).length ≤ c0.buf.length ∧
      (headerOf tdEx [49]).length ≤ c0.pos ∧
      (c0.pos - (headerOf tdEx [49]).length) % rowSizeOf tdEx [49] = 0 ∧
      (∀ c ∈ cs, (∃ n, c.buf.length = n * rowSizeOf tdEx [49]) ∧
        c.pos % rowSizeOf tdEx [49] = 0)) :=
  ⟨⟨by decide, by unfold wfRows; decide⟩,
    (chunk_alignment 64 tdEx [49] [rowEx] (by decide)
      (by unfold wfRows; decide)).2⟩

/-! ### Parser correctness: locating the header tokens -/

theorem headI_eq_of_take_eq {b : ℕ} {t pat : Bytes} (hpat : pat ≠ [])
    (h : (b :: t).take pat.length = pat) : pat.headI = b := by
  cases pat with
  | nil => exact absurd rfl hpat
  | cons p pr =>
    simp only [List.length_cons, List.take_succ_cons] at h
    injection h with h1 _
    simpa using h1.symm

theorem findSub_cons_of_ne (pat : Bytes) (b : ℕ) (t : Bytes)
    (h : ¬(pat.length ≤ (b :: t).length ∧ (b :: t).take pat.length = pat)) :
    findSub pat (b :: t) = findSub pat t + 1 := by
  simp only [findSub]
  rw [if_neg h]

/-- The pattern never occurs in a stream free of its first byte. -/
theorem findSub_eq_length_of_head_notin (pat l : Bytes) (hpat : pat ≠ [])
    (hl : pat.headI ∉ l) : findSub pat l = l.length := by
  induction l with
  | nil => rfl
  | cons b t ih =>
    have hb : pat.headI ≠ b := by
      intro hc
      rw [hc] at hl
      exact hl (List.mem_cons_self b t)
    have hcond : ¬(pat.length ≤ (b :: t).length ∧
        (b :: t).take pat.length = pat) := by
      rintro ⟨_, h2⟩
      exact hb (headI_eq_of_take_eq hpat h2)
    rw [findSub_cons_of_ne pat b t hcond,
      ih (fun hm => hl (List.mem_cons_of_mem b hm))]
    rfl

/-- Searching skips over a prefix free of the pattern head byte. -/
theorem findSub_append_of_head_notin (pat pre post : Bytes) (hpat : pat ≠ [])
    (hpre : pat.headI ∉ pre) :
    findSub pat (pre ++ post) = pre.length + findSub pat post := by
  induction pre with
  | nil => simp
  | cons b t ih =>
    have hb : pat.headI ≠ b := by
      intro hc
      rw [hc] at hpre
      exact hpre (List.mem_cons_self b t)
    have hcond : ¬(pat.length ≤ (b :: (t ++ post)).length ∧
        (b :: (t ++ post)).take pat.length = pat) := by
      rintro ⟨_, h2⟩
      exact hb (headI_eq_of_take_eq hpat h2)
    rw [List.cons_append, findSub_cons_of_ne pat b (t ++ post) hcond,
      ih (fun hm => hpre (List.mem_cons_of_mem b hm))]
    simp only [List.length_cons]
    omega

/-- The search finds the pattern at the head of the stream. -/
theorem findSub_prefix (pat rest : Bytes) (hpat : pat ≠ []) :
    findSub pat (pat ++ rest) = 0 := by
  cases pat with
  | nil => exact absurd rfl hpat
  | cons p pr =>
    have hcond : (p :: pr).length ≤ (p :: (pr ++ rest)).length ∧
        (p :: (pr ++ rest)).take (p :: pr).length = p :: pr := by
      constructor
      · simp
      · rw [← List.cons_append]
        exact List.take_left' rfl
    rw [List.cons_append]
    simp only [findSub]
    rw [if_pos hcond]

/-! ### Parser correctness: the fieldnames loop -/

theorem takeWhile_append_all (p : ℕ → Bool) (xs ys : Bytes)
    (h : ∀ x ∈ xs, p x = true) :
    (xs ++ ys).takeWhile p = xs ++ ys.takeWhile p := by
  induction xs with
  | nil => rfl
  | cons b t ih =>
    rw [List.cons_append, List.takeWhile_cons,
      if_pos (h b (List.mem_cons_self b t)),
      ih (fun x hx => h x (List.mem_cons_of_mem b hx)), List.cons_append]

/-- Reading a NUL-terminated string recovers a NUL-free name. -/
theorem takeWhile_name (nm rest : Bytes) (h0 : 0 ∉ nm) :
    ((nm ++ ([0] ++ rest)).takeWhile (fun b => b != 0)) = nm := by
  rw [takeWhile_append_all (fun b => b != 0) nm ([0] ++ rest) (fun x hx => by
    simp only [bne_iff_ne, ne_eq, decide_eq_true_eq]
    intro hc
    rw [hc] at hx
    exact h0 hx)]
  simp [List.takeWhile_cons]

/-- The fieldnames loop parses back exactly the NUL-terminated names, stopping
at the data marker. -/
theorem parseFieldnamesLoop_spec :
    ∀ (names : List Bytes) (fuel : ℕ) (acc : List Bytes),
    (∀ nm ∈ names, wfName nm) → names.length < fuel →
    parseFieldnamesLoop fuel
      ((names.map (fun f => f ++ [0])).flatten ++ (START_DATA ++ [0])) acc =
    acc ++ names := by
  intro names
  induction names with
  | nil =>
    intro fuel acc _ hfuel
    obtain ⟨f, rfl⟩ : ∃ f, fuel = f + 1 := ⟨fuel - 1, by omega⟩
    simp only [parseFieldnamesLoop, List.map_nil, List.flatten_nil,
      List.nil_append]
    rw [if_pos (by rfl)]
    simp
  | cons nm rest ih =>
    intro fuel acc hwf hfuel
    obtain ⟨f, rfl⟩ : ∃ f, fuel = f + 1 := ⟨fuel - 1, by omega⟩
    simp only [parseFieldnamesLoop, List.map_cons, List.flatten_cons]
    have hassoc : ((nm ++ [0]) ++ (rest.map (fun f => f ++ [0])).flatten) ++
        (START_DATA ++ [0]) =
        nm ++ ([0] ++ ((rest.map (fun f => f ++ [0])).flatten ++
          (START_DATA ++ [0]))) := by
      simp [List.append_assoc]
    rw [hassoc, takeWhile_name _ _ (hwf nm (List.mem_cons_self nm rest)).2]
    have hne : nm ≠ START_DATA := by
      intro hc
      exact (hwf nm (List.mem_cons_self nm rest)).1
        (hc ▸ (by decide : (83 : ℕ) ∈ START_DATA))
    simp only [if_neg hne]
    have hdrop : (nm ++ ([0] ++ ((rest.map (fun f => f ++ [0])).flatten ++
        (START_DATA ++ [0])))).drop (nm.length + 1) =
        (rest.map (fun f => f ++ [0])).flatten ++ (START_DATA ++ [0]) := by
      rw [← List.append_assoc nm [0], List.drop_left' (by simp)]
    rw [hdrop, ih f (acc ++ [nm])
      (fun x hx => hwf x (List.mem_cons_of_mem nm hx))
      (by simp only [List.length_cons] at hfuel; omega)]
    simp

/-- The line token does not occur in the fieldnames/data trailer of the
header: the only capital-S positions start the column and data markers, and
neither continues like StartLine. -/
theorem findSub_SLT_tail (fb : Bytes) (hfb : (83 : ℕ) ∉ fb) :
    findSub START_LINE_TOKEN
      (START_COLUMNS ++ ([0] ++ (fb ++ (START_DATA ++ [0])))) =
    (START_COLUMNS ++ ([0] ++ (fb ++ (START_DATA ++ [0])))).length := by
  have hc1 : ¬(START_LINE_TOKEN.length ≤
      (83 :: ([116, 97, 114, 116, 67, 111, 108, 117, 109, 110, 115] ++
        ([0] ++ (fb ++ (START_DATA ++ [0]))))).length ∧
      (83 :: ([116, 97, 114, 116, 67, 111, 108, 117, 109, 110, 115] ++
        ([0] ++ (fb ++ (START_DATA ++ [0]))))).take START_LINE_TOKEN.length =
        START_LINE_TOKEN) := by
    rintro ⟨_, htake⟩
    have htake2 : (START_COLUMNS ++
        ([0] ++ (fb ++ (START_DATA ++ [0])))).take START_LINE_TOKEN.length =
        START_LINE_TOKEN := htake
    rw [List.take_append_of_le_length (by decide)] at htake2
    exact absurd htake2 (by decide)
  have hc2 : ¬(START_LINE_TOKEN.length ≤
      (83 :: ([116, 97, 114, 116, 68, 97, 116, 97] ++ [0])).length ∧
      (83 :: ([116, 97, 114, 116, 68, 97, 116, 97] ++ [0])).take
        START_LINE_TOKEN.length = START_LINE_TOKEN) := by
    rintro ⟨_, htake⟩
    have htake2 : (START_DATA ++ [0]).take START_LINE_TOKEN.length =
        START_LINE_TOKEN := htake
    rw [List.take_append_of_le_length (by decide)] at htake2
    exact absurd htake2 (by decide)
  have hmid : START_LINE_TOKEN.headI ∉
      ([116, 97, 114, 116, 67, 111, 108, 117, 109, 110, 115] : Bytes) ++
        ([0] ++ fb) := by
    intro hm
    rcases List.mem_append.mp hm with h | hm2
    · exact absurd h (by decide)
    rcases List.mem_append.mp hm2 with h | h
    · exact absurd h (by decide)
    · exact hfb h
  have hend : START_LINE_TOKEN.headI ∉
      ([116, 97, 114, 116, 68, 97, 116, 97] : Bytes) ++ [0] := by decide
  rw [show START_COLUMNS ++ ([0] ++ (fb ++ (START_DATA ++ [0]))) =
      83 :: ([116, 97, 114, 116, 67, 111, 108, 117, 109, 110, 115] ++
        ([0] ++ (fb ++ (START_DATA ++ [0])))) from rfl,
    findSub_cons_of_ne _ _ _ hc1,
    show ([116, 97, 114, 116, 67, 111, 108, 117, 109, 110, 115] : Bytes) ++
        ([0] ++ (fb ++ (START_DATA ++ [0]))) =
      (([116, 97, 114, 116, 67, 111, 108, 117, 109, 110, 115] : Bytes) ++
        ([0] ++ fb)) ++ (START_DATA ++ [0]) from by simp,
    findSub_append_of_head_notin _ _ _ (by decide) hmid,
    show START_DATA ++ [0] =
      83 :: (([116, 97, 114, 116, 68, 97, 116, 97] : Bytes) ++ [0]) from rfl,
    findSub_cons_of_ne _ _ _ hc2,
    findSub_eq_length_of_head_notin _ _ (by decide) hend]
  simp [List.length_append]

/-- The constants loop parses back exactly the key=value entries laid out by
formatHeader, leaving the stream at the fieldnames block. The stream starts
just past the line token of the first constant, as parseLogDataRaw positions
it. -/
theorem parseConstantsLoop_spec :
    ∀ (cs : List (Bytes × Bytes)) (fuel : ℕ) (kv : Bytes × Bytes)
      (fb : Bytes) (acc : List (Bytes × Bytes)),
    (∀ x ∈ kv :: cs, wfConstant x) → (83 : ℕ) ∉ fb → cs.length < fuel →
    parseConstantsLoop fuel
      (kv.1 ++ (TELEMETRY_CONSTANT_DELIMITER ++ (kv.2 ++ ([0] ++
        ((cs.map (fun (x : Bytes × Bytes) => START_LINE_TOKEN ++ x.1 ++
          TELEMETRY_CONSTANT_DELIMITER ++ x.2 ++ [0])).flatten ++
        (START_COLUMNS ++ ([0] ++ (fb ++ (START_DATA ++ [0]))))))))) acc =
      (acc ++ (kv :: cs), fb ++ (START_DATA ++ [0])) := by
  intro cs
  induction cs with
  | nil =>
    intro fuel kv fb acc hwf hfb hfuel
    obtain ⟨f, rfl⟩ : ∃ f, fuel = f + 1 := ⟨fuel - 1, by omega⟩
    have hk : wfKey kv.1 := (hwf kv (List.mem_cons_self kv [])).1
    have hv : wfName kv.2 := (hwf kv (List.mem_cons_self kv [])).2
    have hpre : (83 : ℕ) ∉
        kv.1 ++ (TELEMETRY_CONSTANT_DELIMITER ++ (kv.2 ++ [0])) := by
      intro hm
      rcases List.mem_append.mp hm with h | hm2
      · exact hk.1.1 h
      rcases List.mem_append.mp hm2 with h | hm3
      · exact absurd h (by decide)
      rcases List.mem_append.mp hm3 with h | h
      · exact hv.1 h
      · exact absurd h (by decide)
    simp only [parseConstantsLoop, List.map_nil, List.flatten_nil,
      List.nil_append]
    have hfind1 : findSub START_LINE_TOKEN
        (kv.1 ++ (TELEMETRY_CONSTANT_DELIMITER ++ (kv.2 ++ ([0] ++
          (START_COLUMNS ++ ([0] ++ (fb ++ (START_DATA ++ [0])))))))) =
        (kv.1 ++ (TELEMETRY_CONSTANT_DELIMITER ++ (kv.2 ++ ([0] ++
          (START_COLUMNS ++ ([0] ++ (fb ++ (START_DATA ++ [0])))))))).length := by
      rw [show kv.1 ++ (TELEMETRY_CONSTANT_DELIMITER ++ (kv.2 ++ ([0] ++
          (START_COLUMNS ++ ([0] ++ (fb ++ (START_DATA ++ [0]))))))) =
          (kv.1 ++ (TELEMETRY_CONSTANT_DELIMITER ++ (kv.2 ++ [0]))) ++
            (START_COLUMNS ++ ([0] ++ (fb ++ (START_DATA ++ [0])))) from
          by simp,
        findSub_append_of_head_notin START_LINE_TOKEN
          (kv.1 ++ (TELEMETRY_CONSTANT_DELIMITER ++ (kv.2 ++ [0]))) _
          (by decide) hpre,
        findSub_SLT_tail fb hfb]
      simp [List.length_append]
      omega
    rw [hfind1]
    simp only [eq_self_iff_true, if_true]
    have hfind2 : findSub START_COLUMNS
        (kv.1 ++ (TELEMETRY_CONSTANT_DELIMITER ++ (kv.2 ++ ([0] ++
          (START_COLUMNS ++ ([0] ++ (fb ++ (START_DATA ++ [0])))))))) =
        (kv.1 ++ (TELEMETRY_CONSTANT_DELIMITER ++ (kv.2 ++ [0]))).length := by
      rw [show kv.1 ++ (TELEMETRY_CONSTANT_DELIMITER ++ (kv.2 ++ ([0] ++
          (START_COLUMNS ++ ([0] ++ (fb ++ (START_DATA ++ [0]))))))) =
          (kv.1 ++ (TELEMETRY_CONSTANT_DELIMITER ++ (kv.2 ++ [0]))) ++
            (START_COLUMNS ++ ([0] ++ (fb ++ (START_DATA ++ [0])))) from
          by simp,
        findSub_append_of_head_notin START_COLUMNS
          (kv.1 ++ (TELEMETRY_CONSTANT_DELIMITER ++ (kv.2 ++ [0]))) _
          (by decide) hpre,
        findSub_prefix _ _ (by decide)]
      omega
    rw [hfind2]
    have htake1 : (kv.1 ++ (TELEMETRY_CONSTANT_DELIMITER ++ (kv.2 ++ ([0] ++
        (START_COLUMNS ++ ([0] ++ (fb ++ (START_DATA ++ [0])))))))).take
        ((kv.1 ++ (TELEMETRY_CONSTANT_DELIMITER ++ (kv.2 ++ [0]))).length) =
        kv.1 ++ (TELEMETRY_CONSTANT_DELIMITER ++ (kv.2 ++ [0])) := by
      rw [show kv.1 ++ (TELEMETRY_CONSTANT_DELIMITER ++ (kv.2 ++ ([0] ++
          (START_COLUMNS ++ ([0] ++ (fb ++ (START_DATA ++ [0]))))))) =
          (kv.1 ++ (TELEMETRY_CONSTANT_DELIMITER ++ (kv.2 ++ [0]))) ++
            (START_COLUMNS ++ ([0] ++ (fb ++ (START_DATA ++ [0])))) from
          by simp]
      exact List.take_left' rfl
    rw [htake1]
    have hfind3 : findSub TELEMETRY_CONSTANT_DELIMITER
        (kv.1 ++ (TELEMETRY_CONSTANT_DELIMITER ++ (kv.2 ++ [0]))) =
        kv.1.length := by
      rw [findSub_append_of_head_notin TELEMETRY_CONSTANT_DELIMITER kv.1 _
          (by decide) (fun hm => hk.2 (show (61 : ℕ) ∈ kv.1 from hm)),
        findSub_prefix _ _ (by decide)]
      omega
    rw [hfind3]
    have htake2 : (kv.1 ++ (TELEMETRY_CONSTANT_DELIMITER ++ (kv.2 ++ ([0] ++
        (START_COLUMNS ++ ([0] ++ (fb ++ (START_DATA ++ [0])))))))).take
        kv.1.length = kv.1 :=
      List.take_left' rfl
    have hL1 : (kv.1 ++ (TELEMETRY_CONSTANT_DELIMITER ++
        (kv.2 ++ [0]))).length - 1 =
        (kv.1 ++ (TELEMETRY_CONSTANT_DELIMITER ++ kv.2)).length := by
      simp only [List.length_append, List.length_cons, List.length_nil]
      omega
    have htake3 : (kv.1 ++ (TELEMETRY_CONSTANT_DELIMITER ++ (kv.2 ++ ([0] ++
        (START_COLUMNS ++ ([0] ++ (fb ++ (START_DATA ++ [0])))))))).take
        ((kv.1 ++ (TELEMETRY_CONSTANT_DELIMITER ++ kv.2)).length) =
        kv.1 ++ (TELEMETRY_CONSTANT_DELIMITER ++ kv.2) := by
      rw [show kv.1 ++ (TELEMETRY_CONSTANT_DELIMITER ++ (kv.2 ++ ([0] ++
          (START_COLUMNS ++ ([0] ++ (fb ++ (START_DATA ++ [0]))))))) =
          (kv.1 ++ (TELEMETRY_CONSTANT_DELIMITER ++ kv.2)) ++
            ([0] ++ (START_COLUMNS ++ ([0] ++ (fb ++ (START_DATA ++ [0])))))
          from by simp]
      exact List.take_left' rfl
    have hdrop1 : (kv.1 ++ (TELEMETRY_CONSTANT_DELIMITER ++ kv.2)).drop
        (kv.1.length + TELEMETRY_CONSTANT_DELIMITER.length) = kv.2 := by
      rw [show kv.1 ++ (TELEMETRY_CONSTANT_DELIMITER ++ kv.2) =
          (kv.1 ++ TELEMETRY_CONSTANT_DELIMITER) ++ kv.2 from by simp,
        List.drop_left' (by simp)]
    have hidx : (kv.1 ++ (TELEMETRY_CONSTANT_DELIMITER ++
        (kv.2 ++ [0]))).length + START_COLUMNS.length + 1 =
        ((kv.1 ++ (TELEMETRY_CONSTANT_DELIMITER ++ (kv.2 ++ [0]))) ++
          (START_COLUMNS ++ [0])).length := by
      simp only [List.length_append, List.length_cons, List.length_nil]
      omega
    have hdrop2 : (kv.1 ++ (TELEMETRY_CONSTANT_DELIMITER ++ (kv.2 ++ ([0] ++
        (START_COLUMNS ++ ([0] ++ (fb ++ (START_DATA ++ [0])))))))).drop
        (((kv.1 ++ (TELEMETRY_CONSTANT_DELIMITER ++ (kv.2 ++ [0]))) ++
          (START_COLUMNS ++ [0])).length) = fb ++ (START_DATA ++ [0]) := by
      rw [show kv.1 ++ (TELEMETRY_CONSTANT_DELIMITER ++ (kv.2 ++ ([0] ++
          (START_COLUMNS ++ ([0] ++ (fb ++ (START_DATA ++ [0]))))))) =
          ((kv.1 ++ (TELEMETRY_CONSTANT_DELIMITER ++ (kv.2 ++ [0]))) ++
            (START_COLUMNS ++ [0])) ++ (fb ++ (START_DATA ++ [0])) from
          by simp]
      exact List.drop_left' rfl
    rw [htake2, hL1, htake3, hdrop1, hidx, hdrop2]
  | cons kv2 cs2 ih =>
    intro fuel kv fb acc hwf hfb hfuel
    obtain ⟨f, rfl⟩ : ∃ f, fuel = f + 1 := ⟨fuel - 1, by omega⟩
    have hk : wfKey kv.1 := (hwf kv (List.mem_cons_self kv _)).1
    have hv : wfName kv.2 := (hwf kv (List.mem_cons_self kv _)).2
    have hpre : (83 : ℕ) ∉
        kv.1 ++ (TELEMETRY_CONSTANT_DELIMITER ++ (kv.2 ++ [0])) := by
      intro hm
      rcases List.mem_append.mp hm with h | hm2
      · exact hk.1.1 h
      rcases List.mem_append.mp hm2 with h | hm3
      · exact absurd h (by decide)
      rcases List.mem_append.mp hm3 with h | h
      · exact hv.1 h
      · exact absurd h (by decide)
    simp only [parseConstantsLoop, List.map_cons, List.flatten_cons]
    have hshape : kv.1 ++ (TELEMETRY_CONSTANT_DELIMITER ++ (kv.2 ++ ([0] ++
        ((START_LINE_TOKEN ++ kv2.1 ++ TELEMETRY_CONSTANT_DELIMITER ++
            kv2.2 ++ [0] ++
          (cs2.map (fun (x : Bytes × Bytes) => START_LINE_TOKEN ++ x.1 ++
            TELEMETRY_CONSTANT_DELIMITER ++ x.2 ++ [0])).flatten) ++
        (START_COLUMNS ++ ([0] ++ (fb ++ (START_DATA ++ [0])))))))) =
        (kv.1 ++ (TELEMETRY_CONSTANT_DELIMITER ++ (kv.2 ++ [0]))) ++
          (START_LINE_TOKEN ++ (kv2.1 ++ (TELEMETRY_CONSTANT_DELIMITER ++
            (kv2.2 ++ ([0] ++
              ((cs2.map (fun (x : Bytes × Bytes) => START_LINE_TOKEN ++ x.1 ++
                TELEMETRY_CONSTANT_DELIMITER ++ x.2 ++ [0])).flatten ++
              (START_COLUMNS ++ ([0] ++ (fb ++ (START_DATA ++ [0])))))))))) := by
      simp [List.append_assoc]
    rw [hshape]
    have hfind1 : findSub START_LINE_TOKEN
        ((kv.1 ++ (TELEMETRY_CONSTANT_DELIMITER ++ (kv.2 ++ [0]))) ++
          (START_LINE_TOKEN ++ (kv2.1 ++ (TELEMETRY_CONSTANT_DELIMITER ++
            (kv2.2 ++ ([0] ++
              ((cs2.map (fun (x : Bytes × Bytes) => START_LINE_TOKEN ++ x.1 ++
                TELEMETRY_CONSTANT_DELIMITER ++ x.2 ++ [0])).flatten ++
              (START_COLUMNS ++ ([0] ++ (fb ++ (START_DATA ++ [0])))))))))))
        = (kv.1 ++ (TELEMETRY_CONSTANT_DELIMITER ++ (kv.2 ++ [0]))).length := by
      rw [show START_LINE_TOKEN ++ (kv2.1 ++ (TELEMETRY_CONSTANT_DELIMITER ++
            (kv2.2 ++ ([0] ++
              ((cs2.map (fun (x : Bytes × Bytes) => START_LINE_TOKEN ++ x.1 ++
                TELEMETRY_CONSTANT_DELIMITER ++ x.2 ++ [0])).flatten ++
              (START_COLUMNS ++ ([0] ++ (fb ++ (START_DATA ++ [0]))))))))) =
          START_LINE_TOKEN ++ (kv2.1 ++ (TELEMETRY_CONSTANT_DELIMITER ++
            (kv2.2 ++ ([0] ++
              ((cs2.map (fun (x : Bytes × Bytes) => START_LINE_TOKEN ++ x.1 ++
                TELEMETRY_CONSTANT_DELIMITER ++ x.2 ++ [0])).flatten ++
              (START_COLUMNS ++ ([0] ++ (fb ++ (START_DATA ++ [0]))))))))) from
          rfl,
        findSub_append_of_head_notin START_LINE_TOKEN
          (kv.1 ++ (TELEMETRY_CONSTANT_DELIMITER ++ (kv.2 ++ [0]))) _
          (by decide) hpre,
        findSub_prefix _ _ (by decide)]
      omega
    rw [hfind1]
    have hne : ¬((kv.1 ++ (TELEMETRY_CONSTANT_DELIMITER ++
        (kv.2 ++ [0]))).length =
        ((kv.1 ++ (TELEMETRY_CONSTANT_DELIMITER ++ (kv.2 ++ [0]))) ++
          (START_LINE_TOKEN ++ (kv2.1 ++ (TELEMETRY_CONSTANT_DELIMITER ++
            (kv2.2 ++ ([0] ++
              ((cs2.map (fun (x : Bytes × Bytes) => START_LINE_TOKEN ++ x.1 ++
                TELEMETRY_CONSTANT_DELIMITER ++ x.2 ++ [0])).flatten ++
              (START_COLUMNS ++ ([0] ++ (fb ++
                (START_DATA ++ [0]))))))))))).length) := by
      simp [List.length_append]
    simp only [if_neg hne]
    have htake1 : ((kv.1 ++ (TELEMETRY_CONSTANT_DELIMITER ++ (kv.2 ++ [0]))) ++
        (START_LINE_TOKEN ++ (kv2.1 ++ (TELEMETRY_CONSTANT_DELIMITER ++
          (kv2.2 ++ ([0] ++
            ((cs2.map (fun (x : Bytes × Bytes) => START_LINE_TOKEN ++ x.1 ++
              TELEMETRY_CONSTANT_DELIMITER ++ x.2 ++ [0])).flatten ++
            (START_COLUMNS ++ ([0] ++ (fb ++ (START_DATA ++ [0]))))))))))).take
        ((kv.1 ++ (TELEMETRY_CONSTANT_DELIMITER ++ (kv.2 ++ [0]))).length) =
        kv.1 ++ (TELEMETRY_CONSTANT_DELIMITER ++ (kv.2 ++ [0])) :=
      List.take_left' rfl
    rw [htake1]
    have hfind3 : findSub TELEMETRY_CONSTANT_DELIMITER
        (kv.1 ++ (TELEMETRY_CONSTANT_DELIMITER ++ (kv.2 ++ [0]))) =
        kv.1.length := by
      rw [findSub_append_of_head_notin TELEMETRY_CONSTANT_DELIMITER kv.1 _
          (by decide) (fun hm => hk.2 (show (61 : ℕ) ∈ kv.1 from hm)),
        findSub_prefix _ _ (by decide)]
      omega
    rw [hfind3]
    have htake2 : ((kv.1 ++ (TELEMETRY_CONSTANT_DELIMITER ++ (kv.2 ++ [0]))) ++
        (START_LINE_TOKEN ++ (kv2.1 ++ (TELEMETRY_CONSTANT_DELIMITER ++
          (kv2.2 ++ ([0] ++
            ((cs2.map (fun (x : Bytes × Bytes) => START_LINE_TOKEN ++ x.1 ++
              TELEMETRY_CONSTANT_DELIMITER ++ x.2 ++ [0])).flatten ++
            (START_COLUMNS ++ ([0] ++ (fb ++ (START_DATA ++ [0]))))))))))).take
        kv.1.length = kv.1 := by
      rw [show (kv.1 ++ (TELEMETRY_CONSTANT_DELIMITER ++ (kv.2 ++ [0]))) ++
          (START_LINE_TOKEN ++ (kv2.1 ++ (TELEMETRY_CONSTANT_DELIMITER ++
            (kv2.2 ++ ([0] ++
              ((cs2.map (fun (x : Bytes × Bytes) => START_LINE_TOKEN ++ x.1 ++
                TELEMETRY_CONSTANT_DELIMITER ++ x.2 ++ [0])).flatten ++
              (START_COLUMNS ++ ([0] ++ (fb ++ (START_DATA ++ [0]))))))))))
          = kv.1 ++ ((TELEMETRY_CONSTANT_DELIMITER ++ (kv.2 ++ [0])) ++
            (START_LINE_TOKEN ++ (kv2.1 ++ (TELEMETRY_CONSTANT_DELIMITER ++
              (kv2.2 ++ ([0] ++
                ((cs2.map (fun (x : Bytes × Bytes) => START_LINE_TOKEN ++ x.1 ++
                  TELEMETRY_CONSTANT_DELIMITER ++ x.2 ++ [0])).flatten ++
                (START_COLUMNS ++ ([0] ++ (fb ++
                  (START_DATA ++ [0]))))))))))) from by simp]
      exact List.take_left' rfl
    rw [htake2]
    have hL1 : (kv.1 ++ (TELEMETRY_CONSTANT_DELIMITER ++
        (kv.2 ++ [0]))).length - 1 =
        (kv.1 ++ (TELEMETRY_CONSTANT_DELIMITER ++ kv.2)).length := by
      simp only [List.length_append, List.length_cons, List.length_nil]
      omega
    rw [hL1]
    have htake3 : ((kv.1 ++ (TELEMETRY_CONSTANT_DELIMITER ++ (kv.2 ++ [0]))) ++
        (START_LINE_TOKEN ++ (kv2.1 ++ (TELEMETRY_CONSTANT_DELIMITER ++
          (kv2.2 ++ ([0] ++
            ((cs2.map (fun (x : Bytes × Bytes) => START_LINE_TOKEN ++ x.1 ++
              TELEMETRY_CONSTANT_DELIMITER ++ x.2 ++ [0])).flatten ++
            (START_COLUMNS ++ ([0] ++ (fb ++ (START_DATA ++ [0]))))))))))).take
        ((kv.1 ++ (TELEMETRY_CONSTANT_DELIMITER ++ kv.2)).length) =
        kv.1 ++ (TELEMETRY_CONSTANT_DELIMITER ++ kv.2) := by
      rw [show (kv.1 ++ (TELEMETRY_CONSTANT_DELIMITER ++ (kv.2 ++ [0]))) ++
          (START_LINE_TOKEN ++ (kv2.1 ++ (TELEMETRY_CONSTANT_DELIMITER ++
            (kv2.2 ++ ([0] ++
              ((cs2.map (fun (x : Bytes × Bytes) => START_LINE_TOKEN ++ x.1 ++
                TELEMETRY_CONSTANT_DELIMITER ++ x.2 ++ [0])).flatten ++
              (START_COLUMNS ++ ([0] ++ (fb ++ (START_DATA ++ [0]))))))))))
          = (kv.1 ++ (TELEMETRY_CONSTANT_DELIMITER ++ kv.2)) ++
            ([0] ++ (START_LINE_TOKEN ++ (kv2.1 ++
              (TELEMETRY_CONSTANT_DELIMITER ++
              (kv2.2 ++ ([0] ++
                ((cs2.map (fun (x : Bytes × Bytes) => START_LINE_TOKEN ++ x.1 ++
                  TELEMETRY_CONSTANT_DELIMITER ++ x.2 ++ [0])).flatten ++
                (START_COLUMNS ++ ([0] ++ (fb ++
                  (START_DATA ++ [0]))))))))))) from by simp]
      exact List.take_left' rfl
    rw [htake3]
    have hdrop1 : (kv.1 ++ (TELEMETRY_CONSTANT_DELIMITER ++ kv.2)).drop
        (kv.1.length + TELEMETRY_CONSTANT_DELIMITER.length) = kv.2 := by
      rw [show kv.1 ++ (TELEMETRY_CONSTANT_DELIMITER ++ kv.2) =
          (kv.1 ++ TELEMETRY_CONSTANT_DELIMITER) ++ kv.2 from by simp,
        List.drop_left' (by simp)]
    rw [hdrop1]
    have hidx : (kv.1 ++ (TELEMETRY_CONSTANT_DELIMITER ++
        (kv.2 ++ [0]))).length + START_LINE_TOKEN.length =
        ((kv.1 ++ (TELEMETRY_CONSTANT_DELIMITER ++ (kv.2 ++ [0]))) ++
          START_LINE_TOKEN).length := by
      simp only [List.length_append]
    rw [hidx]
    have hdrop2 : ((kv.1 ++ (TELEMETRY_CONSTANT_DELIMITER ++ (kv.2 ++ [0]))) ++
        (START_LINE_TOKEN ++ (kv2.1 ++ (TELEMETRY_CONSTANT_DELIMITER ++
          (kv2.2 ++ ([0] ++
            ((cs2.map (fun (x : Bytes × Bytes) => START_LINE_TOKEN ++ x.1 ++
              TELEMETRY_CONSTANT_DELIMITER ++ x.2 ++ [0])).flatten ++
            (START_COLUMNS ++ ([0] ++ (fb ++ (START_DATA ++ [0]))))))))))).drop
        (((kv.1 ++ (TELEMETRY_CONSTANT_DELIMITER ++ (kv.2 ++ [0]))) ++
          START_LINE_TOKEN).length) =
        kv2.1 ++ (TELEMETRY_CONSTANT_DELIMITER ++ (kv2.2 ++ ([0] ++
          ((cs2.map (fun (x : Bytes × Bytes) => START_LINE_TOKEN ++ x.1 ++
            TELEMETRY_CONSTANT_DELIMITER ++ x.2 ++ [0])).flatten ++
          (START_COLUMNS ++ ([0] ++ (fb ++ (START_DATA ++ [0])))))))) := by
      rw [show (kv.1 ++ (TELEMETRY_CONSTANT_DELIMITER ++ (kv.2 ++ [0]))) ++
          (START_LINE_TOKEN ++ (kv2.1 ++ (TELEMETRY_CONSTANT_DELIMITER ++
            (kv2.2 ++ ([0] ++
              ((cs2.map (fun (x : Bytes × Bytes) => START_LINE_TOKEN ++ x.1 ++
                TELEMETRY_CONSTANT_DELIMITER ++ x.2 ++ [0])).flatten ++
              (START_COLUMNS ++ ([0] ++ (fb ++ (START_DATA ++ [0]))))))))))
          = ((kv.1 ++ (TELEMETRY_CONSTANT_DELIMITER ++ (kv.2 ++ [0]))) ++
            START_LINE_TOKEN) ++
            (kv2.1 ++ (TELEMETRY_CONSTANT_DELIMITER ++ (kv2.2 ++ ([0] ++
              ((cs2.map (fun (x : Bytes × Bytes) => START_LINE_TOKEN ++ x.1 ++
                TELEMETRY_CONSTANT_DELIMITER ++ x.2 ++ [0])).flatten ++
              (START_COLUMNS ++ ([0] ++ (fb ++ (START_DATA ++ [0])))))))))
          from by simp]
      exact List.drop_left' rfl
    rw [hdrop2]
    rw [ih f kv2 fb (acc ++ [(kv.1, kv.2)])
      (fun x hx => hwf x (List.mem_cons_of_mem kv hx))
      hfb (by simp only [List.length_cons] at hfuel; omega)]
    simp

/-! ### Parser correctness: the data lines -/

theorem length_flatten_map8 {α : Type} (f : α → Bytes) (l : List α)
    (hf : ∀ a ∈ l, (f a).length = 8) :
    ((l.map f).flatten).length = 8 * l.length := by
  induction l with
  | nil => simp
  | cons a t ih =>
    simp only [List.map_cons, List.flatten_cons, List.length_append,
      List.length_cons]
    rw [hf a (List.mem_cons_self a t),
      ih (fun x hx => hf x (List.mem_cons_of_mem a hx))]
    ring

/-- Splitting a flat stream of eight-byte words recovers each word. -/
theorem decodeWords_flatten_map {α : Type} (f : α → Bytes) (l : List α)
    (hf : ∀ a ∈ l, (f a).length = 8) :
    decodeWords l.length (l.map f).flatten =
      l.map (fun a => bytesToNat (f a)) := by
  induction l with
  | nil => rfl
  | cons a t ih =>
    simp only [List.map_cons, List.flatten_cons, List.length_cons, decodeWords]
    rw [List.take_left' (hf a (List.mem_cons_self a t)),
      List.drop_left' (hf a (List.mem_cons_self a t)),
      ih (fun x hx => hf x (List.mem_cons_of_mem a hx))]

theorem toSigned64_bytesToNat_encodeInt64 (z : ℤ)
    (h1 : -(2 ^ 63) ≤ z) (h2 : z < 2 ^ 63) :
    toSigned64 (bytesToNat (encodeInt64 z)) = z :=
  decodeInt64_encodeInt64 z h1 h2

theorem map_toSigned64_encode (L : List ℤ)
    (hL : ∀ z ∈ L, -(2 ^ 63) ≤ z ∧ z < 2 ^ 63) :
    (L.map (fun z => bytesToNat (encodeInt64 z))).map toSigned64 = L := by
  induction L with
  | nil => rfl
  | cons a t ih =>
    simp only [List.map_cons]
    rw [toSigned64_bytesToNat_encodeInt64 a (hL a (List.mem_cons_self a t)).1
        (hL a (List.mem_cons_self a t)).2,
      ih (fun z hz => hL z (List.mem_cons_of_mem a hz))]

theorem map_bytesToNat_encodeWord8E (L : List ℕ)
    (hL : ∀ w ∈ L, w < 2 ^ 64) :
    L.map (fun w => bytesToNat (encodeWord 8 w)) = L := by
  induction L with
  | nil => rfl
  | cons a t ih =>
    simp only [List.map_cons]
    rw [bytesToNat_encodeWord8 a (hL a (List.mem_cons_self a t)),
      ih (fun w hw => hL w (List.mem_cons_of_mem a hw))]

set_option maxHeartbeats 1600000 in
/-- The data-line loop of the parser inverts the row serialization: the rows
come back exactly, and the zero padding after them is recognized as the end of
the chunk data. -/
theorem parseRows_spec (nI nF : ℕ) :
    ∀ (rows : List Row) (pad : ℕ),
    wfRows nI nF rows →
    parseRows (8 * nI) (8 * nF) (rowsBytes rows ++ List.replicate pad 0) =
      rows := by
  intro rows
  induction rows with
  | nil =>
    intro pad _
    rw [show rowsBytes [] = [] from rfl, List.nil_append]
    cases pad with
    | zero =>
      show parseRows (8 * nI) (8 * nF) [] = []
      simp only [parseRows]
    | succ p =>
      rw [List.replicate_succ]
      simp only [parseRows]
      rw [if_neg (by decide)]
  | cons row rest ih =>
    intro pad hwf
    have hrow := hwf row (List.mem_cons_self row rest)
    obtain ⟨hI, hF, hiv, hfv, ht⟩ := hrow
    have hs : rowsBytes (row :: rest) ++ List.replicate pad 0 =
        83 :: (([116, 97, 114, 116, 76, 105, 110, 101] : Bytes) ++
          (encodeInt64 row.time ++
            ((row.ints.map encodeInt64).flatten ++
              ((row.floats.map (encodeWord 8)).flatten ++
                (rowsBytes rest ++ List.replicate pad 0))))) := by
      simp [rowsBytes, encodeRowBytes, START_LINE_TOKEN, List.append_assoc]
    rw [hs]
    simp only [parseRows]
    rw [if_pos (by decide)]
    have hdrop9 : (83 :: (([116, 97, 114, 116, 76, 105, 110, 101] : Bytes) ++
        (encodeInt64 row.time ++
          ((row.ints.map encodeInt64).flatten ++
            ((row.floats.map (encodeWord 8)).flatten ++
              (rowsBytes rest ++ List.replicate pad 0)))))).drop
        START_LINE_TOKEN.length =
        encodeInt64 row.time ++
          ((row.ints.map encodeInt64).flatten ++
            ((row.floats.map (encodeWord 8)).flatten ++
              (rowsBytes rest ++ List.replicate pad 0))) := by
      rw [show (83 :: (([116, 97, 114, 116, 76, 105, 110, 101] : Bytes) ++
          (encodeInt64 row.time ++
            ((row.ints.map encodeInt64).flatten ++
              ((row.floats.map (encodeWord 8)).flatten ++
                (rowsBytes rest ++ List.replicate pad 0)))))) =
          (83 :: ([116, 97, 114, 116, 76, 105, 110, 101] : Bytes)) ++
            (encodeInt64 row.time ++
              ((row.ints.map encodeInt64).flatten ++
                ((row.floats.map (encodeWord 8)).flatten ++
                  (rowsBytes rest ++ List.replicate pad 0)))) from rfl,
        List.drop_left' (by decide)]
    rw [hdrop9]
    rw [List.take_left' (length_encodeInt64 row.time),
      List.drop_left' (length_encodeInt64 row.time)]
    have hilen : ((row.ints.map encodeInt64).flatten).length = 8 * nI := by
      rw [length_flatten_map8 _ _ (fun z _ => length_encodeInt64 z), hI]
    have hflen : ((row.floats.map (encodeWord 8)).flatten).length = 8 * nF := by
      rw [length_flatten_map8 _ _ (fun w _ => length_encodeWord 8 w), hF]
    rw [List.take_left' hilen, List.drop_left' hilen,
      List.take_left' hflen, List.drop_left' hflen]
    have hdiv : 8 * nI / 8 = nI := Nat.mul_div_cancel_left nI (by norm_num)
    have hdivF : 8 * nF / 8 = nF := Nat.mul_div_cancel_left nF (by norm_num)
    rw [hdiv, hdivF, ← hI, ← hF,
      decodeWords_flatten_map _ _ (fun z _ => length_encodeInt64 z),
      decodeWords_flatten_map _ _ (fun w _ => length_encodeWord 8 w)]
    rw [decodeInt64_encodeInt64 row.time ht.1 ht.2]
    rw [map_toSigned64_encode row.ints hiv, map_bytesToNat_encodeWord8E row.floats hfv]
    rw [hI, hF]
    rw [ih pad (fun r hr => hwf r (List.mem_cons_of_mem row hr))]

theorem length_le_flatten_entries (cs : List (Bytes × Bytes)) :
    cs.length ≤ ((cs.map (fun (x : Bytes × Bytes) => START_LINE_TOKEN ++ x.1 ++
      TELEMETRY_CONSTANT_DELIMITER ++ x.2 ++ [0])).flatten).length := by
  induction cs with
  | nil => simp
  | cons a t ih =>
    simp only [List.map_cons, List.flatten_cons, List.length_append,
      List.length_cons]
    omega

theorem length_le_flatten_names (names : List Bytes) :
    names.length ≤ ((names.map (fun f => f ++ [0])).flatten).length := by
  induction names with
  | nil => simp
  | cons a t ih =>
    simp only [List.map_cons, List.flatten_cons, List.length_append,
      List.length_cons]
    omega

theorem not83_flatten_names (names : List Bytes)
    (h : ∀ nm ∈ names, wfName nm) :
    (83 : ℕ) ∉ (names.map (fun f => f ++ [0])).flatten := by
  intro hm
  obtain ⟨l, hl, hml⟩ := List.mem_flatten.mp hm
  obtain ⟨nm, hnm, rfl⟩ := List.mem_map.mp hl
  rcases List.mem_append.mp hml with h1 | h1
  · exact (h nm hnm).1 h1
  · exact absurd h1 (by decide)

/-- parseFirstFlow on the first chunk of a recorder run: the version check
passes, the constants and fieldnames are parsed back from the header, the data
lines are parsed back from the byte image of the recorded rows, and the chunk
is handed back with its cursor where it was. -/
theorem parseFirstFlow_spec (td : TelemetryData) (tuStr : Bytes)
    (seg0 : List Row) (b : Bool) (cap : ℕ)
    (hconst : ∀ kv ∈ (td1Of td tuStr).constants, wfConstant kv)
    (hcne : (td1Of td tuStr).constants ≠ [])
    (hfn : ∀ f ∈ fieldNamesOf td tuStr, wfName f)
    (hseg : wfRows (td1Of td tuStr).intRegistry.length (td1Of td tuStr).floatRegistry.length seg0) :
    parseFirstFlow (8 * (td1Of td tuStr).intRegistry.length) (8 * (td1Of td tuStr).floatRegistry.length)
      (headerOf td tuStr).length
      (mkChunk cap (headerOf td tuStr ++ rowsBytes seg0) b) =
    (hresult.SUCCESS,
      ((td1Of td tuStr).constants, fieldNamesOf td tuStr, seg0),
      mkChunk cap (headerOf td tuStr ++ rowsBytes seg0) b) := by
  rcases hcs : (td1Of td tuStr).constants with _ | ⟨kv0, cs⟩
  · exact absurd hcs hcne
  rw [hcs] at hconst
  have hhead : headerOf td tuStr =
      encodeWord 4 TELEMETRY_VERSION ++ (START_CONSTANTS ++ ([0] ++ (START_LINE_TOKEN ++ (kv0.1 ++ (TELEMETRY_CONSTANT_DELIMITER ++ (kv0.2 ++ ([0] ++ ((cs.map (fun (x : Bytes × Bytes) => START_LINE_TOKEN ++ x.1 ++ TELEMETRY_CONSTANT_DELIMITER ++ x.2 ++ [0])).flatten ++ (START_COLUMNS ++ ([0] ++ (((fieldNamesOf td tuStr).map (fun f => f ++ [0])).flatten ++ (START_DATA ++ [0])))))))))))) := by
    rw [headerOf, formatHeader, hcs]
    simp [List.append_assoc, fieldNamesOf]
  have hfb : (83 : ℕ) ∉ ((fieldNamesOf td tuStr).map (fun f => f ++ [0])).flatten :=
    not83_flatten_names (fieldNamesOf td tuStr) hfn
  have hlenH : List.length (headerOf td tuStr) =
      4 + (START_CONSTANTS ++ ([0] ++ (START_LINE_TOKEN ++ (kv0.1 ++ (TELEMETRY_CONSTANT_DELIMITER ++ (kv0.2 ++ ([0] ++ ((cs.map (fun (x : Bytes × Bytes) => START_LINE_TOKEN ++ x.1 ++ TELEMETRY_CONSTANT_DELIMITER ++ x.2 ++ [0])).flatten ++ (START_COLUMNS ++ ([0] ++ (((fieldNamesOf td tuStr).map (fun f => f ++ [0])).flatten ++ (START_DATA ++ [0])))))))))))).length := by
    rw [hhead, List.length_append, length_encodeWord]
  have h4v : bytesToNat (List.take 4 (List.drop 0 (headerOf td tuStr ++ rowsBytes seg0 ++ List.replicate (cap - List.length (headerOf td tuStr ++ rowsBytes seg0)) 0))) =
      TELEMETRY_VERSION := by
    rw [List.drop_zero,
      show headerOf td tuStr ++ rowsBytes seg0 ++ List.replicate (cap - List.length (headerOf td tuStr ++ rowsBytes seg0)) 0 =
        encodeWord 4 TELEMETRY_VERSION ++ ((START_CONSTANTS ++ ([0] ++ (START_LINE_TOKEN ++ (kv0.1 ++ (TELEMETRY_CONSTANT_DELIMITER ++ (kv0.2 ++ ([0] ++ ((cs.map (fun (x : Bytes × Bytes) => START_LINE_TOKEN ++ x.1 ++ TELEMETRY_CONSTANT_DELIMITER ++ x.2 ++ [0])).flatten ++ (START_COLUMNS ++ ([0] ++ (((fieldNamesOf td tuStr).map (fun f => f ++ [0])).flatten ++ (START_DATA ++ [0])))))))))))) ++
          (rowsBytes seg0 ++ List.replicate (cap - List.length (headerOf td tuStr ++ rowsBytes seg0)) 0)) from by rw [hhead]; simp [List.append_assoc],
      List.take_left' (length_encodeWord 4 TELEMETRY_VERSION),
      bytesToNat_encodeWord]
    decide
  have hbA : List.take (List.length (headerOf td tuStr) - 4)
      (List.drop 4 (headerOf td tuStr ++ rowsBytes seg0 ++ List.replicate (cap - List.length (headerOf td tuStr ++ rowsBytes seg0)) 0)) = START_CONSTANTS ++ ([0] ++ (START_LINE_TOKEN ++ (kv0.1 ++ (TELEMETRY_CONSTANT_DELIMITER ++ (kv0.2 ++ ([0] ++ ((cs.map (fun (x : Bytes × Bytes) => START_LINE_TOKEN ++ x.1 ++ TELEMETRY_CONSTANT_DELIMITER ++ x.2 ++ [0])).flatten ++ (START_COLUMNS ++ ([0] ++ (((fieldNamesOf td tuStr).map (fun f => f ++ [0])).flatten ++ (START_DATA ++ [0]))))))))))) := by
    rw [show headerOf td tuStr ++ rowsBytes seg0 ++ List.replicate (cap - List.length (headerOf td tuStr ++ rowsBytes seg0)) 0 =
        encodeWord 4 TELEMETRY_VERSION ++ ((START_CONSTANTS ++ ([0] ++ (START_LINE_TOKEN ++ (kv0.1 ++ (TELEMETRY_CONSTANT_DELIMITER ++ (kv0.2 ++ ([0] ++ ((cs.map (fun (x : Bytes × Bytes) => START_LINE_TOKEN ++ x.1 ++ TELEMETRY_CONSTANT_DELIMITER ++ x.2 ++ [0])).flatten ++ (START_COLUMNS ++ ([0] ++ (((fieldNamesOf td tuStr).map (fun f => f ++ [0])).flatten ++ (START_DATA ++ [0])))))))))))) ++
          (rowsBytes seg0 ++ List.replicate (cap - List.length (headerOf td tuStr ++ rowsBytes seg0)) 0)) from by rw [hhead]; simp [List.append_assoc],
      List.drop_left' (length_encodeWord 4 TELEMETRY_VERSION),
      List.take_left' (by omega)]
  have hbB : List.drop (List.length START_CONSTANTS + 1 +
      List.length START_LINE_TOKEN) (START_CONSTANTS ++ ([0] ++ (START_LINE_TOKEN ++ (kv0.1 ++ (TELEMETRY_CONSTANT_DELIMITER ++ (kv0.2 ++ ([0] ++ ((cs.map (fun (x : Bytes × Bytes) => START_LINE_TOKEN ++ x.1 ++ TELEMETRY_CONSTANT_DELIMITER ++ x.2 ++ [0])).flatten ++ (START_COLUMNS ++ ([0] ++ (((fieldNamesOf td tuStr).map (fun f => f ++ [0])).flatten ++ (START_DATA ++ [0])))))))))))) = kv0.1 ++ (TELEMETRY_CONSTANT_DELIMITER ++ (kv0.2 ++ ([0] ++ ((cs.map (fun (x : Bytes × Bytes) => START_LINE_TOKEN ++ x.1 ++ TELEMETRY_CONSTANT_DELIMITER ++ x.2 ++ [0])).flatten ++ (START_COLUMNS ++ ([0] ++ (((fieldNamesOf td tuStr).map (fun f => f ++ [0])).flatten ++ (START_DATA ++ [0])))))))) := by
    rw [show START_CONSTANTS ++ ([0] ++ (START_LINE_TOKEN ++ (kv0.1 ++ (TELEMETRY_CONSTANT_DELIMITER ++ (kv0.2 ++ ([0] ++ ((cs.map (fun (x : Bytes × Bytes) => START_LINE_TOKEN ++ x.1 ++ TELEMETRY_CONSTANT_DELIMITER ++ x.2 ++ [0])).flatten ++ (START_COLUMNS ++ ([0] ++ (((fieldNamesOf td tuStr).map (fun f => f ++ [0])).flatten ++ (START_DATA ++ [0]))))))))))) =
        (START_CONSTANTS ++ ([0] ++ START_LINE_TOKEN)) ++ (kv0.1 ++ (TELEMETRY_CONSTANT_DELIMITER ++ (kv0.2 ++ ([0] ++ ((cs.map (fun (x : Bytes × Bytes) => START_LINE_TOKEN ++ x.1 ++ TELEMETRY_CONSTANT_DELIMITER ++ x.2 ++ [0])).flatten ++ (START_COLUMNS ++ ([0] ++ (((fieldNamesOf td tuStr).map (fun f => f ++ [0])).flatten ++ (START_DATA ++ [0]))))))))) from by
          simp [List.append_assoc],
      List.drop_left' (by
        simp only [List.length_append, List.length_cons, List.length_nil]
        omega)]
  have hfuelC : cs.length < (START_CONSTANTS ++ ([0] ++ (START_LINE_TOKEN ++ (kv0.1 ++ (TELEMETRY_CONSTANT_DELIMITER ++ (kv0.2 ++ ([0] ++ ((cs.map (fun (x : Bytes × Bytes) => START_LINE_TOKEN ++ x.1 ++ TELEMETRY_CONSTANT_DELIMITER ++ x.2 ++ [0])).flatten ++ (START_COLUMNS ++ ([0] ++ (((fieldNamesOf td tuStr).map (fun f => f ++ [0])).flatten ++ (START_DATA ++ [0])))))))))))).length + 1 := by
    have h1 := length_le_flatten_entries cs
    simp only [List.length_append, List.length_cons, List.length_nil]
    omega
  have hbC : parseConstantsLoop ((START_CONSTANTS ++ ([0] ++ (START_LINE_TOKEN ++ (kv0.1 ++ (TELEMETRY_CONSTANT_DELIMITER ++ (kv0.2 ++ ([0] ++ ((cs.map (fun (x : Bytes × Bytes) => START_LINE_TOKEN ++ x.1 ++ TELEMETRY_CONSTANT_DELIMITER ++ x.2 ++ [0])).flatten ++ (START_COLUMNS ++ ([0] ++ (((fieldNamesOf td tuStr).map (fun f => f ++ [0])).flatten ++ (START_DATA ++ [0])))))))))))).length + 1) (kv0.1 ++ (TELEMETRY_CONSTANT_DELIMITER ++ (kv0.2 ++ ([0] ++ ((cs.map (fun (x : Bytes × Bytes) => START_LINE_TOKEN ++ x.1 ++ TELEMETRY_CONSTANT_DELIMITER ++ x.2 ++ [0])).flatten ++ (START_COLUMNS ++ ([0] ++ (((fieldNamesOf td tuStr).map (fun f => f ++ [0])).flatten ++ (START_DATA ++ [0]))))))))) [] =
      (kv0 :: cs, ((fieldNamesOf td tuStr).map (fun f => f ++ [0])).flatten ++ (START_DATA ++ [0])) := by
    have h := parseConstantsLoop_spec cs ((START_CONSTANTS ++ ([0] ++ (START_LINE_TOKEN ++ (kv0.1 ++ (TELEMETRY_CONSTANT_DELIMITER ++ (kv0.2 ++ ([0] ++ ((cs.map (fun (x : Bytes × Bytes) => START_LINE_TOKEN ++ x.1 ++ TELEMETRY_CONSTANT_DELIMITER ++ x.2 ++ [0])).flatten ++ (START_COLUMNS ++ ([0] ++ (((fieldNamesOf td tuStr).map (fun f => f ++ [0])).flatten ++ (START_DATA ++ [0])))))))))))).length + 1) kv0
      (((fieldNamesOf td tuStr).map (fun f => f ++ [0])).flatten) [] hconst hfb hfuelC
    rw [List.nil_append] at h
    exact h
  have hfuelF : (fieldNamesOf td tuStr).length <
      (((fieldNamesOf td tuStr).map (fun f => f ++ [0])).flatten ++ (START_DATA ++ [0])).length + 1 := by
    have h1 := length_le_flatten_names (fieldNamesOf td tuStr)
    simp only [List.length_append, List.length_cons, List.length_nil]
    omega
  have hbD : parseFieldnamesLoop
      ((((fieldNamesOf td tuStr).map (fun f => f ++ [0])).flatten ++ (START_DATA ++ [0])).length + 1)
      (((fieldNamesOf td tuStr).map (fun f => f ++ [0])).flatten ++ (START_DATA ++ [0])) [] = fieldNamesOf td tuStr := by
    rw [parseFieldnamesLoop_spec (fieldNamesOf td tuStr) _ [] hfn hfuelF]
    simp
  have hbE : List.drop (4 + (List.length (headerOf td tuStr) - 4))
      (headerOf td tuStr ++ rowsBytes seg0 ++ List.replicate (cap - List.length (headerOf td tuStr ++ rowsBytes seg0)) 0) = rowsBytes seg0 ++ List.replicate (cap - List.length (headerOf td tuStr ++ rowsBytes seg0)) 0 := by
    rw [show 4 + (List.length (headerOf td tuStr) - 4) =
        List.length (headerOf td tuStr) from by
          have := headerOf_length_ge_four td tuStr
          omega,
      show headerOf td tuStr ++ rowsBytes seg0 ++ List.replicate (cap - List.length (headerOf td tuStr ++ rowsBytes seg0)) 0 = headerOf td tuStr ++ (rowsBytes seg0 ++ List.replicate (cap - List.length (headerOf td tuStr ++ rowsBytes seg0)) 0) from by
        simp [List.append_assoc],
      List.drop_left' rfl]
  have hbF : parseRows (8 * (td1Of td tuStr).intRegistry.length) (8 * (td1Of td tuStr).floatRegistry.length)
      (rowsBytes seg0 ++ List.replicate (cap - List.length (headerOf td tuStr ++ rowsBytes seg0)) 0) = seg0 :=
    parseRows_spec _ _ seg0 _ hseg
  simp only [parseFirstFlow, mkChunk, Nat.zero_add]
  have hcond : ¬(bytesToNat (List.take 4 (List.drop 0 (headerOf td tuStr ++ rowsBytes seg0 ++ List.replicate (cap - List.length (headerOf td tuStr ++ rowsBytes seg0)) 0))) ≠
      TELEMETRY_VERSION) := by
    rw [h4v]
    exact fun hc => hc rfl
  rw [if_neg hcond]
  rw [hbA, hbB, hbC]
  dsimp only []
  rw [hbD, hbE, hbF]

/-- parseRestFlow on a later chunk hands back its rows and the chunk with the
cursor restored. -/
theorem parseRestFlow_spec (nI nF : ℕ) (g : List Row) (b : Bool) (cap : ℕ)
    (hg : wfRows nI nF g) :
    parseRestFlow (8 * nI) (8 * nF) (mkChunk cap (rowsBytes g) b) =
      (g, mkChunk cap (rowsBytes g) b) := by
  simp only [parseRestFlow, mkChunk, List.drop_zero]
  rw [parseRows_spec nI nF g _ hg]

/-- Mapping parseRestFlow over the closed-form later chunks parses each group
back and leaves the chunks unchanged. -/
theorem map_parseRestFlow_spec (nI nF cap : ℕ) (gs : List (List Row))
    (hgs : ∀ g ∈ gs, wfRows nI nF g) :
    (gs.map (fun g => mkChunk cap (rowsBytes g) false)).map
        (parseRestFlow (8 * nI) (8 * nF)) =
      gs.map (fun g => (g, mkChunk cap (rowsBytes g) false)) := by
  induction gs with
  | nil => rfl
  | cons g t ih =>
    simp only [List.map_cons]
    rw [parseRestFlow_spec nI nF g false cap (hgs g (List.mem_cons_self g t)),
      ih (fun x hx => hgs x (List.mem_cons_of_mem g hx))]

theorem map_fst_pair {α β : Type} (f : α → β) (l : List α) :
    (l.map (fun a => (a, f a))).map Prod.fst = l := by
  induction l with
  | nil => rfl
  | cons a t ih =>
    simp only [List.map_cons]
    rw [ih]

theorem map_snd_pair {α β : Type} (f : α → β) (l : List α) :
    (l.map (fun a => (a, f a))).map Prod.snd = l.map f := by
  induction l with
  | nil => rfl
  | cons a t ih =>
    simp only [List.map_cons]
    rw [ih]

/-- parseLogDataRaw inverts the closed-form chunk list of a recorder run: it
succeeds, returns the header constants and fieldnames and one column entry per
recorded row in order, and hands the chunks back unchanged. -/
theorem parseLogDataRaw_flowsAfter (minBuf : ℕ) (td : TelemetryData)
    (tuStr : Bytes) (rows : List Row)
    (hrows : wfRows (td1Of td tuStr).intRegistry.length
      (td1Of td tuStr).floatRegistry.length rows)
    (hconst : ∀ kv ∈ (td1Of td tuStr).constants, wfConstant kv)
    (hcne : (td1Of td tuStr).constants ≠ [])
    (hfn : ∀ f ∈ fieldNamesOf td tuStr, wfName f) :
    parseLogDataRaw (8 * (td1Of td tuStr).intRegistry.length)
      (8 * (td1Of td tuStr).floatRegistry.length)
      (headerOf td tuStr).length (flowsAfter minBuf td tuStr rows) =
    (hresult.SUCCESS,
      { version := TELEMETRY_VERSION
        constants := (td1Of td tuStr).constants
        fieldnames := fieldNamesOf td tuStr
        timestamps := rows.map Row.time
        intData := rows.map Row.ints
        floatData := rows.map Row.floats },
      flowsAfter minBuf td tuStr rows) := by
  have hseg0 : wfRows (td1Of td tuStr).intRegistry.length
      (td1Of td tuStr).floatRegistry.length
      (rows.take (lines0Of minBuf td tuStr)) :=
    fun r hr => hrows r (List.take_subset _ _ hr)
  have hgmem : ∀ g ∈ groupN (lines1Of minBuf td tuStr)
      (rows.drop (lines0Of minBuf td tuStr)),
      wfRows (td1Of td tuStr).intRegistry.length
        (td1Of td tuStr).floatRegistry.length g := by
    intro g hg r hr
    have h2 := List.mem_flatten_of_mem hg hr
    rw [groupN_flatten] at h2
    exact hrows r (List.drop_subset _ _ h2)
  rcases hcase : (groupN (lines1Of minBuf td tuStr)
      (rows.drop (lines0Of minBuf td tuStr))).getLast? with _ | lastG
  · have hdropnil : rows.drop (lines0Of minBuf td tuStr) = [] := by
      rw [← groupN_eq_nil_iff (lines1Of minBuf td tuStr)]
      exact List.getLast?_eq_none_iff.mp hcase
    have htake : rows.take (lines0Of minBuf td tuStr) = rows :=
      List.take_of_length_le (List.drop_eq_nil_iff.mp hdropnil)
    rw [flowsAfter_none minBuf td tuStr rows hcase]
    simp only [parseLogDataRaw]
    rw [parseFirstFlow_spec td tuStr (rows.take (lines0Of minBuf td tuStr))
      true _ hconst hcne hfn hseg0]
    dsimp only []
    simp only [List.map_nil, List.flatten_nil, List.append_nil, htake]
  · have hlastwf : wfRows (td1Of td tuStr).intRegistry.length
        (td1Of td tuStr).floatRegistry.length lastG :=
      hgmem lastG (List.mem_of_getLast?_eq_some hcase)
    rw [flowsAfter_some minBuf td tuStr rows lastG hcase]
    simp only [parseLogDataRaw]
    rw [parseFirstFlow_spec td tuStr (rows.take (lines0Of minBuf td tuStr))
      false _ hconst hcne hfn hseg0]
    dsimp only []
    simp only [List.map_append]
    rw [map_parseRestFlow_spec (td1Of td tuStr).intRegistry.length
        (td1Of td tuStr).floatRegistry.length
        (lines1Of minBuf td tuStr * rowSizeOf td tuStr)
        (groupN (lines1Of minBuf td tuStr)
          (rows.drop (lines0Of minBuf td tuStr))).dropLast
        (fun g hg => hgmem g (List.dropLast_subset _ hg))]
    rw [show ([mkChunk (lines1Of minBuf td tuStr * rowSizeOf td tuStr)
        (rowsBytes lastG) true]).map
          (parseRestFlow (8 * (td1Of td tuStr).intRegistry.length)
            (8 * (td1Of td tuStr).floatRegistry.length)) =
        [(lastG, mkChunk (lines1Of minBuf td tuStr * rowSizeOf td tuStr)
          (rowsBytes lastG) true)] from by
      simp only [List.map_cons, List.map_nil]
      rw [parseRestFlow_spec _ _ lastG true _ hlastwf]]
    rw [map_fst_pair, map_snd_pair]
    simp only [List.map_cons, List.map_nil, List.flatten_append,
      List.flatten_cons, List.flatten_nil, List.append_nil]
    rw [show (groupN (lines1Of minBuf td tuStr)
        (rows.drop (lines0Of minBuf td tuStr))).dropLast.flatten ++ lastG =
        ((groupN (lines1Of minBuf td tuStr)
          (rows.drop (lines0Of minBuf td tuStr))).dropLast ++ [lastG]).flatten
        from by simp]
    rw [List.dropLast_append_getLast? lastG hcase, groupN_flatten]
    simp only [← List.map_append, List.take_append_drop]

/-- C1: telemetry round-trip. For every initialized recorder and every finite
sequence of flushed rows, getLog succeeds and reconstructs exactly the
recorded data: the header constants and fieldnames, and one column entry per
appended row in append order - stored int64 timestamps, then the integer and
float signal values bit-for-bit in registration order - with no extra or
missing rows even when the rows span several chunks or the last chunk is only
partially filled, and the recorder state is unchanged. -/
theorem telemetry_roundtrip (minBuf : ℕ) (td : TelemetryData) (tuStr : Bytes)
    (rows : List Row)
    (hmin : rowSizeOf td tuStr ≤ minBuf)
    (hrows : wfRows (td1Of td tuStr).intRegistry.length
      (td1Of td tuStr).floatRegistry.length rows)
    (hconst : ∀ kv ∈ (td1Of td tuStr).constants, wfConstant kv)
    (hcne : (td1Of td tuStr).constants ≠ [])
    (hfn : ∀ f ∈ fieldNamesOf td tuStr, wfName f) :
    (recordAll minBuf (TelemetryRecorder.fresh.setup minBuf td tuStr).2
        rows).getLog =
      (hresult.SUCCESS,
        { version := TELEMETRY_VERSION
          constants := (td1Of td tuStr).constants
          fieldnames := fieldNamesOf td tuStr
          timestamps := rows.map Row.time
          intData := rows.map Row.ints
          floatData := rows.map Row.floats },
        recordAll minBuf (TelemetryRecorder.fresh.setup minBuf td tuStr).2
          rows) := by
  rw [recordAll_eq_stateAfter minBuf td tuStr rows hmin hrows]
  unfold TelemetryRecorder.getLog
  rw [show parseLogDataRaw
      (stateAfter minBuf td tuStr rows).integerSectionSize
      (stateAfter minBuf td tuStr rows).floatSectionSize
      (stateAfter minBuf td tuStr rows).headerSize
      (stateAfter minBuf td tuStr rows).flows =
      (hresult.SUCCESS,
        { version := TELEMETRY_VERSION
          constants := (td1Of td tuStr).constants
          fieldnames := fieldNamesOf td tuStr
          timestamps := rows.map Row.time
          intData := rows.map Row.ints
          floatData := rows.map Row.floats },
        flowsAfter minBuf td tuStr rows) from
    parseLogDataRaw_flowsAfter minBuf td tuStr rows hrows hconst hcne hfn]
  rfl

/-- Closed witness for telemetry_roundtrip at the concrete session with one
recorded row. -/
theorem telemetry_roundtrip_witness :
    (rowSizeOf tdEx [49] ≤ 64 ∧
      wfRows (td1Of tdEx [49]).intRegistry.length
        (td1Of tdEx [49]).floatRegistry.length [rowEx] ∧
      (∀ kv ∈ (td1Of tdEx [49]).constants, wfConstant kv) ∧
      (td1Of tdEx [49]).constants ≠ [] ∧
      (∀ f ∈ fieldNamesOf tdEx [49], wfName f)) ∧
    (recordAll 64 (TelemetryRecorder.fresh.setup 64 tdEx [49]).2
        [rowEx]).getLog =
      (hresult.SUCCESS,
        { version := TELEMETRY_VERSION
          constants := (td1Of tdEx [49]).constants
          fieldnames := fieldNamesOf tdEx [49]
          timestamps := [rowEx].map Row.time
          intData := [rowEx].map Row.ints
          floatData := [rowEx].map Row.floats },
        recordAll 64 (TelemetryRecorder.fresh.setup 64 tdEx [49]).2
          [rowEx]) :=
  ⟨⟨by decide, by unfold wfRows; decide,
      by unfold wfConstant wfKey wfName; decide, by decide,
      by unfold wfName; decide⟩,
    telemetry_roundtrip 64 tdEx [49] [rowEx] (by decide)
      (by unfold wfRows; decide)
      (by unfold wfConstant wfKey wfName; decide) (by decide)
      (by unfold wfName; decide)⟩

end Jiminy
